import Mathlib

/-! # melonDS ImGui/SDL frontend: emulation worker, instance, save-flush manager, audio

A shallow embedding of `src/frontend/imgui_sdl/ImGuiEmuThread.{h,cpp}`,
`ImGuiEmuInstance.cpp`, `ImGuiSaveManager.cpp` and the focus handlers of
`ImGuiFrontend.cpp`.

Conventions of the embedding.

* C++ `int` fields are `Int`; `u32` fields are `Nat` reduced `% 2^32` where the
  source increments them.  The pause stack is an `int` that moves by one per handled
  message: `handleMessageInt` is the handler with the 32-bit wrap of the counter, and
  `handleMessage` the handler over the unbounded counter, which it equals as long as
  the counter stays inside `int`.
* The emulated console (`melonDS::NDS`, `melonDS::DSi`), SDL, the configuration
  table and the file system are not part of these sources.  What they answer is
  collected in a `Platform` record, or passed as an argument, to every operation that
  asks; the theorems hold for every such answer.
* `float` and `double` values of the audio path are rationals, and every operation on
  them is the exact operation followed by the rounding to binary32 or binary64
  (round to nearest, ties to even); sample memory is a function from the sample index
  to the sample.
* An operation is the sequential effect of its body on the state.  Threads appear only
  in the section on the message lock (`Sys`), where a calling thread and the worker
  move in interleaved steps between their operations on `msgMutex` and `msgCondition`.
-/

namespace MelonDS

/-! ## The emulated console, as far as the frontend observes it -/

/-- Construction arguments of `melonDS::NDS` (`melonDS::NDSArgs`): identifiers of the
BIOS images (`none` for a null pointer) and of the firmware (`0` for `Firmware(0)`). -/
structure NDSArgs where
  arm9bios : Option Nat
  arm7bios : Option Nat
  firmware : Nat
deriving DecidableEq, Repr

/-- Construction arguments of `melonDS::DSi` (`melonDS::DSiArgs`). -/
structure DSiArgs where
  ndsArgs : NDSArgs
  arm9ibios : Nat
  arm7ibios : Nat
  nand : Nat
  sdcard : Option Nat
  fullBIOSBoot : Bool
deriving DecidableEq, Repr

/-- A console object (`melonDS::NDS` or `melonDS::DSi`).  The class is external to the
frontend; the record keeps what the frontend sets on it and reads from it, and `core`
stands for the emulated machine state that a savestate captures. -/
structure Console where
  /-- the arguments it was built from -/
  args : NDSArgs
  /-- the DSi part of the arguments, for a `melonDS::DSi` -/
  dsiArgs : Option DSiArgs
  /-- the inserted NDS cart (`SetNDSCart` / `EjectCart`) -/
  cart : Option Nat
  /-- the inserted GBA cart (`SetGBACart` / `EjectGBACart`) -/
  gbaCart : Option Nat
  /-- the game name given to `SetupDirectBoot` -/
  directBoot : Option String
  /-- the save image given to `SetNDSSave` -/
  ndsSave : Option (List Nat)
  /-- the value of `IsRunning()`: set by `Start()`, cleared by `Stop()` -/
  running : Bool
  /-- the number of `RunFrame()` calls -/
  frames : Nat
  /-- the number of `Reset()` calls -/
  resets : Nat
  /-- the emulated machine state -/
  core : Nat
deriving DecidableEq, Repr

/-- The object built by `std::make_unique<melonDS::NDS>(args)`. -/
def Console.newNDS (a : NDSArgs) : Console :=
  { args := a, dsiArgs := none, cart := none, gbaCart := none, directBoot := none,
    ndsSave := none, running := false, frames := 0, resets := 0, core := 0 }

/-- The object built by `std::make_unique<melonDS::DSi>(args)`. -/
def Console.newDSi (a : DSiArgs) : Console :=
  { args := a.ndsArgs, dsiArgs := some a, cart := none, gbaCart := none, directBoot := none,
    ndsSave := none, running := false, frames := 0, resets := 0, core := 0 }

def Console.SetNDSCart (c : Console) (cart : Nat) : Console := { c with cart := some cart }
def Console.EjectCart (c : Console) : Console := { c with cart := none }
def Console.SetupDirectBoot (c : Console) (romname : String) : Console :=
  { c with directBoot := some romname }
def Console.SetFirmware (c : Console) (fw : Nat) : Console :=
  { c with args := { c.args with firmware := fw } }
def Console.SetNDSSave (c : Console) (data : List Nat) : Console := { c with ndsSave := some data }
def Console.Reset (c : Console) : Console := { c with resets := c.resets + 1 }
def Console.Start (c : Console) : Console := { c with running := true }
def Console.Stop (c : Console) : Console := { c with running := false }
def Console.RunFrame (c : Console) : Console := { c with frames := c.frames + 1 }

/-- A `melonDS::Savestate`: its buffer, its `Error` flag and its direction. -/
structure Savestate where
  buffer : List Nat
  Error : Bool
  saving : Bool
deriving DecidableEq, Repr

/-- The method `Savestate::Rewind(save)`: back to the start, in the given direction. -/
def Savestate.Rewind (st : Savestate) (save : Bool) : Savestate := { st with saving := save }

/-! ## What the platform answers -/

/-- The answers of the external collaborators (file system, configuration table, SDL,
console core) to the calls of the frontend. -/
structure Platform where
  /-- `OpenFile` + `FileLength` + `FileRead` of a whole file: `none` when the file
  cannot be opened or the read comes back short -/
  readFile : String → Option (List Nat)
  /-- whether `OpenFile(path, Read)` succeeds (used where the read is not checked) -/
  canOpen : String → Bool
  /-- the buffer contents after an unchecked `FileRead` of the whole file -/
  fileBytes : String → List Nat
  /-- whether `OpenFile(path, Write)` succeeds -/
  canOpenWrite : String → Bool
  /-- whether `FileWrite(buf, len, 1, file)` reports one item written -/
  writeOk : String → List Nat → Bool
  /-- `NDSCart::ParseROM` -/
  ParseROM : List Nat → Option Nat
  /-- `globalConfig.GetBool("Emu.DirectBoot")` -/
  directBoot : Bool
  /-- `globalConfig.GetInt("Emu.ConsoleType")` -/
  cfgConsoleType : Int
  /-- `globalConfig.GetBool("DSi.FullBIOSBoot")` -/
  fullBIOSBoot : Bool
  /-- `globalConfig.GetString("DS.FirmwarePath")` -/
  dsFirmwarePath : String
  /-- `globalConfig.GetString("DSi.FirmwarePath")` -/
  dsiFirmwarePath : String
  /-- results of `loadARM9BIOS`, `loadARM7BIOS`, `loadDSiARM9BIOS`, `loadDSiARM7BIOS` -/
  loadARM9BIOS : Option Nat
  loadARM7BIOS : Option Nat
  loadDSiARM9BIOS : Option Nat
  loadDSiARM7BIOS : Option Nat
  /-- result of `loadFirmware(type)` -/
  loadFirmware : Int → Option Nat
  /-- result of `loadNAND(arm7ibios)` -/
  loadNAND : Nat → Option Nat
  /-- result of `loadSDCard("DSi.SD")` -/
  loadSDCard : Option Nat
  /-- results of `verifyDSiBIOS`, `verifyDSiFirmware`, `verifyDSiNAND` (empty: no error) -/
  verifyDSiBIOS : String
  verifyDSiFirmware : String
  verifyDSiNAND : String
  /-- the `Error` flag of a freshly allocated `Savestate(DEFAULT_SIZE)` -/
  newSavestateError : Bool
  /-- the `Error` flag of `Savestate(data, len, false)` -/
  parseSavestateError : List Nat → Bool
  /-- `NDS::DoSavestate`: the console and the savestate afterwards, and the result -/
  DoSavestate : Console → Savestate → Console × Savestate × Bool
  /-- `SDL_GetNumAudioDevices(1)` -/
  numMics : Int
  /-- `SDL_OpenAudioDevice` for the microphone (`0`: failure) -/
  openMicDevice : Nat
  /-- whether the console core calls `Platform::SignalStop` during `RunFrame` -/
  signalStopInFrame : Console → Bool

/-! ## The emulator instance (`ImGuiEmuInstance`) -/

/-- The fields of `ImGuiEmuInstance` that the worker commands read or write, together
with the process-wide stop flag `gEmuShouldStop` of `Platform.cpp`, the pause state of
the SDL output device and the function-local frame counter of `frameStep`.  Input
masks, touch state and the audio/microphone sample buffers are left out here. -/
structure Instance where
  instanceID : Int
  consoleType : Int
  nds : Option Console
  dsi : Option Console
  cartInserted : Bool
  gbaCartInserted : Bool
  paused : Bool
  running : Bool
  backupState : Option Savestate
  savestateLoaded : Bool
  previousSaveFile : String
  /-- the member `Path` of `saveManager` -/
  saveManagerPath : String
  gbaCartType : Int
  baseGBAROMDir : String
  baseGBAROMName : String
  baseGBAAssetName : String
  cheatsOn : Bool
  osdMessages : List (String × Nat)
  audioDevice : Nat
  /-- the pause state of the SDL output device, set by `SDL_PauseAudioDevice` -/
  audioDevicePaused : Bool
  micDevice : Nat
  micInputType : Int
  /-- the global `gEmuShouldStop` -/
  emuShouldStop : Bool
  /-- the counter `static int emuFrameCount` of `frameStep` -/
  emuFrameCount : Nat
  /-- the files written so far, latest first -/
  fileWrites : List (String × List Nat)
deriving DecidableEq, Repr

namespace Instance

/-- The method `ImGuiEmuInstance::micOpen`. -/
def micOpen (P : Platform) (i : Instance) : Instance :=
  if i.micDevice ≠ 0 then i
  else if i.micInputType ≠ 1 then { i with micDevice := 0 }
  else if P.numMics = 0 then i
  else { i with micDevice := P.openMicDevice }

/-- The method `ImGuiEmuInstance::micClose`. -/
def micClose (i : Instance) : Instance := { i with micDevice := 0 }

/-- The method `ImGuiEmuInstance::audioEnable`. -/
def audioEnable (P : Platform) (i : Instance) : Instance :=
  micOpen P (if i.audioDevice ≠ 0 then { i with audioDevicePaused := false } else i)

/-- The method `ImGuiEmuInstance::audioDisable`. -/
def audioDisable (i : Instance) : Instance :=
  micClose (if i.audioDevice ≠ 0 then { i with audioDevicePaused := true } else i)

/-- The method `ImGuiEmuInstance::osdAddMessage`: append, and drop the oldest entry
once more than ten are held. -/
def osdAddMessage (color : Nat) (msg : String) (i : Instance) : Instance :=
  let l := i.osdMessages ++ [(msg, color)]
  { i with osdMessages := if l.length > 10 then l.tail else l }

/-- Apply a console method as in `if (nds) nds->f(); else if (dsi) dsi->f();`. -/
def onConsole (f : Console → Console) (i : Instance) : Instance :=
  match i.nds, i.dsi with
  | some n, _ => { i with nds := some (f n) }
  | none, some d => { i with dsi := some (f d) }
  | none, none => i

/-- The method `ImGuiEmuInstance::reset`. -/
def reset (i : Instance) : Instance := onConsole Console.Reset i

/-- The method `ImGuiEmuInstance::start`. -/
def start (P : Platform) (i : Instance) : Instance :=
  audioEnable P { onConsole Console.Start i with running := true, paused := false }

/-- The method `ImGuiEmuInstance::stop`. -/
def stop (i : Instance) : Instance :=
  audioDisable { onConsole Console.Stop i with running := false, paused := false }

/-- The first part of `ImGuiEmuInstance::frameStep`: one `RunFrame` on the console that
is present (a DSi only while it `IsRunning`), counted in `emuFrameCount`; the core may
raise the stop flag through `Platform::SignalStop` meanwhile. -/
def runConsoleFrame (P : Platform) (i : Instance) : Instance :=
  match i.nds, i.dsi with
  | some n, _ =>
      { i with nds := some n.RunFrame, emuFrameCount := i.emuFrameCount + 1,
               emuShouldStop := i.emuShouldStop || P.signalStopInFrame n }
  | none, some d =>
      if d.running then
        { i with dsi := some d.RunFrame, emuFrameCount := i.emuFrameCount + 1,
                 emuShouldStop := i.emuShouldStop || P.signalStopInFrame d }
      else i
  | none, none => i

/-- The method `ImGuiEmuInstance::frameStep`: the console frame, then the poll of the
stop flag: `if (EmuShouldStop()) { stop(); ClearEmuShouldStop(); }`.  Its calls of
`inputProcess` and `audioSync` (a bounded wait) change none of the fields kept here. -/
def frameStep (P : Platform) (i : Instance) : Instance :=
  let i := runConsoleFrame P i
  if i.emuShouldStop then { stop i with emuShouldStop := false } else i

/-- Whether `frameStep` reaches a `RunFrame()`: an NDS is present, or else a DSi that
`IsRunning()`. -/
def canRunFrame (i : Instance) : Bool :=
  match i.nds, i.dsi with
  | some _, _ => true
  | none, some d => d.running
  | none, none => false

/-- The method `ImGuiEmuInstance::ejectCart`. -/
def ejectCart (i : Instance) : Instance :=
  { onConsole Console.EjectCart i with cartInserted := false }

/-- The method `ImGuiEmuInstance::enableCheats`. -/
def enableCheats (enable : Bool) (i : Instance) : Instance := { i with cheatsOn := enable }

/-- Whether a character is one of the separators of `find_last_of("/\\")`. -/
def isPathSep (c : Char) : Bool := c == Char.ofNat 47 || c == Char.ofNat 92

/-- The part of a path after its last separator (the whole path when it has none). -/
def romnameOf (path : String) : String :=
  String.mk (path.toList.reverse.takeWhile (fun c => !isPathSep c)).reverse

/-- The part of a path up to and including its last separator (empty when it has none). -/
def basepathOf (path : String) : String :=
  String.mk (path.toList.reverse.dropWhile (fun c => !isPathSep c)).reverse

/-- The method `ImGuiEmuInstance::loadROMData`: the file data, its length, the base
path and the ROM name, or `none` for `false`. -/
def loadROMData (P : Platform) (filepath : List String) :
    Option (List Nat × Nat × String × String) :=
  match filepath with
  | [] => none
  | path :: _ =>
    match P.readFile path with
    | none => none
    | some filedata => some (filedata, filedata.length, basepathOf path, romnameOf path)

/-- The method `ImGuiEmuInstance::loadROM`.  The result is the instance afterwards, the
returned flag and the text assigned to `errorstr`, if any. -/
def loadROM (P : Platform) (filepath : List String) (reset : Bool) (i : Instance) :
    Instance × Bool × Option String :=
  if filepath.isEmpty then (i, false, some "No file path provided") else
  match loadROMData P filepath with
  | none => (i, false, some "Failed to load ROM data")
  | some (filedata, filelen, _, romname) =>
    let isDSi : Bool := decide (filelen ≥ 0x200) && (filedata.getD 0x12 0 == 0x03)
    let directBoot := P.directBoot
    let fin (i : Instance) : Instance × Bool × Option String :=
      (if reset then Instance.reset i else i, true, none)
    if !isDSi then
      let firmware : Option Nat := if !directBoot then P.loadFirmware 0 else none
      if !directBoot && firmware.isNone then (i, false, some "Failed to load DS firmware") else
      let args : NDSArgs :=
        { arm9bios := P.loadARM9BIOS, arm7bios := P.loadARM7BIOS,
          firmware := if directBoot then 0 else firmware.getD 0 }
      let cart := P.ParseROM filedata
      let n := Console.newNDS args
      let n := match cart with
        | some cart => n.SetNDSCart cart
        | none => n
      let n := if directBoot then n.SetupDirectBoot romname else n
      fin { i with nds := some n, cartInserted := cart.isSome || i.cartInserted,
                   consoleType := 0 }
    else
      if P.verifyDSiBIOS ≠ "" then (i, false, some P.verifyDSiBIOS) else
      if P.verifyDSiFirmware ≠ "" then (i, false, some P.verifyDSiFirmware) else
      if P.verifyDSiNAND ≠ "" then (i, false, some P.verifyDSiNAND) else
      match P.loadARM9BIOS with
      | none => (i, false, some "Failed to load DSi ARM9 BIOS.")
      | some arm9bios =>
      match P.loadARM7BIOS with
      | none => (i, false, some "Failed to load DSi ARM7 BIOS.")
      | some arm7bios =>
      match P.loadDSiARM9BIOS with
      | none => (i, false, some "Failed to load DSi ARM9i BIOS.")
      | some arm9ibios =>
      match P.loadDSiARM7BIOS with
      | none => (i, false, some "Failed to load DSi ARM7i BIOS.")
      | some arm7ibios =>
      match P.loadNAND arm7ibios with
      | none => (i, false, some "Failed to load DSi NAND")
      | some nand =>
        let args : DSiArgs :=
          { ndsArgs := { arm9bios := some arm9bios, arm7bios := some arm7bios, firmware := 0 },
            arm9ibios := arm9ibios, arm7ibios := arm7ibios, nand := nand,
            sdcard := P.loadSDCard, fullBIOSBoot := P.fullBIOSBoot }
        let cart := P.ParseROM filedata
        let d := Console.newDSi args
        let d := match cart with
          | some cart => d.SetNDSCart cart
          | none => d
        fin { i with dsi := some d, cartInserted := cart.isSome || i.cartInserted,
                     consoleType := 1 }

/-- The method `ImGuiEmuInstance::bootFirmware`.  The result is the instance afterwards,
the returned flag and the text assigned to `errorstr`, if any.  `setBatteryLevels` and
`setDateTime` act on parts of the console that the record `Console` does not keep. -/
def bootFirmware (P : Platform) (i : Instance) : Instance × Bool × Option String :=
  let i : Instance :=
    { i with consoleType := P.cfgConsoleType,
             nds := i.nds.map Console.EjectCart,
             dsi := i.dsi.map Console.EjectCart,
             cartInserted := false, gbaCartInserted := false, gbaCartType := -1,
             baseGBAROMDir := "", baseGBAROMName := "", baseGBAAssetName := "" }
  if i.consoleType = 1 then
    if P.verifyDSiBIOS ≠ "" then (i, false, some P.verifyDSiBIOS) else
    if P.verifyDSiFirmware ≠ "" then (i, false, some P.verifyDSiFirmware) else
    if P.verifyDSiNAND ≠ "" then (i, false, some P.verifyDSiNAND) else
    match P.loadARM9BIOS with
    | none => (i, false, some "Failed to load DSi ARM9 BIOS.")
    | some arm9bios =>
    match P.loadARM7BIOS with
    | none => (i, false, some "Failed to load DSi ARM7 BIOS.")
    | some arm7bios =>
    match P.loadDSiARM9BIOS with
    | none => (i, false, some "Failed to load DSi ARM9i BIOS.")
    | some arm9ibios =>
    match P.loadDSiARM7BIOS with
    | none => (i, false, some "Failed to load DSi ARM7i BIOS.")
    | some arm7ibios =>
    match P.loadNAND arm7ibios with
    | none => (i, false, some "Failed to load DSi NAND")
    | some nand =>
      let args : DSiArgs :=
        { ndsArgs := { arm9bios := some arm9bios, arm7bios := some arm7bios, firmware := 0 },
          arm9ibios := arm9ibios, arm7ibios := arm7ibios, nand := nand,
          sdcard := P.loadSDCard, fullBIOSBoot := P.fullBIOSBoot }
      let d := Console.newDSi args
      let i := { i with dsi := some d }
      if P.dsiFirmwarePath ≠ "" && (P.loadFirmware 1).isNone then
        (i, false, some "Failed to load DSi firmware.")
      else
        let d := if P.dsiFirmwarePath ≠ "" then d.SetFirmware ((P.loadFirmware 1).getD 0) else d
        let i := { i with dsi := some d.EjectCart, cartInserted := false }
        (Instance.reset i, true, none)
  else
    match P.loadARM9BIOS with
    | none => (i, false, some "Failed to load DS ARM9 BIOS.")
    | some arm9bios =>
    match P.loadARM7BIOS with
    | none => (i, false, some "Failed to load DS ARM7 BIOS.")
    | some arm7bios =>
      if P.dsFirmwarePath ≠ "" && (P.loadFirmware 0).isNone then
        (i, false, some "Failed to load DS firmware.")
      else
        let firmware : Option Nat := if P.dsFirmwarePath ≠ "" then P.loadFirmware 0 else none
        let args : NDSArgs :=
          { arm9bios := some arm9bios, arm7bios := some arm7bios, firmware := firmware.getD 0 }
        let n := (Console.newNDS args).EjectCart.Reset
        ({ i with nds := some n, cartInserted := false, gbaCartInserted := false,
                  gbaCartType := -1 }, true, none)

/-- The console that `nds ? nds : dsi` selects, as in `if (nds) ... else if (dsi) ...`. -/
def console (i : Instance) : Option Console :=
  match i.nds with
  | some n => some n
  | none => i.dsi

/-- The number of `RunFrame()` calls the machine of the instance has received (0 when
there is no machine). -/
def machineFrames (i : Instance) : Nat :=
  match i.console with
  | some c => c.frames
  | none => 0

/-- Store a console back into the slot that `console` selected. -/
def setConsole (i : Instance) (c : Console) : Instance :=
  match i.nds with
  | some _ => { i with nds := some c }
  | none => { i with dsi := some c }

/-- The method `ImGuiEmuInstance::saveState`. -/
def saveState (P : Platform) (filename : String) (i : Instance) : Instance × Bool :=
  let savestate : Savestate := { buffer := [], Error := P.newSavestateError, saving := true }
  if savestate.Error then (i, false) else
  match i.console with
  | none => (i, false)
  | some c =>
    let (c, savestate, success) := P.DoSavestate c savestate
    let i := i.setConsole c
    if !success || savestate.Error then (i, false) else
    if !P.canOpenWrite filename then (i, false) else
    ({ i with fileWrites := (filename, savestate.buffer) :: i.fileWrites },
      P.writeOk filename savestate.buffer)

/-- The first part of `ImGuiEmuInstance::loadState`: with a console present and the
instance running, a backup savestate is allocated and written from the console; it is
dropped again when it reports an error. -/
def loadStateBackup (P : Platform) (i : Instance) : Instance :=
  if (i.nds.isSome || i.dsi.isSome) && i.running then
    let backup : Savestate := { buffer := [], Error := P.newSavestateError, saving := true }
    if !backup.Error then
      match i.console with
      | none => { i with backupState := none }
      | some c =>
        let (c, backup, backupSuccess) := P.DoSavestate c backup
        let i := i.setConsole c
        if !backupSuccess || backup.Error then { i with backupState := none }
        else { i with backupState := some backup }
    else { i with backupState := none }
  else i

/-- The method `ImGuiEmuInstance::loadState`. -/
def loadState (P : Platform) (filename : String) (i : Instance) : Instance × Bool :=
  let i := loadStateBackup P i
  match P.readFile filename with
  | none => (i, false)
  | some savestateData =>
    let savestate : Savestate :=
      { buffer := savestateData, Error := P.parseSavestateError savestateData, saving := false }
    if savestate.Error then (i, false) else
    match i.console with
    | none => (i, false)
    | some c =>
      let (c, savestate, success) := P.DoSavestate c savestate
      let i := i.setConsole c
      if success && !savestate.Error then ({ i with savestateLoaded := true }, true)
      else (i, false)

/-- The method `ImGuiEmuInstance::undoStateLoad` (`saveManager` is set by the
constructor and never cleared). -/
def undoStateLoad (P : Platform) (i : Instance) : Instance :=
  match i.backupState with
  | none => i
  | some backup =>
    if !i.savestateLoaded then i else
    let backup := backup.Rewind false
    let i := match i.console with
      | none => { i with backupState := some backup }
      | some c =>
        let (c, backup, _) := P.DoSavestate c backup
        { i.setConsole c with backupState := some backup }
    let i := if i.previousSaveFile ≠ "" then { i with saveManagerPath := i.previousSaveFile }
             else i
    { i with savestateLoaded := false }

/-- The method `ImGuiEmuInstance::importSavefile`. -/
def importSavefile (P : Platform) (filename : String) (i : Instance) : Instance × Bool :=
  match i.console with
  | none => (i, false)
  | some c =>
    if !P.canOpen filename then (i, false)
    else (i.setConsole (c.SetNDSSave (P.fileBytes filename)), true)

end Instance

/-! ## The emulation worker (`ImGuiEmuThread`) -/

/-- The enumeration `ImGuiEmuThread::EmuStatusKind`. -/
inductive EmuStatusKind where
  | emuStatus_Exit
  | emuStatus_Running
  | emuStatus_Paused
  | emuStatus_FrameStep
deriving DecidableEq, Repr

open EmuStatusKind

/-- A queued `ImGuiEmuThread::Message`: the constructors are the values of
`MessageType`, each with the alternative of `param` that its handler reads with
`std::get` (every sender of the sources attaches exactly that alternative). -/
inductive Message where
  | msg_Exit
  | msg_EmuRun
  | msg_EmuPause
  | msg_EmuUnpause
  | msg_EmuStop (external : Bool)
  | msg_EmuFrameStep
  | msg_EmuReset
  | msg_BootROM (filename : List String)
  | msg_BootFirmware
  | msg_InsertCart (filename : List String)
  | msg_EjectCart
  | msg_LoadState (filename : String)
  | msg_SaveState (filename : String)
  | msg_UndoStateLoad
  | msg_ImportSavefile (filename : String)
  | msg_EnableCheats (enable : Bool)
deriving DecidableEq, Repr

open Message

/-- A call that the worker makes on its `emuInstance`. -/
inductive InstCall where
  | audioEnable
  | audioDisable
  | osdAddMessage (color : Nat) (msg : String)
  | frameStep
  | reset
  | start
  | stop
  | loadROM (filename : List String) (reset : Bool)
  | bootFirmware
  | ejectCart
  | loadState (filename : String)
  | saveState (filename : String)
  | undoStateLoad
  | importSavefile (filename : String)
  | enableCheats (enable : Bool)
deriving DecidableEq, Repr

/-- The constant `emuPauseStackRunning`. -/
def emuPauseStackRunning : Int := 0

/-- The constant `emuPauseStackPauseThreshold`. -/
def emuPauseStackPauseThreshold : Int := 1

/-- The state of an `ImGuiEmuThread` with the instance it drives.  `calls` and
`handled` are records kept for the proofs: the calls made on `emuInstance` and the
messages taken from the queue, both oldest first. -/
structure Worker where
  running : Bool
  emuActive : Bool
  emuStatus : EmuStatusKind
  prevEmuStatus : EmuStatusKind
  /-- the `int emuPauseStack`: `handleMessage` computes on it without a range, which is
  the code as long as no increment overflows; `handleMessageInt` wraps at 32 bits -/
  emuPauseStack : Int
  msgQueue : List Message
  msgResult : Int
  msgError : String
  inst : Instance
  calls : List InstCall
  handled : List Message
deriving DecidableEq, Repr

namespace Worker

/-- The call `emuInstance->audioEnable()`. -/
def audioEnable (P : Platform) (w : Worker) : Worker :=
  { w with inst := w.inst.audioEnable P, calls := w.calls ++ [InstCall.audioEnable] }

/-- The call `emuInstance->audioDisable()`. -/
def audioDisable (w : Worker) : Worker :=
  { w with inst := w.inst.audioDisable, calls := w.calls ++ [InstCall.audioDisable] }

/-- The call `emuInstance->osdAddMessage(color, msg)`. -/
def osdAddMessage (color : Nat) (msg : String) (w : Worker) : Worker :=
  { w with inst := w.inst.osdAddMessage color msg,
           calls := w.calls ++ [InstCall.osdAddMessage color msg] }

/-- Assign `errorstr` (here `msgError`) when the callee wrote it. -/
def setError (err : Option String) (w : Worker) : Worker :=
  { w with msgError := err.getD w.msgError }

/-- One turn of the `switch (msg.type)` of `ImGuiEmuThread::handleMessages`. -/
def handleMessage (P : Platform) (msg : Message) (w : Worker) : Worker :=
  match msg with
  | msg_Exit =>
      audioDisable { w with emuStatus := emuStatus_Exit, emuPauseStack := emuPauseStackRunning }
  | msg_EmuRun =>
      audioEnable P { w with emuStatus := emuStatus_Running,
                             emuPauseStack := emuPauseStackRunning, emuActive := true }
  | msg_EmuPause =>
      let w := { w with emuPauseStack := w.emuPauseStack + 1 }
      if w.emuPauseStack > emuPauseStackPauseThreshold then w else
      let w := { w with prevEmuStatus := w.emuStatus, emuStatus := emuStatus_Paused }
      if w.prevEmuStatus ≠ emuStatus_Paused then osdAddMessage 0 "Paused" (audioDisable w)
      else w
  | msg_EmuUnpause =>
      if w.emuPauseStack < emuPauseStackPauseThreshold then w else
      let w := { w with emuPauseStack := w.emuPauseStack - 1 }
      if w.emuPauseStack ≥ emuPauseStackPauseThreshold then w else
      let w := { w with emuStatus := w.prevEmuStatus }
      if w.emuStatus ≠ emuStatus_Paused then osdAddMessage 0 "Resumed" (audioEnable P w)
      else w
  | msg_EmuStop external =>
      let w := if external then
          { w with inst := w.inst.stop, calls := w.calls ++ [InstCall.stop] }
        else w
      audioDisable { w with emuStatus := emuStatus_Paused, emuActive := false }
  | msg_EmuFrameStep => { w with emuStatus := emuStatus_FrameStep }
  | msg_EmuReset =>
      let w := { w with inst := w.inst.reset, calls := w.calls ++ [InstCall.reset] }
      osdAddMessage 0 "Reset"
        (audioEnable P { w with emuStatus := emuStatus_Running,
                                emuPauseStack := emuPauseStackRunning, emuActive := true })
  | msg_BootROM filename =>
      let w := { w with msgResult := 0 }
      let (i, ok, err) := w.inst.loadROM P filename true
      let w := setError err { w with inst := i,
                                     calls := w.calls ++ [InstCall.loadROM filename true] }
      if !ok then w else
      { w with inst := w.inst.start P, calls := w.calls ++ [InstCall.start], msgResult := 1 }
  | msg_BootFirmware =>
      let w := { w with msgResult := 0 }
      let (i, ok, err) := w.inst.bootFirmware P
      let w := setError err { w with inst := i, calls := w.calls ++ [InstCall.bootFirmware] }
      if !ok then w else
      { w with inst := w.inst.start P, calls := w.calls ++ [InstCall.start], msgResult := 1 }
  | msg_InsertCart filename =>
      let w := { w with msgResult := 0 }
      let (i, ok, err) := w.inst.loadROM P filename false
      let w := setError err { w with inst := i,
                                     calls := w.calls ++ [InstCall.loadROM filename false] }
      if !ok then w else { w with msgResult := 1 }
  | msg_EjectCart =>
      { w with inst := w.inst.ejectCart, calls := w.calls ++ [InstCall.ejectCart] }
  | msg_LoadState filename =>
      let (i, ok) := w.inst.loadState P filename
      { w with inst := i, calls := w.calls ++ [InstCall.loadState filename],
               msgResult := if ok then 1 else 0 }
  | msg_SaveState filename =>
      let (i, ok) := w.inst.saveState P filename
      { w with inst := i, calls := w.calls ++ [InstCall.saveState filename],
               msgResult := if ok then 1 else 0 }
  | msg_UndoStateLoad =>
      { w with inst := w.inst.undoStateLoad P, calls := w.calls ++ [InstCall.undoStateLoad],
               msgResult := 1 }
  | msg_ImportSavefile filename =>
      let (i, ok) := w.inst.importSavefile P filename
      { w with inst := i, calls := w.calls ++ [InstCall.importSavefile filename],
               msgResult := if ok then 1 else 0 }
  | msg_EnableCheats enable =>
      { w with inst := w.inst.enableCheats enable,
               calls := w.calls ++ [InstCall.enableCheats enable] }

/-- The loop `while (!msgQueue.empty())` of `handleMessages`, for at most `fuel` turns:
take the front message, pop it, handle it. -/
def handleLoop (P : Platform) : Nat → Worker → Worker
  | 0, w => w
  | fuel + 1, w =>
    match w.msgQueue with
    | [] => w
    | msg :: rest =>
      handleLoop P fuel
        (handleMessage P msg { w with msgQueue := rest, handled := w.handled ++ [msg] })

/-- The method `ImGuiEmuThread::handleMessages`.  No handler enqueues a message, so as
many turns as the queue is long empty it. -/
def handleMessages (P : Platform) (w : Worker) : Worker :=
  handleLoop P w.msgQueue.length w

/-- The value of a 32-bit `int` that holds `x` after a two's complement wrap. -/
def int32 (x : Int) : Int := (x + 2 ^ 31) % 2 ^ 32 - 2 ^ 31

/-- One turn of the `switch (msg.type)` with `emuPauseStack` as the 32-bit `int` it is:
`emuPauseStack++` and `emuPauseStack--` wrap.  No other case computes on the counter,
so the other cases are those of `handleMessage`.  While the counter stays inside the
range of `int` the two agree (`handleMessageInt_eq`). -/
def handleMessageInt (P : Platform) (msg : Message) (w : Worker) : Worker :=
  match msg with
  | msg_EmuPause =>
      let w := { w with emuPauseStack := int32 (w.emuPauseStack + 1) }
      if w.emuPauseStack > emuPauseStackPauseThreshold then w else
      let w := { w with prevEmuStatus := w.emuStatus, emuStatus := emuStatus_Paused }
      if w.prevEmuStatus ≠ emuStatus_Paused then osdAddMessage 0 "Paused" (audioDisable w)
      else w
  | msg_EmuUnpause =>
      if w.emuPauseStack < emuPauseStackPauseThreshold then w else
      let w := { w with emuPauseStack := int32 (w.emuPauseStack - 1) }
      if w.emuPauseStack ≥ emuPauseStackPauseThreshold then w else
      let w := { w with emuStatus := w.prevEmuStatus }
      if w.emuStatus ≠ emuStatus_Paused then osdAddMessage 0 "Resumed" (audioEnable P w)
      else w
  | m => handleMessage P m w

/-- The loop `while (!msgQueue.empty())` of `handleMessages` over the 32-bit counter. -/
def handleLoopInt (P : Platform) : Nat → Worker → Worker
  | 0, w => w
  | fuel + 1, w =>
    match w.msgQueue with
    | [] => w
    | msg :: rest =>
      handleLoopInt P fuel
        (handleMessageInt P msg { w with msgQueue := rest, handled := w.handled ++ [msg] })

/-- The method `ImGuiEmuThread::handleMessages` over the 32-bit counter. -/
def handleMessagesInt (P : Platform) (w : Worker) : Worker :=
  handleLoopInt P w.msgQueue.length w

/-- The method `ImGuiEmuThread::sendMessage`. -/
def sendMessage (msg : Message) (w : Worker) : Worker :=
  { w with msgQueue := w.msgQueue ++ [msg] }

/-- The method `ImGuiEmuThread::emuPause` (the wait for the worker is not modelled). -/
def emuPause (w : Worker) : Worker := sendMessage msg_EmuPause w

/-- The method `ImGuiEmuThread::emuUnpause`. -/
def emuUnpause (w : Worker) : Worker := sendMessage msg_EmuUnpause w

/-- The method `ImGuiEmuThread::emuTogglePause`. -/
def emuTogglePause (w : Worker) : Worker :=
  if w.emuStatus = emuStatus_Paused then emuUnpause w else emuPause w

/-- The method `ImGuiEmuThread::emuReset`. -/
def emuReset (w : Worker) : Worker := sendMessage msg_EmuReset w

/-- The method `ImGuiEmuThread::emuFrameStep`. -/
def emuFrameStep (w : Worker) : Worker :=
  let w := if w.emuPauseStack < emuPauseStackPauseThreshold then sendMessage msg_EmuPause w
           else w
  sendMessage msg_EmuFrameStep w

/-- The hotkeys that `hotkeyPressed` reports in one pass of the loop. -/
structure HotkeyPress where
  HK_Pause : Bool
  HK_Reset : Bool
  HK_FrameStep : Bool
deriving DecidableEq, Repr

/-- No hotkey pressed. -/
def noHotkeys : HotkeyPress := { HK_Pause := false, HK_Reset := false, HK_FrameStep := false }

/-- The frame-execution step of `ImGuiEmuThread::run`: with status `Running` or
`FrameStep`, a `FrameStep` status becomes `Paused` and `emuInstance->frameStep()` runs. -/
def frameExec (P : Platform) (w : Worker) : Worker :=
  if w.emuStatus = emuStatus_Running ∨ w.emuStatus = emuStatus_FrameStep then
    let w := if w.emuStatus = emuStatus_FrameStep then { w with emuStatus := emuStatus_Paused }
             else w
    { w with inst := w.inst.frameStep P, calls := w.calls ++ [InstCall.frameStep] }
  else w

/-- One pass of the body of `while (running)` in `ImGuiEmuThread::run`: hotkeys, the
frame-execution step, then `handleMessages`.  The hotkey bits that `inputProcess`
computes are the argument `hk`; a hotkey command issued on the worker thread only
enqueues its messages, since `waitMessage` returns at once there; the sleeps are not
modelled. -/
def runPass (P : Platform) (hk : HotkeyPress) (w : Worker) : Worker :=
  let w := if hk.HK_Pause then emuTogglePause w else w
  let w := if hk.HK_Reset then emuReset w else w
  let w := if hk.HK_FrameStep then emuFrameStep w else w
  handleMessages P (frameExec P w)

/-- The number of machine frames executed on the machine of the instance: the
`RunFrame()` calls that the console selected by `if (nds) ... else if (dsi)` has
received (0 when there is none). -/
def machineFrames (w : Worker) : Nat := w.inst.machineFrames

/-- The messages of a list handled one after the other, first to last. -/
def handleAll (P : Platform) (msgs : List Message) (w : Worker) : Worker :=
  msgs.foldl (fun w m => handleMessage P m w) w

/-- A message that is `msg_EmuPause` or `msg_EmuUnpause`. -/
def isPauseMsg (m : Message) : Bool :=
  match m with
  | msg_EmuPause => true
  | msg_EmuUnpause => true
  | _ => false

/-- The net pause count of a sequence: its pauses minus its unpauses. -/
def netPauseCount (msgs : List Message) : Int :=
  (msgs.count msg_EmuPause : Int) - (msgs.count msg_EmuUnpause : Int)

/-- The pause count after one more message when unpauses at `0` are ignored. -/
def countStep (n : Nat) (m : Message) : Nat :=
  match m with
  | msg_EmuPause => n + 1
  | msg_EmuUnpause => n - 1
  | _ => n

/-- The pause count of a sequence when unpauses that arrive at count `0` are ignored. -/
def effectivePauseCount (msgs : List Message) : Nat := msgs.foldl countStep 0

/-- The shape of a worker that was running and has received `n` effective pauses:
stack `n`; at `0` it is `Running`, above it is `Paused` with `Running` captured. -/
def PauseInv (w : Worker) (n : Nat) : Prop :=
  w.emuPauseStack = n ∧
    ((n = 0 ∧ w.emuStatus = emuStatus_Running) ∨
     (1 ≤ n ∧ w.emuStatus = emuStatus_Paused ∧ w.prevEmuStatus = emuStatus_Running))

/-- No unpause arrives at pause count `0`: every prefix has at least as many pauses as
unpauses. -/
def balanced (msgs : List Message) : Prop :=
  ∀ k, k ≤ msgs.length → (msgs.take k).count msg_EmuUnpause ≤ (msgs.take k).count msg_EmuPause

instance (msgs : List Message) : Decidable (balanced msgs) := by
  unfold balanced
  infer_instance

end Worker

/-! ## Concrete states and platforms used to evaluate the code -/

/-- A platform on which every file, image and device is missing and `DoSavestate`
fails without touching anything. -/
def Platform.offline : Platform :=
  { readFile := fun _ => none, canOpen := fun _ => false, fileBytes := fun _ => [],
    canOpenWrite := fun _ => false, writeOk := fun _ _ => false, ParseROM := fun _ => none, directBoot := false,
    cfgConsoleType := 0, fullBIOSBoot := false, dsFirmwarePath := "", dsiFirmwarePath := "",
    loadARM9BIOS := none, loadARM7BIOS := none, loadDSiARM9BIOS := none,
    loadDSiARM7BIOS := none, loadFirmware := fun _ => none, loadNAND := fun _ => none,
    loadSDCard := none, verifyDSiBIOS := "", verifyDSiFirmware := "", verifyDSiNAND := "",
    newSavestateError := false, parseSavestateError := fun _ => false,
    DoSavestate := fun c st => (c, st, false), numMics := 0, openMicDevice := 0,
    signalStopInFrame := fun _ => false }

/-- The instance as `ImGuiEmuInstance::ImGuiEmuInstance(0)` leaves it, with an audio
output device open (and paused, as `audioInit` leaves it). -/
def Instance.constructed : Instance :=
  { instanceID := 0, consoleType := 0, nds := none, dsi := none, cartInserted := false,
    gbaCartInserted := false, paused := false, running := false, backupState := none,
    savestateLoaded := false, previousSaveFile := "", saveManagerPath := "",
    gbaCartType := -1, baseGBAROMDir := "", baseGBAROMName := "", baseGBAAssetName := "",
    cheatsOn := false, osdMessages := [], audioDevice := 1, audioDevicePaused := true,
    micDevice := 0, micInputType := 0, emuShouldStop := false, emuFrameCount := 0,
    fileWrites := [] }

/-- The worker as `ImGuiEmuThread::ImGuiEmuThread` leaves it, once `start()` has set
`running`. -/
def Worker.constructed : Worker :=
  { running := true, emuActive := false, emuStatus := emuStatus_Paused,
    prevEmuStatus := emuStatus_Paused, emuPauseStack := emuPauseStackRunning,
    msgQueue := [], msgResult := 0, msgError := "", inst := Instance.constructed,
    calls := [], handled := [] }

/-- A running worker: the constructed worker after `msg_EmuRun`. -/
def Worker.started : Worker := Worker.handleMessage Platform.offline msg_EmuRun Worker.constructed

/-- A platform with the built-in DS BIOS images and direct boot, on which ROM files
can be read and a savestate holds the machine state of the console: writing one
stores `core`, reading back a one-word buffer restores it, and reading any other buffer
fails after the machine state has been overwritten. -/
def Platform.desktop : Platform :=
  { Platform.offline with
    readFile := fun path =>
      if path = "missing" then none else if path = "corrupt.mln" then some [] else some [0],
    canOpen := fun path => path ≠ "missing",
    canOpenWrite := fun path => path ≠ "",
    writeOk := fun _ _ => true,
    ParseROM := fun _ => some 7,
    directBoot := true,
    loadARM9BIOS := some 9,
    loadARM7BIOS := some 7,
    loadFirmware := fun type => if type = 0 then some 0 else none,
    DoSavestate := fun c st =>
      if st.saving then (c, { st with buffer := [c.core] }, true)
      else match st.buffer with
        | [x] => ({ c with core := x }, st, true)
        | _ => ({ c with core := 99 }, st, false) }

/-- An NDS console with a game inserted, five frames into its run (machine state 5). -/
def Console.playing : Console :=
  { (Console.newNDS { arm9bios := some 9, arm7bios := some 7, firmware := 0 }) with
    cart := some 7, directBoot := some "game.nds", running := true, frames := 5, core := 5 }

/-- An instance running a game on an NDS console: the constructed instance after a
successful `loadROM` and `start`, some frames later. -/
def Instance.playing : Instance :=
  { Instance.constructed with
    nds := some Console.playing,
    cartInserted := true, running := true, audioDevicePaused := false,
    gbaCartInserted := true, gbaCartType := 0, baseGBAROMDir := "roms/",
    baseGBAROMName := "pak.gba", baseGBAAssetName := "pak.gba" }

/-- The worker driving `Instance.playing`. -/
def Worker.playing : Worker :=
  { Worker.started with inst := Instance.playing }

/-! ## The save-flush manager (`ImGuiSaveManager`) -/

/-- The fields of `ImGuiSaveManager`.  A buffer is the list of the bytes of its
allocation; `writes` lists the file writes performed so far, latest first. -/
structure SaveManager where
  Path : String
  Running : Bool
  Buffer : List Nat
  Length : Nat
  FlushRequested : Bool
  SecondaryBuffer : List Nat
  SecondaryBufferLength : Nat
  TimeAtLastFlushRequest : Int
  PreviousFlushVersion : Nat
  FlushVersion : Nat
  writes : List (String × List Nat)
deriving DecidableEq, Repr

namespace SaveManager

/-- The state after the constructor `ImGuiSaveManager(path)`. -/
def new (path : String) : SaveManager :=
  { Path := path, Running := true, Buffer := [], Length := 0, FlushRequested := false,
    SecondaryBuffer := [], SecondaryBufferLength := 0, TimeAtLastFlushRequest := 0,
    PreviousFlushVersion := 0, FlushVersion := 0, writes := [] }

/-- The call `memcpy(dst + off, src, n)` on buffers held as lists. -/
def memcpy (dst : List Nat) (off : Nat) (src : List Nat) (n : Nat) : List Nat :=
  dst.take off ++ src.take n ++ dst.drop (off + n)

/-- The method `ImGuiSaveManager::RequestFlush`; `now` is the value of `time(nullptr)`.
`FlushVersion` is a `u32`, so its increment wraps at `2^32`. -/
def RequestFlush (savedata : List Nat) (savelen writeoffset writelen : Nat) (now : Int)
    (s : SaveManager) : SaveManager :=
  let s := if savelen > s.Length then
      { s with Buffer := List.replicate savelen 0, Length := savelen }
    else s
  let s := if savelen > s.SecondaryBufferLength then
      { s with SecondaryBuffer := List.replicate savelen 0, SecondaryBufferLength := savelen }
    else s
  let s := { s with Buffer := memcpy s.Buffer 0 savedata savelen }
  let s := { s with SecondaryBuffer :=
                      memcpy s.SecondaryBuffer writeoffset (savedata.drop writeoffset) writelen }
  { s with FlushRequested := true, TimeAtLastFlushRequest := now,
           FlushVersion := (s.FlushVersion + 1) % 2 ^ 32 }

/-- The method `ImGuiSaveManager::NeedsFlush`. -/
def NeedsFlush (s : SaveManager) : Bool := s.FlushRequested

/-- The method `ImGuiSaveManager::flush`. -/
def flush (P : Platform) (s : SaveManager) : SaveManager :=
  if s.Path = "" then s
  else if !P.canOpenWrite s.Path then s
  else { s with writes := (s.Path, s.Buffer.take s.Length) :: s.writes,
                FlushRequested := false, PreviousFlushVersion := s.FlushVersion }

/-- The method `ImGuiSaveManager::CheckFlush`. -/
def CheckFlush (P : Platform) (s : SaveManager) : SaveManager :=
  if s.NeedsFlush then s.flush P else s

end SaveManager

namespace SaveManager

/-- The method `ImGuiSaveManager::FlushSecondaryBuffer`: the destination after the call;
the secondary buffer is copied out whole when a destination of sufficient length is
given, and nothing happens otherwise. -/
def FlushSecondaryBuffer (dst : Option (List Nat)) (dstLength : Nat) (s : SaveManager) :
    Option (List Nat) :=
  match dst with
  | none => none
  | some d =>
    if dstLength ≥ s.SecondaryBufferLength then
      some (memcpy d 0 s.SecondaryBuffer s.SecondaryBufferLength)
    else some d

/-- The value of `time(nullptr)` at `t` milliseconds after the epoch: whole seconds. -/
def clock (t : Nat) : Int := ((t / 1000 : Nat) : Int)

/-- One pass of the loop body of `ImGuiSaveManager::run`, entered when `cv.wait_for`
returns at `t` milliseconds: leave when not `Running`; with a flush pending, skip it
while `TimeAtLastFlushRequest == 0 || difftime(now, TimeAtLastFlushRequest) < 2`, and
call `flush()` otherwise. -/
def wake (P : Platform) (t : Nat) (s : SaveManager) : SaveManager :=
  if !s.Running then s
  else if s.FlushRequested then
    let now := clock t
    if s.TimeAtLastFlushRequest = 0 || decide (now - s.TimeAtLastFlushRequest < 2) then s
    else s.flush P
  else s

/-- What happens to a manager over time: a `RequestFlush` call or a wake of the
background loop, each at a time in milliseconds. -/
inductive Event where
  | request (savedata : List Nat) (savelen writeoffset writelen : Nat) (t : Nat)
  | wake (t : Nat)
deriving DecidableEq, Repr

/-- The effect of one event. -/
def step (P : Platform) (s : SaveManager) (e : Event) : SaveManager :=
  match e with
  | Event.request savedata savelen writeoffset writelen t =>
      RequestFlush savedata savelen writeoffset writelen (clock t) s
  | Event.wake t => wake P t s

/-- The effect of a sequence of events, first to last. -/
def runEvents (P : Platform) (evs : List Event) (s : SaveManager) : SaveManager :=
  evs.foldl (step P) s

/-- A `RequestFlush` call: its arguments and its time in milliseconds. -/
structure Req where
  savedata : List Nat
  savelen : Nat
  writeoffset : Nat
  writelen : Nat
  t : Nat
deriving DecidableEq, Repr

/-- The event of a call. -/
def Req.event (r : Req) : Event :=
  Event.request r.savedata r.savelen r.writeoffset r.writelen r.t

/-- A call is well formed when `savedata` holds `savelen` bytes, the written range lies
inside the image, and its time stamp `time(nullptr)` is not 0. -/
def Req.wf (r : Req) : Prop :=
  r.savelen ≤ r.savedata.length ∧ r.writeoffset + r.writelen ≤ r.savelen ∧ 1000 ≤ r.t

/-- The primary buffer after a call, given the primary buffer and length before it
(the first `if` and the first `memcpy` of `RequestFlush`). -/
def bufferAfter (r : Req) (b : List Nat × Nat) : List Nat × Nat :=
  (memcpy (if r.savelen > b.2 then List.replicate r.savelen 0 else b.1) 0 r.savedata r.savelen,
   if r.savelen > b.2 then r.savelen else b.2)

/-- The contents that a flush after each call of a sequence would write: the first
`Length` bytes of the primary buffer after that call, in call order. -/
def snapshots : List Req → List Nat × Nat → List (List Nat)
  | [], _ => []
  | r :: rs, b => ((bufferAfter r b).1.take (bufferAfter r b).2) :: snapshots rs (bufferAfter r b)

/-- The events of a burst: the calls in order, each followed by the wakes (given by
their times) that occur before the next call. -/
def burstEvents : List (Req × List Nat) → List Event
  | [] => []
  | (r, ws) :: rest => r.event :: (ws.map Event.wake ++ burstEvents rest)

/-- An operation on a manager from outside its thread: the three public or private
entry points that `RequestFlush`, `CheckFlush` and `flush` name, the last two with the
platform they meet. -/
inductive Op where
  | requestFlush (savedata : List Nat) (savelen writeoffset writelen : Nat) (now : Int)
  | checkFlush (P : Platform)
  | flush (P : Platform)

/-- The effect of one operation. -/
def applyOp (s : SaveManager) (op : Op) : SaveManager :=
  match op with
  | Op.requestFlush savedata savelen writeoffset writelen now =>
      RequestFlush savedata savelen writeoffset writelen now s
  | Op.checkFlush P => CheckFlush P s
  | Op.flush P => flush P s

/-- Whether an operation is a `RequestFlush`. -/
def Op.isRequest : Op → Bool
  | Op.requestFlush _ _ _ _ _ => true
  | _ => false

/-- The state reached from construction by a sequence of operations. -/
def reach (path : String) (ops : List Op) : SaveManager :=
  ops.foldl applyOp (SaveManager.new path)

end SaveManager

namespace SaveManager

/-- The number of `RequestFlush` operations in a sequence. -/
def numRequests (ops : List Op) : Nat := ops.countP Op.isRequest

/-- The shape of a manager after `n` requests, while the `u32` version counter has not
wrapped: `FlushVersion` is `n`, `PreviousFlushVersion` is the version of the last
successful flush, equal to it when nothing is pending and below it otherwise. -/
def VersionInv (s : SaveManager) (n : Nat) : Prop :=
  s.FlushVersion = n ∧ s.PreviousFlushVersion ≤ s.FlushVersion ∧
    (s.FlushRequested = false → s.PreviousFlushVersion = s.FlushVersion) ∧
    (s.FlushRequested = true → s.PreviousFlushVersion < s.FlushVersion)

end SaveManager

namespace SaveManager

/-- The primary buffer and its length after a sequence of calls. -/
def buffersAfter (rs : List Req) (b : List Nat × Nat) : List Nat × Nat :=
  rs.foldl (fun b r => bufferAfter r b) b

/-- The content that `flush` writes after a sequence of calls: the first `Length` bytes
of the primary buffer. -/
def flushImage (rs : List Req) (b : List Nat × Nat) : List Nat :=
  (buffersAfter rs b).1.take (buffersAfter rs b).2

end SaveManager

namespace SaveManager

instance (r : Req) : Decidable r.wf := by
  unfold Req.wf
  infer_instance

end SaveManager

/-! ## Binary floating point

The `float` and `double` of the source are IEEE 754 binary32 and binary64 with
round-to-nearest, ties-to-even.  A finite value is a rational; an operation of the
source is the exact operation followed by the rounding to the format of its result.
The values in the audio path come from `int` arguments and stay far below the largest
finite value, so the overflow to infinity is not part of the model; neither is the
division by zero (`audioInit` replaces a device rate of 0, and `audioResample` with
`outlen` 0 runs no turn of its loop). -/

/-- The integer nearest to `q`, the even one of the two when `q` lies half way. -/
def roundNearestEven (q : ℚ) : Int :=
  if q - ⌊q⌋ < 1 / 2 then ⌊q⌋
  else if 1 / 2 < q - ⌊q⌋ then ⌊q⌋ + 1
  else if ⌊q⌋ % 2 = 0 then ⌊q⌋ else ⌊q⌋ + 1

/-- The exponent of the unit in the last place of `x` in the binary format with `p`
significand bits and least exponent `emin`: `⌊log2 |x|⌋ - (p - 1)`, not below `emin`
(the subnormal range). -/
def ulpExp (p : Nat) (emin : Int) (x : ℚ) : Int := max (Int.log 2 |x| - ((p : Int) - 1)) emin

/-- The value of the binary format with `p` significand bits and least exponent `emin`
nearest to `x`, ties to even. -/
def roundFloat (p : Nat) (emin : Int) (x : ℚ) : ℚ :=
  (roundNearestEven (x / 2 ^ ulpExp p emin x) : ℚ) * 2 ^ ulpExp p emin x

/-- The rounding to `float` (binary32). -/
def fl32 (x : ℚ) : ℚ := roundFloat 24 (-149) x

/-- The rounding to `double` (binary64). -/
def fl64 (x : ℚ) : ℚ := roundFloat 53 (-1074) x

/-- A value of the binary format with `p` significand bits and least exponent `emin`:
an integer significand below `2^p` in absolute value times a power of two. -/
def Representable (p : Nat) (emin : Int) (x : ℚ) : Prop :=
  ∃ m e : Int, x = (m : ℚ) * 2 ^ e ∧ |m| < 2 ^ p ∧ emin ≤ e

/-! ## The audio output path of `ImGuiEmuInstance`

The `float` and `double` operations of `audioGetNumSamplesOut` and `audioResample` are
the exact operations followed by `fl32` or `fl64`, in the order in which C++ evaluates
them.  Sample memory (`s16` arrays) is a function from the sample index to the sample
value. -/

/-- The audio fields of an `ImGuiEmuInstance`; `hasConsole` is `nds || dsi`. -/
structure AudioInst where
  instanceID : Int
  mpAudioMode : Int
  audioMuted : Bool
  audioFreq : Int
  audioBufSize : Int
  /-- a `float` -/
  audioSampleFrac : ℚ
  audioVolume : Int
  hasConsole : Bool
deriving DecidableEq

namespace AudioInst

/-- The constant `kMaxEmuInstances`. -/
def kMaxEmuInstances : Nat := 16

/-- The function `numEmuInstances` over the table `emuInstances`: the number of the 16
slots that hold an instance. -/
def numEmuInstances (emuInstances : List (Option AudioInst)) : Int :=
  (List.range kMaxEmuInstances).foldl
    (fun ret i => if (emuInstances.getD i none).isSome then ret + 1 else ret) 0

/-- The method `ImGuiEmuInstance::audioMute`. -/
def audioMute (emuInstances : List (Option AudioInst)) (a : AudioInst) : AudioInst :=
  let a := { a with audioMuted := false }
  if numEmuInstances emuInstances < 2 then a
  else if a.mpAudioMode = 1 then
    if a.instanceID > 0 then { a with audioMuted := true } else a
  else if a.mpAudioMode = 2 then { a with audioMuted := true }
  else a

/-- The focus state of an `ImGuiFrontend` window with the audio fields of its
`emuInstance`. -/
structure Frontend where
  focused : Bool
  emuInstance : AudioInst
deriving DecidableEq

/-- The method `ImGuiFrontend::onFocusIn`: `focused = true`, then (besides a possible
`emuUnpause`) `emuInstance->audioEnable()`, which leaves the audio fields alone. -/
def onFocusIn (f : Frontend) : Frontend := { f with focused := true }

/-- The method `ImGuiFrontend::onFocusOut`: `focused = false`, then (besides
`keyReleaseAll` and a possible `emuPause`) `emuInstance->audioMute()`. -/
def onFocusOut (emuInstances : List (Option AudioInst)) (f : Frontend) : Frontend :=
  { focused := false, emuInstance := audioMute emuInstances f.emuInstance }

/-- The value of the local `f_len_in` of `audioGetNumSamplesOut` after
`f_len_in += audioSampleFrac`.  The product `outlen * 32823.6328125 * (targetFPS/60.0)`
and the division by `(float)audioFreq` are `double` operations, the store to
`f_len_in` and the addition of `audioSampleFrac` are `float` operations
(`32823.6328125 = 4201425 / 128`). -/
def fLenIn (outlen : Int) (a : AudioInst) : ℚ :=
  let targetFPS : ℚ := fl32 60
  let f_len_in : ℚ :=
    fl32 (fl64 (fl64 (fl64 ((outlen : ℚ) * (4201425 / 128)) * fl64 (targetFPS / 60))
      / fl32 (a.audioFreq : ℚ)))
  fl32 (f_len_in + a.audioSampleFrac)

/-- The method `ImGuiEmuInstance::audioGetNumSamplesOut`: the returned `len_in` and the
instance with the carried fraction updated: `audioSampleFrac = f_len_in - len_in` is a
`float` subtraction of `len_in` converted to `float`. -/
def audioGetNumSamplesOut (outlen : Int) (a : AudioInst) : Int × AudioInst :=
  let f_len_in : ℚ := fLenIn outlen a
  let len_in : Int := ⌊f_len_in⌋
  (len_in, { a with audioSampleFrac := fl32 (f_len_in - fl32 (len_in : ℚ)) })

/-- Successive calls of `audioGetNumSamplesOut` with the given requested lengths: the
returned counts in order, and the instance afterwards. -/
def numSamplesRun : List Int → AudioInst → List Int × AudioInst
  | [], a => ([], a)
  | o :: os, a =>
    ((audioGetNumSamplesOut o a).1 :: (numSamplesRun os (audioGetNumSamplesOut o a).2).1,
     (numSamplesRun os (audioGetNumSamplesOut o a).2).2)

/-- The conversion to `melonDS::s16`. -/
def toS16 (x : Int) : Int := (x + 32768) % 65536 - 32768

/-- The function `round` of C: to the nearest integer, halves away from zero. -/
def cround (x : ℚ) : Int := if 0 ≤ x then ⌊x + 1 / 2⌋ else ⌈x - 1 / 2⌉

/-- One turn of the loop `while (res_timer >= 1.0) { res_timer -= 1.0; res_pos++; }` of
`audioResample`: the subtraction is a `double` operation, stored to the `float`
`res_timer`. -/
def timerTurn (st : ℚ × Nat) : ℚ × Nat := (fl32 (fl64 (st.1 - 1)), st.2 + 1)

/-- The loop `while (res_timer >= 1.0) ...` for at most `fuel` turns: the state at the
exit of the loop, or `none` when the loop has not exited after `fuel` turns. -/
def whileTimer : Nat → ℚ × Nat → Option (ℚ × Nat)
  | 0, st => if st.1 ≥ 1 then none else some st
  | fuel + 1, st => if st.1 ≥ 1 then whileTimer fuel (timerTurn st) else some st

/-- The end of one turn of the `for` loop of `audioResample`: the `float` addition
`res_timer += res_incr` and the `while` loop, which is given `⌊res_timer⌋` turns.  A
turn lowers the timer by at least 1 or leaves it where it is, and a timer that a turn
leaves where it is never exits the loop, so the loop exits within these turns or not
at all (`whileTimer_none`). -/
def advanceTimer (res_incr : ℚ) (st : ℚ × Nat) : Option (ℚ × Nat) :=
  let res_timer := fl32 (st.1 + res_incr)
  whileTimer ⌊res_timer⌋.toNat (res_timer, st.2)

/-- The `for` loop of `audioResample` for `n` more turns, from turn `i` with the timer
and position `st`: each turn reads the pairs `res_pos` and `res_pos + 1`, interpolates
in `float`, scales by the volume and writes the output pair `i`.  The result is the
output memory and whether the loop came to its end; it does not when the `while` loop
of a turn does not exit. -/
def resampleLoop (inbuf : Nat → Int) (res_incr : ℚ) (volume : Int) :
    Nat → Nat → ℚ × Nat → (Nat → Int) → (Nat → Int) × Bool
  | 0, _, _, outbuf => (outbuf, true)
  | n + 1, i, (res_timer, res_pos), outbuf =>
    let l1 := inbuf (res_pos * 2)
    let l2 := inbuf (res_pos * 2 + 2)
    let r1 := inbuf (res_pos * 2 + 1)
    let r2 := inbuf (res_pos * 2 + 3)
    let l : ℚ := fl32 (fl32 (l1 : ℚ) + fl32 (fl32 ((l2 - l1 : Int) : ℚ) * res_timer))
    let r : ℚ := fl32 (fl32 (r1 : ℚ) + fl32 (fl32 ((r2 - r1 : Int) : ℚ) * res_timer))
    let outbuf := Function.update outbuf (i * 2) (toS16 ((cround l * volume) >>> (8 : Nat)))
    let outbuf := Function.update outbuf (i * 2 + 1) (toS16 ((cround r * volume) >>> (8 : Nat)))
    match advanceTimer res_incr (res_timer, res_pos) with
    | some st => resampleLoop inbuf res_incr volume n (i + 1) st outbuf
    | none => (outbuf, false)

/-- The value of `res_incr` in `audioResample`: the `float` division
`inlen / (float)outlen`. -/
def resIncr (inlen outlen : Int) : ℚ := fl32 (fl32 (inlen : ℚ) / fl32 (outlen : ℚ))

/-- The method `ImGuiEmuInstance::audioResample`: the output memory afterwards (when
the method does not return, the output memory written until then). -/
def audioResample (inbuf : Nat → Int) (inlen : Int) (outbuf : Nat → Int) (outlen : Int)
    (volume : Int) : Nat → Int :=
  (resampleLoop inbuf (resIncr inlen outlen) volume outlen.toNat 0 (-1 / 2, 0) outbuf).1

/-- Whether `audioResample` returns: every `while` loop in it exits. -/
def audioResampleReturns (inbuf : Nat → Int) (inlen : Int) (outbuf : Nat → Int)
    (outlen : Int) (volume : Int) : Bool :=
  (resampleLoop inbuf (resIncr inlen outlen) volume outlen.toNat 0 (-1 / 2, 0) outbuf).2

/-- The values of `res_pos` in the turns of the `for` loop that are run, at most `n`,
from the state `st`. -/
def resamplePositions (res_incr : ℚ) : Nat → ℚ × Nat → List Nat
  | 0, _ => []
  | n + 1, st =>
    st.2 :: (match advanceTimer res_incr st with
      | some st => resamplePositions res_incr n st
      | none => [])

/-- The values of `res_pos` at which `audioResample` reads its input. -/
def readPositions (inlen outlen : Int) : List Nat :=
  resamplePositions (resIncr inlen outlen) outlen.toNat (-1 / 2, 0)

end AudioInst

namespace AudioInst

/-- An instance with the given id and multiplayer audio mode, playing at 48000 Hz at
full volume. -/
def sample (instanceID mpAudioMode : Int) : AudioInst :=
  { instanceID := instanceID, mpAudioMode := mpAudioMode, audioMuted := false,
    audioFreq := 48000, audioBufSize := 1024, audioSampleFrac := 0, audioVolume := 256,
    hasConsole := true }

/-- An instance table with the slots 0 and 1 in use, both in the given mode. -/
def twoInstances (mpAudioMode : Int) : List (Option AudioInst) :=
  [some (sample 0 mpAudioMode), some (sample 1 mpAudioMode)]

end AudioInst

namespace AudioInst

/-- The assignment `((u32*)buf_in)[i] = ((u32*)buf_in)[last]`: the stereo pair `last`
copied over the pair `i`. -/
def copyPair (buf : Nat → Int) (i last : Nat) : Nat → Int :=
  let l := buf (last * 2)
  let r := buf (last * 2 + 1)
  Function.update (Function.update buf (i * 2) l) (i * 2 + 1) r

/-- The loop `for (i = num_in; i < len_in - margin; i++) buf_in[i] = buf_in[last]` of
`audioCallback`, for `n` more turns from the pair `i`. -/
def padLoop (last : Nat) : Nat → Nat → (Nat → Int) → (Nat → Int)
  | 0, _, buf => buf
  | n + 1, i, buf => padLoop last n (i + 1) (copyPair buf i last)

/-- The number of input pairs `audioCallback` asks for: `audioGetNumSamplesOut(len)`
limited to `audioBufSize` and to the 4096 pairs of `buf_in`. -/
def callbackLenIn (inst : AudioInst) (len : Int) : Int :=
  let len_in := (audioGetNumSamplesOut len inst).1
  let len_in := if len_in > inst.audioBufSize then inst.audioBufSize else len_in
  if len_in > 4096 then 4096 else len_in

/-- The read of `audioCallback`: `SPU.ReadOutput(buf_in, len_in)` of the machine, given
as `ReadOutput`, when there is one, else nothing read. -/
def callbackRead (ReadOutput : (Nat → Int) → Int → (Nat → Int) × Int) (inst : AudioInst)
    (buf_in : Nat → Int) (len_in : Int) : (Nat → Int) × Int :=
  if inst.hasConsole then ReadOutput buf_in len_in else (buf_in, 0)

/-- What `audioCallback` leaves behind: the instance, the static `buf_in` and the output
stream (as `s16` samples). -/
structure CallbackOut where
  inst : AudioInst
  buf_in : Nat → Int
  stream : Nat → Int

/-- The function `ImGuiEmuInstance::audioCallback`, for a stream of `len` bytes. -/
def audioCallback (ReadOutput : (Nat → Int) → Int → (Nat → Int) × Int) (inst : AudioInst)
    (buf_in stream : Nat → Int) (len : Nat) : CallbackOut :=
  let len := len / 4
  let len_in := callbackLenIn inst len
  let inst := (audioGetNumSamplesOut len inst).2
  let rd := callbackRead ReadOutput inst buf_in len_in
  let buf_in := rd.1
  let num_in := rd.2
  if num_in < 1 || inst.audioMuted then
    { inst := inst, buf_in := buf_in, stream := fun j => if j < len * 2 then 0 else stream j }
  else
    let margin : Int := 6
    if num_in < len_in - margin then
      let last := num_in - 1
      let buf_in := padLoop last.toNat (len_in - margin - num_in).toNat num_in.toNat buf_in
      let num_in := len_in - margin
      { inst := inst, buf_in := buf_in,
        stream := audioResample buf_in num_in stream len inst.audioVolume }
    else
      { inst := inst, buf_in := buf_in,
        stream := audioResample buf_in num_in stream len inst.audioVolume }

/-- A machine whose `ReadOutput` delivers the two pairs (10, 11) and (20, 21). -/
def twoPairs (buf : Nat → Int) (_len_in : Int) : (Nat → Int) × Int :=
  (fun k => if k < 4 then [10, 11, 20, 21].getD k 0 else buf k, 2)

end AudioInst

namespace Worker

/-! ## Events in the life of a worker -/

/-- A message other than `msg_EmuFrameStep` and `msg_EmuStop`. -/
def keepsActive (m : Message) : Bool :=
  match m with
  | msg_EmuFrameStep => false
  | msg_EmuStop _ => false
  | _ => true

/-- What happens to a worker: a thread enqueues a message, the worker handles a message,
or the loop of `run` makes a pass. -/
inductive LoopEvent where
  | send (m : Message)
  | handle (m : Message)
  | pass (hk : HotkeyPress)

/-- The worker after an event. -/
def LoopEvent.apply (P : Platform) (w : Worker) : LoopEvent → Worker
  | LoopEvent.send m => sendMessage m w
  | LoopEvent.handle m => handleMessage P m w
  | LoopEvent.pass hk => runPass P hk w

/-- An event that brings no `msg_EmuFrameStep` and no `msg_EmuStop`: a message other
than these two, or a pass without the frame-step hotkey. -/
def LoopEvent.quiet : LoopEvent → Bool
  | LoopEvent.send m => keepsActive m
  | LoopEvent.handle m => keepsActive m
  | LoopEvent.pass hk => !hk.HK_FrameStep

/-- The worker reached from the constructed one by a sequence of events. -/
def reachBy (P : Platform) (evs : List LoopEvent) : Worker :=
  evs.foldl (fun w e => e.apply P w) Worker.constructed

/-- The status is `Running` or `FrameStep` only with `emuActive` set, the same for the
status captured by the last pause, and the queue holds no `msg_EmuFrameStep` and no
`msg_EmuStop`. -/
def ActiveInv (w : Worker) : Prop :=
  ((w.emuStatus = emuStatus_Running ∨ w.emuStatus = emuStatus_FrameStep) →
    w.emuActive = true) ∧
  ((w.prevEmuStatus = emuStatus_Running ∨ w.prevEmuStatus = emuStatus_FrameStep) →
    w.emuActive = true) ∧
  ∀ m ∈ w.msgQueue, keepsActive m = true

end Worker

/-- The platform `desktop` with the DSi BIOS images and NAND present, on which the file
`game.dsi` is a ROM of 512 bytes whose header byte `0x12` is `0x03` (a DSi title). -/
def Platform.dsiReady : Platform :=
  { Platform.desktop with
    readFile := fun path =>
      if path = "game.dsi" then some (List.replicate 0x12 0 ++ [3] ++ List.replicate 493 0)
      else Platform.desktop.readFile path,
    loadDSiARM9BIOS := some 19,
    loadDSiARM7BIOS := some 17,
    loadNAND := fun _ => some 1 }

/-! ## The message lock: a command wrapper against the worker

A thread other than the worker calls a command wrapper of `ImGuiEmuThread`:
`sendMessage` for each message, then `waitMessage` or `waitAllMessages`, then the read
of `msgResult` and `msgError`.  The worker calls `handleMessages`.  A step of a thread is
one stretch of its code between two operations on `msgMutex` or `msgCondition`; a thread
that needs the mutex while the other holds it does not move. -/

/-- The two threads that take `msgMutex`. -/
inductive Thread where
  | caller
  | worker
deriving DecidableEq, Repr

/-- The wait that a command wrapper calls after `sendMessage`. -/
inductive WaitKind where
  | waitMessage
  | waitAllMessages
deriving DecidableEq, Repr

/-- Where the calling thread stands in a command wrapper: before the `sendMessage`
calls still to make; at `std::unique_lock lock(msgMutex)` of the wait; at the test of
`while (!msgQueue.empty())` of `waitAllMessages`, holding the lock; at the test of the
predicate of `msgCondition.wait(lock, pred)`, holding the lock; blocked inside `wait`
with the lock released; notified and about to take the lock again; out of the wait with
the lock released; returned with the values read from `msgResult` and `msgError`. -/
inductive CallerPc where
  | send (msgs : List Message)
  | lock
  | loopTest
  | waitPred
  | asleep
  | woken
  | unlocked
  | returned (msgResult : Int) (msgError : String)
deriving DecidableEq, Repr

/-- The worker, the owner of `msgMutex` and the calling thread. -/
structure Sys where
  worker : Worker
  msgMutex : Option Thread
  wait : WaitKind
  pc : CallerPc
deriving DecidableEq, Repr

namespace Sys

/-- A call of a wrapper that sends `msgs` and then waits with `wait`. -/
def call (w : Worker) (wait : WaitKind) (msgs : List Message) : Sys :=
  { worker := w, msgMutex := none, wait := wait, pc := CallerPc.send msgs }

/-- The method `ImGuiEmuThread::bootROM` called from another thread. -/
def bootROM (filename : List String) (w : Worker) : Sys :=
  call w WaitKind.waitMessage [msg_BootROM filename]

/-- The method `ImGuiEmuThread::emuExit` called from another thread. -/
def emuExit (w : Worker) : Sys :=
  call w WaitKind.waitAllMessages [msg_Exit]

/-- The method `ImGuiEmuThread::emuFrameStep` called from another thread. -/
def emuFrameStep (w : Worker) : Sys :=
  call w WaitKind.waitAllMessages
    (if w.emuPauseStack < emuPauseStackPauseThreshold then [msg_EmuPause, msg_EmuFrameStep]
     else [msg_EmuFrameStep])

/-- One step of the calling thread.  `sendMessage` takes the lock, pushes and notifies
(no thread is blocked in `wait` then).  `msgCondition.wait(lock, pred)` with the
predicate `!msgQueue.empty()` returns with the lock held when the queue is not empty,
and otherwise releases the lock and blocks.  `waitMessage` returns after its one wait;
`waitAllMessages` goes back to its loop test. -/
def callerStep (s : Sys) : Sys :=
  match s.pc with
  | CallerPc.send [] => { s with pc := CallerPc.lock }
  | CallerPc.send (m :: rest) =>
    if s.msgMutex = none then
      { s with worker := s.worker.sendMessage m,
               pc := if rest.isEmpty then CallerPc.lock else CallerPc.send rest }
    else s
  | CallerPc.lock =>
    if s.msgMutex = none then
      { s with msgMutex := some Thread.caller,
               pc := match s.wait with
                 | WaitKind.waitMessage => CallerPc.waitPred
                 | WaitKind.waitAllMessages => CallerPc.loopTest }
    else s
  | CallerPc.loopTest =>
    if !s.worker.msgQueue.isEmpty then { s with pc := CallerPc.waitPred }
    else { s with msgMutex := none, pc := CallerPc.unlocked }
  | CallerPc.waitPred =>
    if !s.worker.msgQueue.isEmpty then
      match s.wait with
      | WaitKind.waitMessage => { s with msgMutex := none, pc := CallerPc.unlocked }
      | WaitKind.waitAllMessages => { s with pc := CallerPc.loopTest }
    else { s with msgMutex := none, pc := CallerPc.asleep }
  | CallerPc.asleep => s
  | CallerPc.woken =>
    if s.msgMutex = none then { s with msgMutex := some Thread.caller, pc := CallerPc.waitPred }
    else s
  | CallerPc.unlocked =>
    { s with pc := CallerPc.returned s.worker.msgResult s.worker.msgError }
  | CallerPc.returned _ _ => s

/-- One step of the worker: `handleMessages`, which holds the lock from its first line
to its last, handles every queued message and calls `notify_one` after each, waking the
caller if it is blocked in `wait`. -/
def workerStep (P : Platform) (s : Sys) : Sys :=
  if s.msgMutex = none then
    { s with worker := s.worker.handleMessages P,
             pc := if s.pc = CallerPc.asleep ∧ !s.worker.msgQueue.isEmpty then CallerPc.woken
                   else s.pc }
  else s

/-- One step of the named thread. -/
def step (P : Platform) (s : Sys) (t : Thread) : Sys :=
  match t with
  | Thread.caller => callerStep s
  | Thread.worker => workerStep P s

/-- The system after the threads have moved in the order of the schedule. -/
def run (P : Platform) (sched : List Thread) (s : Sys) : Sys :=
  sched.foldl (step P) s

/-- The caller is inside the loop of `waitAllMessages`. -/
def spinning (s : Sys) : Prop :=
  s.pc = CallerPc.loopTest ∨ s.pc = CallerPc.waitPred

end Sys

/-! ## The microphone input of `ImGuiEmuInstance` -/

/-- What the pointer `micBuffer` points at. -/
inductive MicBufferPtr where
  | null
  | micExtBuffer
  | micWavBuffer
deriving DecidableEq, Repr

/-- The microphone fields of an `ImGuiEmuInstance`.  Sample memory is a function from
the sample index to the sample; `hasConsole` is `nds || dsi`; `micFrames` records the
calls of `MicInputFrame` on the machine, oldest first, `none` standing for the call
`MicInputFrame(nullptr, 0)`. -/
structure Mic where
  micExtBuffer : Nat → Int
  micExtBufferWritePos : Nat
  micExtBufferCount : Nat
  micWavLength : Nat
  micWavBuffer : Option (Nat → Int)
  micBuffer : MicBufferPtr
  micBufferLength : Nat
  micBufferReadPos : Nat
  micInputType : Int
  hasConsole : Bool
  micFrames : List (Option (List Int))

/-- What surrounds one call of `micProcess`: whether the microphone hotkey is down, the
contents of the uninitialised local array `tmp`, and the results of the calls of
`rand()`. -/
structure MicCall where
  cmd : Bool
  tmp : Nat → Int
  rand : Nat → Nat

namespace Mic

/-- Addition of `melonDS::u32` values. -/
def add32 (a b : Nat) : Nat := (a + b) % 2 ^ 32

/-- Subtraction of `melonDS::u32` values. -/
def sub32 (a b : Nat) : Nat := (a + (2 ^ 32 - b % 2 ^ 32)) % 2 ^ 32

/-- The call `memcpy(&dst[dstPos], &src[srcPos], n * sizeof(s16))`. -/
def memcpy (dst : Nat → Int) (dstPos : Nat) (src : Nat → Int) (srcPos n : Nat) : Nat → Int :=
  fun k => if dstPos ≤ k ∧ k < dstPos + n then src (srcPos + (k - dstPos)) else dst k

/-- The constant `kFrameLen` of `micProcess`. -/
def kFrameLen : Nat := 735

/-- The capacity `sizeof(micExtBuffer) / sizeof(s16)`. -/
def maxlen : Nat := 4096

/-- The memory that `micBuffer` points at, if any. -/
def micBufferData (m : Mic) : Option (Nat → Int) :=
  match m.micBuffer with
  | MicBufferPtr.null => none
  | MicBufferPtr.micExtBuffer => some m.micExtBuffer
  | MicBufferPtr.micWavBuffer => m.micWavBuffer

/-- The statement `if (nds) nds->MicInputFrame(..) else if (dsi) dsi->MicInputFrame(..)`. -/
def MicInputFrame (frame : Option (List Int)) (m : Mic) : Mic :=
  if m.hasConsole then { m with micFrames := m.micFrames ++ [frame] } else m

/-- The loop `for (i = len; i < kFrameLen; i++) tmp[i] = tmp[len-1]`, for `n` more turns
from `i`, with `last = len - 1`. -/
def padTail (last : Nat) : Nat → Nat → (Nat → Int) → (Nat → Int)
  | 0, _, tmp => tmp
  | n + 1, i, tmp => padTail last n (i + 1) (Function.update tmp i (tmp last))

/-- The copy out of `micBuffer` in `micProcess`: the array `tmp` and the read cursor
afterwards. -/
def readSlice (buf : Nat → Int) (micBufferReadPos micBufferLength len : Nat)
    (tmp : Nat → Int) : (Nat → Int) × Nat :=
  if add32 micBufferReadPos len > micBufferLength then
    let part1 := sub32 micBufferLength micBufferReadPos
    let tmp := memcpy tmp 0 buf micBufferReadPos part1
    let tmp := memcpy tmp part1 buf 0 (sub32 len part1)
    (tmp, sub32 len part1)
  else
    (memcpy tmp 0 buf micBufferReadPos len, add32 micBufferReadPos len)

/-- The completion of `tmp` in `micProcess`: zeroed when nothing was copied, the last
copied sample repeated when fewer than `kFrameLen` were. -/
def fillFrame (len : Nat) (tmp : Nat → Int) : Nat → Int :=
  if len = 0 then fun k => if k < kFrameLen then 0 else tmp k
  else if len < kFrameLen then padTail (len - 1) (kFrameLen - len) len tmp
  else tmp

/-- The method `ImGuiEmuInstance::micProcess`. -/
def micProcess (c : MicCall) (m : Mic) : Mic :=
  let type := if m.micInputType ≠ 1 && !c.cmd then 0 else m.micInputType
  if type = 0 then
    MicInputFrame none { m with micBufferReadPos := 0 }
  else if type = 1 ∨ type = 2 then
    match m.micBufferData with
    | some buf =>
      let len := if m.micExtBufferCount < kFrameLen then m.micExtBufferCount else kFrameLen
      let sl := readSlice buf m.micBufferReadPos m.micBufferLength len c.tmp
      let tmp := fillFrame len sl.1
      let m := MicInputFrame (some ((List.range kFrameLen).map tmp))
        { m with micBufferReadPos := sl.2 }
      { m with micExtBufferCount := sub32 m.micExtBufferCount len }
    | none => MicInputFrame none { m with micBufferReadPos := 0 }
  else if type = 3 then
    MicInputFrame
      (some ((List.range kFrameLen).map
        (fun i => AudioInst.toS16 (((c.rand i % 65536 : Nat) : Int) - 32768)))) m
  else m

/-- The function `ImGuiEmuInstance::micCallback`, for `len` bytes of input. -/
def micCallback (input : Nat → Int) (len : Nat) (m : Mic) : Mic :=
  let len := len / 2
  let len := if add32 m.micExtBufferCount len > maxlen then sub32 maxlen m.micExtBufferCount
             else len
  if add32 m.micExtBufferWritePos len > maxlen then
    let len1 := sub32 maxlen m.micExtBufferWritePos
    let buf := memcpy m.micExtBuffer m.micExtBufferWritePos input 0 len1
    let buf := memcpy buf 0 input len1 (sub32 len len1)
    { m with micExtBuffer := buf, micExtBufferWritePos := sub32 len len1,
             micExtBufferCount := add32 m.micExtBufferCount len }
  else
    { m with micExtBuffer := memcpy m.micExtBuffer m.micExtBufferWritePos input 0 len,
             micExtBufferWritePos := add32 m.micExtBufferWritePos len,
             micExtBufferCount := add32 m.micExtBufferCount len }

/-- The method `ImGuiEmuInstance::micLoadWav`.  The argument `wav` is what `SDL_LoadWAV`
and the conversion loop produce: `none` when the file cannot be loaded, else the
converted samples and the length `(len * 44100) / format.freq`. -/
def micLoadWav (wav : Option ((Nat → Int) × Nat)) (m : Mic) : Mic :=
  let m := { m with micWavBuffer := none, micWavLength := 0 }
  match wav with
  | none => m
  | some (data, n) =>
    { m with micWavLength := if n < 735 then 735 else n, micWavBuffer := some data }

/-- The method `ImGuiEmuInstance::setupMicInputData`; `cfgType` is
`globalConfig.GetInt("Mic.InputType")`. -/
def setupMicInputData (cfgType : Int) (wav : Option ((Nat → Int) × Nat)) (m : Mic) : Mic :=
  let m := if m.micWavBuffer.isSome then { m with micWavBuffer := none, micWavLength := 0 }
           else m
  let m := { m with micInputType := cfgType }
  let m :=
    if cfgType = 0 ∨ cfgType = 3 then
      { m with micBuffer := MicBufferPtr.null, micBufferLength := 0 }
    else if cfgType = 1 then
      { m with micBuffer := MicBufferPtr.micExtBuffer, micBufferLength := maxlen }
    else if cfgType = 2 then
      let m := micLoadWav wav m
      { m with micBuffer := MicBufferPtr.micWavBuffer, micBufferLength := m.micWavLength }
    else m
  { m with micBufferReadPos := 0 }

/-- The microphone fields as the constructor leaves them, with no machine. -/
def constructed : Mic :=
  { micExtBuffer := fun _ => 0, micExtBufferWritePos := 0, micExtBufferCount := 0,
    micWavLength := 0, micWavBuffer := none, micBuffer := MicBufferPtr.null,
    micBufferLength := 0, micBufferReadPos := 0, micInputType := 0, hasConsole := false,
    micFrames := [] }

/-- The microphone part of `ImGuiEmuInstance::audioInit`. -/
def audioInit (cfgType : Int) (wav : Option ((Nat → Int) × Nat)) (m : Mic) : Mic :=
  setupMicInputData cfgType wav
    { m with micExtBuffer := fun _ => 0, micExtBufferWritePos := 0, micExtBufferCount := 0,
             micWavBuffer := none, micBuffer := MicBufferPtr.null, micBufferLength := 0,
             micBufferReadPos := 0 }

/-- The method `ImGuiEmuInstance::audioUpdateSettings`, on the microphone fields:
`micClose`, `SetInterpolation` and `micOpen` leave them alone. -/
def audioUpdateSettings (cfgType : Int) (wav : Option ((Nat → Int) × Nat)) (m : Mic) : Mic :=
  setupMicInputData cfgType wav m

/-- A write by `micCallback` or a read by `micProcess`. -/
inductive Event where
  | write (input : Nat → Int) (len : Nat)
  | read (c : MicCall)

/-- The microphone fields after an event. -/
def Event.apply (m : Mic) : Event → Mic
  | Event.write input len => micCallback input len m
  | Event.read c => micProcess c m

/-- The microphone fields after a sequence of events. -/
def runEvents (evs : List Event) (m : Mic) : Mic := evs.foldl Event.apply m

/-- The length of a write fits the `int len` of `micCallback`. -/
def Event.fits : Event → Prop
  | Event.write _ len => len < 2 ^ 31
  | Event.read _ => True

/-- The buffered samples that a call of `micProcess` consumes: the first
`min(735, micExtBufferCount)` samples of the frame it forwards. -/
def consumed (c : MicCall) (m : Mic) : List Int :=
  match (micProcess c m).micFrames.getLast? with
  | some (some frame) => frame.take (min kFrameLen m.micExtBufferCount)
  | _ => []

/-- Successive calls of `micProcess`: the consumed samples, concatenated, and the fields
afterwards. -/
def drain : List MicCall → Mic → List Int × Mic
  | [], m => ([], m)
  | c :: cs, m => (consumed c m ++ (drain cs (micProcess c m)).1, (drain cs (micProcess c m)).2)

/-- External-capture mode with a machine present and the cursors and the count within
the capacity. -/
def ExtMode (m : Mic) : Prop :=
  m.micInputType = 1 ∧ m.micBuffer = MicBufferPtr.micExtBuffer ∧ m.micBufferLength = maxlen ∧
  m.micBufferReadPos ≤ maxlen ∧ m.micExtBufferWritePos ≤ maxlen ∧ m.micExtBufferCount ≤ maxlen

/-- The read cursor points at the oldest unread sample: read cursor plus count is the
write cursor, modulo the capacity. -/
def Consistent (m : Mic) : Prop :=
  (m.micBufferReadPos + m.micExtBufferCount) % maxlen = m.micExtBufferWritePos % maxlen

/-- A call with the hotkey up, a zeroed local array and `rand()` returning 0. -/
def plainCall : MicCall := { cmd := false, tmp := fun _ => 0, rand := fun _ => 0 }

/-- The input samples 1, 2, 3, ... -/
def ramp (k : Nat) : Int := (k : Int) + 1

end Mic

namespace Mic

instance (m : Mic) : Decidable (ExtMode m) := by
  unfold ExtMode
  infer_instance

instance (m : Mic) : Decidable (Consistent m) := by
  unfold Consistent
  infer_instance

end Mic

namespace Mic

instance (e : Event) : Decidable e.fits := by
  cases e <;> unfold Event.fits <;> infer_instance

end Mic

namespace Mic

/-- The ring buffer in external-capture mode after 1000 samples were written and one
`micProcess` call has consumed 735 of them. -/
def afterUse : Mic := micProcess plainCall (micCallback ramp 2000 (audioInit 1 none constructed))

/-- A machine present, in looped-sample-file mode with a loaded sample buffer of 1000
samples 1, 2, 3, ..., as `audioInit` leaves the microphone fields. -/
def wavLoaded : Mic := { audioInit 2 (some (ramp, 1000)) constructed with hasConsole := true }

/-- A call of `micProcess` with the microphone hotkey held. -/
def hotkeyCall : MicCall := { plainCall with cmd := true }

end Mic

/-! # Theorems -/

namespace Worker

/-! ## The message loop -/

theorem handleMessage_frame (P : Platform) (m : Message) (w : Worker) (q h : List Message) :
    handleMessage P m { w with msgQueue := q, handled := h }
      = { handleMessage P m w with msgQueue := q, handled := h } := by
  cases m <;> simp only [handleMessage, audioEnable, audioDisable, osdAddMessage, setError]
  all_goals (try split_ifs) <;> (try rfl)

theorem handleMessage_msgQueue (P : Platform) (m : Message) (w : Worker) :
    (handleMessage P m w).msgQueue = w.msgQueue := by
  cases m <;> simp only [handleMessage, audioEnable, audioDisable, osdAddMessage, setError]
  all_goals (try split_ifs) <;> (try rfl)

theorem handleMessage_handled (P : Platform) (m : Message) (w : Worker) :
    (handleMessage P m w).handled = w.handled := by
  cases m <;> simp only [handleMessage, audioEnable, audioDisable, osdAddMessage, setError]
  all_goals (try split_ifs) <;> (try rfl)

theorem handleAll_frame (P : Platform) (msgs : List Message) (w : Worker)
    (q h : List Message) :
    handleAll P msgs { w with msgQueue := q, handled := h }
      = { handleAll P msgs w with msgQueue := q, handled := h } := by
  induction msgs generalizing w with
  | nil => rfl
  | cons m ms ih =>
    simp only [handleAll, List.foldl_cons] at ih ⊢
    rw [handleMessage_frame]
    exact ih _

theorem handleAll_cons (P : Platform) (m : Message) (ms : List Message) (w : Worker) :
    handleAll P (m :: ms) w = handleAll P ms (handleMessage P m w) := rfl

theorem handleAll_append (P : Platform) (l₁ l₂ : List Message) (w : Worker) :
    handleAll P (l₁ ++ l₂) w = handleAll P l₂ (handleAll P l₁ w) := by
  simp [handleAll, List.foldl_append]

theorem handleLoop_eq (P : Platform) :
    ∀ (fuel : Nat) (w : Worker), w.msgQueue.length ≤ fuel →
      handleLoop P fuel w
        = { handleAll P w.msgQueue w with msgQueue := [], handled := w.handled ++ w.msgQueue } := by
  intro fuel
  induction fuel with
  | zero =>
    intro w hw
    have hq : w.msgQueue = [] := List.length_eq_zero.mp (Nat.le_zero.mp hw)
    cases w
    simp_all [handleLoop, handleAll]
  | succ fuel ih =>
    intro w hw
    cases hq : w.msgQueue with
    | nil =>
      cases w
      simp_all [handleLoop, handleAll]
    | cons msg rest =>
      have hlen : rest.length ≤ fuel := by
        rw [hq] at hw
        simpa using hw
      simp only [handleLoop, hq]
      rw [ih _ (by rw [handleMessage_msgQueue]; exact hlen)]
      rw [handleMessage_msgQueue, handleMessage_handled, handleMessage_frame, handleAll_frame,
        handleAll_cons]
      simp

/-- The loop of `handleMessages` is the fold of the handler over the queue. -/
theorem handleMessages_eq (P : Platform) (w : Worker) :
    handleMessages P w
      = { handleAll P w.msgQueue w with msgQueue := [], handled := w.handled ++ w.msgQueue } :=
  handleLoop_eq P _ w le_rfl

end Worker

namespace Worker

/-! ## Pause and unpause -/

theorem pauseInv_step (P : Platform) (w : Worker) (n : Nat) (m : Message)
    (hm : isPauseMsg m = true) (h : PauseInv w n) :
    PauseInv (handleMessage P m w) (countStep n m) := by
  obtain ⟨hs, hcase⟩ := h
  cases m <;> simp [isPauseMsg] at hm
  · -- pause
    simp only [handleMessage, countStep, emuPauseStackPauseThreshold, audioDisable, osdAddMessage]
    split_ifs with h1 h2
    · refine ⟨by simp [hs], Or.inr ⟨by omega, ?_, ?_⟩⟩
      · rcases hcase with ⟨h0, _⟩ | ⟨_, hst, _⟩
        · simp [hs, h0] at h1
        · exact hst
      · rcases hcase with ⟨h0, _⟩ | ⟨_, _, hp⟩
        · simp [hs, h0] at h1
        · exact hp
    · rcases hcase with ⟨h0, hst⟩ | ⟨h3, _, _⟩
      · exact ⟨by simp [hs], Or.inr ⟨by omega, rfl, hst⟩⟩
      · simp only [hs] at h1; omega
    · rcases hcase with ⟨h0, hst⟩ | ⟨h3, _, _⟩
      · simp [hst] at h2
      · simp only [hs] at h1; omega
  · -- unpause
    simp only [handleMessage, countStep, emuPauseStackPauseThreshold, audioEnable, osdAddMessage]
    split_ifs with h1 h2 h3
    · rcases hcase with ⟨h0, hst⟩ | ⟨h4, _, _⟩
      · subst h0
        exact ⟨hs, Or.inl ⟨rfl, hst⟩⟩
      · simp only [hs] at h1; omega
    · simp only [hs] at h1 h2
      rcases hcase with ⟨h0, hst⟩ | ⟨h4, hst, hp⟩
      · omega
      · refine ⟨by simp only [hs]; omega, Or.inr ⟨by omega, hst, hp⟩⟩
    · simp only [hs] at h1 h2
      rcases hcase with ⟨h0, hst⟩ | ⟨h4, hst, hp⟩
      · omega
      · refine ⟨by simp only [hs]; omega, Or.inl ⟨by omega, hp⟩⟩
    · simp only [hs] at h1 h2
      rcases hcase with ⟨h0, hst⟩ | ⟨h4, hst, hp⟩
      · omega
      · simp [hp] at h3

theorem pauseInv_all (P : Platform) (msgs : List Message) :
    ∀ (w : Worker) (n : Nat), (∀ m ∈ msgs, isPauseMsg m = true) → PauseInv w n →
      PauseInv (handleAll P msgs w) (msgs.foldl countStep n) := by
  induction msgs with
  | nil => intro w n _ h; exact h
  | cons m ms ih =>
    intro w n hm h
    rw [handleAll_cons, List.foldl_cons]
    exact ih _ _ (fun x hx => hm x (List.mem_cons_of_mem _ hx))
      (pauseInv_step P w n m (hm m (List.mem_cons_self _ _)) h)

theorem foldl_countStep_le (msgs : List Message) :
    ∀ n : Nat, msgs.foldl countStep n ≤ n + msgs.count msg_EmuPause := by
  induction msgs with
  | nil => intro n; simp
  | cons m ms ih =>
    intro n
    rw [List.foldl_cons]
    have := ih (countStep n m)
    cases m <;> simp [countStep, List.count_cons] at this ⊢ <;> omega

theorem foldl_countStep_balanced (msgs : List Message) :
    ∀ n : Nat,
      (∀ k, (msgs.take k).count msg_EmuUnpause ≤ n + (msgs.take k).count msg_EmuPause) →
      msgs.foldl countStep n + msgs.count msg_EmuUnpause = n + msgs.count msg_EmuPause := by
  induction msgs with
  | nil => intro n _; simp
  | cons m ms ih =>
    intro n hb
    rw [List.foldl_cons]
    have h1 := hb 1
    have hk : ∀ k, ((m :: ms).take (k + 1)).count msg_EmuUnpause
        ≤ n + ((m :: ms).take (k + 1)).count msg_EmuPause := fun k => hb (k + 1)
    cases m <;> simp [countStep, List.count_cons] at h1 hk ⊢
    all_goals first
      | (have h2 := ih n hk; omega)
      | (have h2 := ih (n + 1) (fun k => by have h3 := hk k; omega); omega)
      | (have h2 := ih (n - 1) (fun k => by have h3 := hk k; omega); omega)

end Worker

namespace Worker

theorem balanced_all (msgs : List Message) (hb : balanced msgs) (k : Nat) :
    (msgs.take k).count msg_EmuUnpause ≤ 0 + (msgs.take k).count msg_EmuPause := by
  rw [Nat.zero_add]
  by_cases hk : k ≤ msgs.length
  · exact hb k hk
  · have : msgs.take k = msgs.take msgs.length := by
      rw [List.take_of_length_le (by omega), List.take_length]
    rw [this]
    exact hb _ le_rfl

theorem pauseInv_status (w : Worker) (n : Nat) (h : PauseInv w n) :
    (w.emuStatus = emuStatus_Paused ↔ 0 < n) ∧ (w.emuStatus = emuStatus_Running ↔ n = 0) := by
  obtain ⟨_, ⟨h0, hst⟩ | ⟨h1, hst, _⟩⟩ := h
  · simp [h0, hst]
  · simp [hst]; omega

theorem pauseInv_handleMessages (P : Platform) (w : Worker) (msgs : List Message)
    (hrun : w.emuStatus = emuStatus_Running) (h0 : w.emuPauseStack = 0)
    (hq : w.msgQueue = msgs) (hm : ∀ m ∈ msgs, isPauseMsg m = true) :
    PauseInv (handleMessages P w) (effectivePauseCount msgs) := by
  have h := pauseInv_all P msgs w 0 hm ⟨by simp [h0], Or.inl ⟨rfl, hrun⟩⟩
  rw [handleMessages_eq, hq]
  exact h

end Worker

namespace Worker

/-! ## The pause counter as a 32-bit `int` -/

theorem int32_eq (x : Int) (h1 : -2 ^ 31 ≤ x) (h2 : x < 2 ^ 31) : int32 x = x := by
  unfold int32
  omega

theorem handleMessageInt_eq (P : Platform) (m : Message) (w : Worker)
    (h1 : 0 ≤ w.emuPauseStack) (h2 : w.emuPauseStack < 2 ^ 31 - 1) :
    handleMessageInt P m w = handleMessage P m w := by
  cases m <;> try rfl
  · simp only [handleMessageInt, handleMessage]
    rw [int32_eq _ (by omega) (by omega)]
  · simp only [handleMessageInt, handleMessage]
    rw [int32_eq _ (by omega) (by omega)]

theorem handleLoopInt_eq (P : Platform) :
    ∀ (fuel : Nat) (w : Worker) (n : Nat), PauseInv w n →
      (∀ m ∈ w.msgQueue, isPauseMsg m = true) → n + w.msgQueue.length < 2 ^ 31 →
      handleLoopInt P fuel w = handleLoop P fuel w := by
  intro fuel
  induction fuel with
  | zero => intro w n _ _ _; rfl
  | succ fuel ih =>
    intro w n hinv hm hlen
    cases hq : w.msgQueue with
    | nil => simp only [handleLoopInt, handleLoop, hq]
    | cons msg rest =>
      rw [hq] at hm hlen
      simp only [List.length_cons] at hlen
      have hs : w.emuPauseStack = n := hinv.1
      have hinv2 : PauseInv { w with msgQueue := rest, handled := w.handled ++ [msg] } n := hinv
      have hstep := pauseInv_step P _ n msg (hm msg (List.mem_cons_self _ _)) hinv2
      have hcount : countStep n msg ≤ n + 1 := by
        cases msg <;> simp only [countStep] <;> omega
      simp only [handleLoopInt, handleLoop, hq]
      rw [handleMessageInt_eq P msg _ (by show 0 ≤ w.emuPauseStack; omega)
        (by show w.emuPauseStack < 2 ^ 31 - 1; omega)]
      apply ih _ (countStep n msg) hstep
      · rw [handleMessage_msgQueue]
        exact fun m hmem => hm m (List.mem_cons_of_mem _ hmem)
      · rw [handleMessage_msgQueue]
        show countStep n msg + rest.length < 2 ^ 31
        omega

theorem handleMessageInt_frame (P : Platform) (m : Message) (w : Worker)
    (q h : List Message) :
    handleMessageInt P m { w with msgQueue := q, handled := h }
      = { handleMessageInt P m w with msgQueue := q, handled := h } := by
  cases m
  case msg_EmuPause =>
    simp only [handleMessageInt, audioDisable, osdAddMessage]
    split_ifs <;> rfl
  case msg_EmuUnpause =>
    simp only [handleMessageInt, audioEnable, osdAddMessage]
    split_ifs <;> rfl
  all_goals (simp only [handleMessageInt]; exact handleMessage_frame P _ w q h)

theorem foldInt_frame (P : Platform) (msgs : List Message) (w : Worker)
    (q h : List Message) :
    msgs.foldl (fun w m => handleMessageInt P m w) { w with msgQueue := q, handled := h }
      = { msgs.foldl (fun w m => handleMessageInt P m w) w with msgQueue := q, handled := h } := by
  induction msgs generalizing w with
  | nil => rfl
  | cons m ms ih =>
    simp only [List.foldl_cons]
    rw [handleMessageInt_frame]
    exact ih _

theorem handleLoopInt_fold (P : Platform) :
    ∀ (fuel : Nat) (w : Worker), w.msgQueue.length ≤ fuel →
      handleLoopInt P fuel w
        = { w.msgQueue.foldl (fun w m => handleMessageInt P m w) w with
            msgQueue := [], handled := w.handled ++ w.msgQueue } := by
  intro fuel
  induction fuel with
  | zero =>
    intro w hw
    have hq : w.msgQueue = [] := List.length_eq_zero.mp (Nat.le_zero.mp hw)
    cases w
    simp_all [handleLoopInt]
  | succ fuel ih =>
    intro w hw
    cases hq : w.msgQueue with
    | nil =>
      cases w
      simp_all [handleLoopInt]
    | cons msg rest =>
      have hlen : rest.length ≤ fuel := by
        rw [hq] at hw
        simpa using hw
      have hmq : (handleMessageInt P msg
          { w with msgQueue := rest, handled := w.handled ++ [msg] }).msgQueue = rest := by
        rw [handleMessageInt_frame]
      have hmh : (handleMessageInt P msg
          { w with msgQueue := rest, handled := w.handled ++ [msg] }).handled
            = w.handled ++ [msg] := by
        rw [handleMessageInt_frame]
      simp only [handleLoopInt, hq]
      rw [ih _ (by rw [hmq]; exact hlen), hmq, hmh, handleMessageInt_frame, foldInt_frame,
        List.foldl_cons]
      simp

theorem pauseInt_step (P : Platform) (w : Worker) :
    (handleMessageInt P msg_EmuPause w).emuPauseStack = int32 (w.emuPauseStack + 1) ∧
    (handleMessageInt P msg_EmuPause w).emuStatus
      = if int32 (w.emuPauseStack + 1) > 1 then w.emuStatus else emuStatus_Paused := by
  simp only [handleMessageInt, emuPauseStackPauseThreshold, audioDisable, osdAddMessage]
  split_ifs <;> exact ⟨rfl, rfl⟩

theorem pausesInt_fold (P : Platform) (w : Worker) (h0 : w.emuPauseStack = 0) (n : Nat) :
    ((List.replicate n msg_EmuPause).foldl
        (fun w m => handleMessageInt P m w) w).emuPauseStack = int32 n ∧
    (0 < n → ((List.replicate n msg_EmuPause).foldl
        (fun w m => handleMessageInt P m w) w).emuStatus = emuStatus_Paused) := by
  induction n with
  | zero => exact ⟨by rw [List.replicate_zero, List.foldl_nil, h0]; rfl,
      fun h => absurd h (by omega)⟩
  | succ n ih =>
    rw [List.replicate_succ', List.foldl_append, List.foldl_cons, List.foldl_nil]
    obtain ⟨h1, h2⟩ := pauseInt_step P
      ((List.replicate n msg_EmuPause).foldl (fun w m => handleMessageInt P m w) w)
    rw [h1, h2, ih.1]
    have e : int32 (int32 (n : Int) + 1) = int32 ((n + 1 : Nat) : Int) := by
      unfold int32
      push_cast
      omega
    rw [e]
    refine ⟨rfl, fun _ => ?_⟩
    split_ifs with h
    · rcases Nat.eq_zero_or_pos n with hn | hn
      · subst hn
        exact absurd h (by decide)
      · exact ih.2 hn
    · rfl

theorem pausesInt_run (P : Platform) (w : Worker) (n : Nat) (h0 : w.emuPauseStack = 0)
    (hq : w.msgQueue = List.replicate n msg_EmuPause) :
    (handleMessagesInt P w).emuPauseStack = int32 n ∧
    (0 < n → (handleMessagesInt P w).emuStatus = emuStatus_Paused) := by
  have h := handleLoopInt_fold P w.msgQueue.length w le_rfl
  unfold handleMessagesInt
  rw [h, hq]
  exact pausesInt_fold P w h0 n

/-- C2 (amended): for every sequence of fewer than 2^31 `EmuPause`/`EmuUnpause` messages
applied by `handleMessages` to a running worker (`Running`, pause stack 0), with
`emuPauseStack` the 32-bit `int` of the source: after each prefix the counter has not
overflowed (the run is the run over the unbounded counter), it is not negative, not
above the number of pauses handled and below 2^31; the status is `Paused` exactly when
the counter is at least 1 and `Running` exactly when it is 0; and an `EmuUnpause`
handled at counter 0 leaves the worker state as it was. -/
theorem pause_stack_in_int_range (P : Platform) (w : Worker) (msgs : List Message)
    (k : Nat) (v : Worker)
    (hrun : w.emuStatus = emuStatus_Running) (h0 : w.emuPauseStack = 0)
    (hm : ∀ m ∈ msgs, isPauseMsg m = true) (hlen : msgs.length < 2 ^ 31) :
    handleMessagesInt P { w with msgQueue := msgs.take k }
      = handleMessages P { w with msgQueue := msgs.take k } ∧
    (0 ≤ (handleMessagesInt P { w with msgQueue := msgs.take k }).emuPauseStack ∧
     (handleMessagesInt P { w with msgQueue := msgs.take k }).emuPauseStack
        ≤ (msgs.take k).count msg_EmuPause ∧
     (handleMessagesInt P { w with msgQueue := msgs.take k }).emuPauseStack < 2 ^ 31 ∧
     ((handleMessagesInt P { w with msgQueue := msgs.take k }).emuStatus = emuStatus_Paused
        ↔ 1 ≤ (handleMessagesInt P { w with msgQueue := msgs.take k }).emuPauseStack) ∧
     ((handleMessagesInt P { w with msgQueue := msgs.take k }).emuStatus = emuStatus_Running
        ↔ (handleMessagesInt P { w with msgQueue := msgs.take k }).emuPauseStack = 0)) ∧
    (v.emuPauseStack = 0 → handleMessageInt P msg_EmuUnpause v = v) := by
  have hmk : ∀ m ∈ msgs.take k, isPauseMsg m = true :=
    fun m hmem => hm m (List.mem_of_mem_take hmem)
  have hlk : (msgs.take k).length ≤ msgs.length := by
    rw [List.length_take]
    exact Nat.min_le_right _ _
  have heq : handleMessagesInt P { w with msgQueue := msgs.take k }
      = handleMessages P { w with msgQueue := msgs.take k } :=
    handleLoopInt_eq P _ { w with msgQueue := msgs.take k } 0
      ⟨by simp [h0], Or.inl ⟨rfl, hrun⟩⟩ hmk
      (by show 0 + (msgs.take k).length < 2 ^ 31; omega)
  refine ⟨heq, ?_, ?_⟩
  · rw [heq]
    have hinv := pauseInv_handleMessages P { w with msgQueue := msgs.take k } (msgs.take k)
      hrun h0 rfl hmk
    have hst := pauseInv_status _ _ hinv
    have hle := foldl_countStep_le (msgs.take k) 0
    have hc : (msgs.take k).count msg_EmuPause ≤ (msgs.take k).length := List.count_le_length _ _
    obtain ⟨hs, _⟩ := hinv
    rw [hs, hst.1, hst.2]
    unfold effectivePauseCount at *
    refine ⟨by omega, by omega, by omega, by omega, by omega⟩
  · intro hv
    have h1 : v.emuPauseStack < 1 := by omega
    simp only [handleMessageInt, emuPauseStackPauseThreshold]
    rw [if_pos h1]

/-- C2, evaluated on the running worker with the sequence unpause, pause, pause,
unpause and its prefix of length 3. -/
theorem pause_stack_in_int_range_witness :
    (Worker.started.emuStatus = emuStatus_Running ∧ Worker.started.emuPauseStack = 0) ∧
    (handleMessagesInt Platform.offline
        { Worker.started with
          msgQueue := [msg_EmuUnpause, msg_EmuPause, msg_EmuPause, msg_EmuUnpause].take 3 }
      ).emuPauseStack = 2 ∧
    ((handleMessagesInt Platform.offline
        { Worker.started with
          msgQueue := [msg_EmuUnpause, msg_EmuPause, msg_EmuPause, msg_EmuUnpause].take 3 }
      ).emuStatus = emuStatus_Paused
      ↔ 1 ≤ (handleMessagesInt Platform.offline
        { Worker.started with
          msgQueue := [msg_EmuUnpause, msg_EmuPause, msg_EmuPause, msg_EmuUnpause].take 3 }
      ).emuPauseStack) :=
  ⟨by decide, by decide,
   (pause_stack_in_int_range Platform.offline Worker.started
      [msg_EmuUnpause, msg_EmuPause, msg_EmuPause, msg_EmuUnpause] 3 Worker.started
      (by decide) (by decide) (by decide) (by decide)).2.1.2.2.2.1⟩

/-- C2 as stated fails for long sequences.  From the running worker, `2^31 - 1` pauses
bring the `int` counter to its largest value; the next `emuPauseStack++` overflows it,
and with the two's complement wrap the counter is `-2^31`, negative, while the status
is `Paused`. -/
theorem pause_stack_overflow_counterexample :
    (Worker.started.emuStatus = emuStatus_Running ∧ Worker.started.emuPauseStack = 0) ∧
    (handleMessagesInt Platform.offline
        { Worker.started with
          msgQueue := List.replicate (2 ^ 31 - 1) msg_EmuPause }).emuPauseStack
      = 2147483647 ∧
    (handleMessagesInt Platform.offline
        { Worker.started with
          msgQueue := List.replicate (2 ^ 31) msg_EmuPause }).emuPauseStack
      = -2147483648 ∧
    (handleMessagesInt Platform.offline
        { Worker.started with
          msgQueue := List.replicate (2 ^ 31) msg_EmuPause }).emuStatus
      = emuStatus_Paused :=
  ⟨by decide,
   ((pausesInt_run Platform.offline _ (2 ^ 31 - 1) rfl rfl).1).trans (by decide),
   ((pausesInt_run Platform.offline _ (2 ^ 31) rfl rfl).1).trans (by decide),
   (pausesInt_run Platform.offline _ (2 ^ 31) rfl rfl).2 (by decide)⟩

end Worker

namespace Worker

end Worker

namespace Worker

/-! ## Frames and the loop pass -/

theorem handleMessages_nil (P : Platform) (w : Worker) (hq : w.msgQueue = []) :
    handleMessages P w = w := by
  simp [handleMessages, hq, handleLoop]

theorem handleMessages_msgQueue (P : Platform) (w : Worker) :
    (handleMessages P w).msgQueue = [] := by
  rw [handleMessages_eq]

theorem handleMessages_status (P : Platform) (w : Worker) :
    (handleMessages P w).emuStatus = (handleAll P w.msgQueue w).emuStatus := by
  rw [handleMessages_eq]

theorem emuFrameStep_queue (w : Worker) :
    ∃ q, (emuFrameStep w).msgQueue = q ++ [msg_EmuFrameStep] := by
  unfold emuFrameStep sendMessage
  split_ifs
  · exact ⟨w.msgQueue ++ [msg_EmuPause], rfl⟩
  · exact ⟨w.msgQueue, rfl⟩

theorem emuFrameStep_calls (w : Worker) : (emuFrameStep w).calls = w.calls := by
  unfold emuFrameStep sendMessage
  split_ifs <;> rfl

theorem frameStep_handled_status (P : Platform) (w : Worker) :
    (handleMessages P (emuFrameStep w)).emuStatus = emuStatus_FrameStep := by
  obtain ⟨q, hq⟩ := emuFrameStep_queue w
  rw [handleMessages_status, hq, handleAll_append]
  rfl

theorem runPass_paused_idle (P : Platform) (w : Worker)
    (hs : w.emuStatus = emuStatus_Paused) (hq : w.msgQueue = []) :
    runPass P noHotkeys w = w := by
  have hf : frameExec P w = w := by
    simp [frameExec, hs]
  simp only [runPass, noHotkeys, Bool.false_eq_true, if_false, hf]
  exact handleMessages_nil P w hq

theorem runPass_paused_iterate (P : Platform) (w : Worker)
    (hs : w.emuStatus = emuStatus_Paused) (hq : w.msgQueue = []) (n : Nat) :
    (runPass P noHotkeys)^[n] w = w := by
  induction n with
  | zero => rfl
  | succ n ih => rw [Function.iterate_succ_apply, runPass_paused_idle P w hs hq, ih]

end Worker

namespace Instance

theorem machineFrames_onConsole (f : Console → Console) (hf : ∀ c, (f c).frames = c.frames)
    (i : Instance) : (onConsole f i).machineFrames = i.machineFrames := by
  unfold machineFrames console onConsole
  cases hn : i.nds with
  | some n => simp [hf]
  | none =>
    cases hd : i.dsi with
    | some d => simp [hn, hf]
    | none => simp [hn, hd]

theorem machineFrames_stop (i : Instance) : (stop i).machineFrames = i.machineFrames := by
  have h : (stop i).machineFrames = (onConsole Console.Stop i).machineFrames := by
    unfold stop audioDisable micClose machineFrames console
    split_ifs <;> rfl
  rw [h]
  exact machineFrames_onConsole Console.Stop (fun _ => rfl) i

theorem machineFrames_runConsoleFrame (P : Platform) (i : Instance) :
    (runConsoleFrame P i).machineFrames
      = i.machineFrames + (if i.canRunFrame = true then 1 else 0) := by
  unfold machineFrames console runConsoleFrame canRunFrame
  cases hn : i.nds with
  | some n => simp [Console.RunFrame]
  | none =>
    cases hd : i.dsi with
    | some d =>
      cases hr : d.running <;> simp [hn, hd, hr, Console.RunFrame]
    | none => simp [hn, hd]

theorem machineFrames_frameStep (P : Platform) (i : Instance) :
    (frameStep P i).machineFrames
      = i.machineFrames + (if i.canRunFrame = true then 1 else 0) := by
  unfold frameStep
  simp only []
  split_ifs with h1 h2 h2
  · have h : ({ stop (runConsoleFrame P i) with emuShouldStop := false } : Instance).machineFrames
        = (stop (runConsoleFrame P i)).machineFrames := rfl
    rw [h, machineFrames_stop, machineFrames_runConsoleFrame, if_pos h2]
  · have h : ({ stop (runConsoleFrame P i) with emuShouldStop := false } : Instance).machineFrames
        = (stop (runConsoleFrame P i)).machineFrames := rfl
    rw [h, machineFrames_stop, machineFrames_runConsoleFrame, if_neg h2]
  · rw [machineFrames_runConsoleFrame, if_pos h2]
  · rw [machineFrames_runConsoleFrame, if_neg h2]

end Instance

namespace Worker

theorem sameMachine_machineFrames (w v : Worker) (hn : v.inst.nds = w.inst.nds)
    (hd : v.inst.dsi = w.inst.dsi) :
    machineFrames v = machineFrames w ∧ v.inst.canRunFrame = w.inst.canRunFrame := by
  unfold machineFrames Instance.machineFrames Instance.console Instance.canRunFrame
  rw [hn, hd]
  exact ⟨rfl, rfl⟩

theorem machineFrames_after_frameStep (P : Platform) (w v : Worker)
    (hv : v.inst = w.inst.frameStep P) :
    machineFrames v = machineFrames w + (if w.inst.canRunFrame = true then 1 else 0) := by
  unfold machineFrames
  rw [hv]
  exact Instance.machineFrames_frameStep P w.inst

theorem emuFrameStep_handled_machine (P : Platform) (w : Worker) (hq : w.msgQueue = []) :
    (handleMessages P (emuFrameStep w)).inst.nds = w.inst.nds ∧
    (handleMessages P (emuFrameStep w)).inst.dsi = w.inst.dsi := by
  rw [handleMessages_eq]
  unfold emuFrameStep sendMessage
  split_ifs with h
  · simp only [hq, List.nil_append, List.cons_append, handleAll, List.foldl_cons,
      List.foldl_nil, handleMessage, audioDisable, osdAddMessage, Instance.audioDisable,
      Instance.micClose, Instance.osdAddMessage]
    split_ifs <;> exact ⟨rfl, rfl⟩
  · simp only [hq, List.nil_append, handleAll, List.foldl_cons, List.foldl_nil, handleMessage,
      and_self]

/-- C4 (amended): for every worker state with no message pending whose instance has a
machine that can run a frame (an NDS, or else a DSi that is running), after
`emuFrameStep` (which enqueues `EmuPause` only when the pause stack is below the
threshold, then `EmuFrameStep`) and `handleMessages`, which executes no frame, the next
loop pass executes exactly one machine frame (one `RunFrame()` on the machine) and
leaves `emuStatus == Paused`; any number of further passes with no new message executes
no frame and stays `Paused`. -/
theorem frame_step_runs_one_machine_frame (P : Platform) (w : Worker) (n : Nat)
    (hq : w.msgQueue = []) (hc : w.inst.canRunFrame = true) :
    machineFrames (handleMessages P (emuFrameStep w)) = machineFrames w ∧
    machineFrames (runPass P noHotkeys (handleMessages P (emuFrameStep w)))
      = machineFrames w + 1 ∧
    (runPass P noHotkeys (handleMessages P (emuFrameStep w))).emuStatus = emuStatus_Paused ∧
    machineFrames ((runPass P noHotkeys)^[n]
        (runPass P noHotkeys (handleMessages P (emuFrameStep w))))
      = machineFrames w + 1 ∧
    ((runPass P noHotkeys)^[n]
        (runPass P noHotkeys (handleMessages P (emuFrameStep w)))).emuStatus
      = emuStatus_Paused := by
  obtain ⟨m1, m2⟩ := emuFrameStep_handled_machine P w hq
  obtain ⟨h1, hc1⟩ := sameMachine_machineFrames w _ m1 m2
  have hst := frameStep_handled_status P w
  have hq1 := handleMessages_msgQueue P (emuFrameStep w)
  generalize handleMessages P (emuFrameStep w) = w1 at h1 hc1 hst hq1
  have hfe : frameExec P w1 =
      { w1 with emuStatus := emuStatus_Paused, inst := w1.inst.frameStep P,
                calls := w1.calls ++ [InstCall.frameStep] } := by
    simp [frameExec, hst]
  have hpass : runPass P noHotkeys w1 = frameExec P w1 := by
    simp only [runPass, noHotkeys, Bool.false_eq_true, if_false]
    exact handleMessages_nil P _ (by rw [hfe]; exact hq1)
  have h2 : machineFrames (runPass P noHotkeys w1) = machineFrames w + 1 := by
    rw [hpass, machineFrames_after_frameStep P w1 (frameExec P w1) (by rw [hfe]), h1, hc1, hc,
      if_pos rfl]
  have h3 : (runPass P noHotkeys w1).emuStatus = emuStatus_Paused := by
    rw [hpass, hfe]
  have h4 : (runPass P noHotkeys w1).msgQueue = [] := by
    rw [hpass, hfe]; exact hq1
  rw [runPass_paused_iterate P _ h3 h4 n]
  exact ⟨h1, h2, h3, h2, h3⟩

/-- C4, evaluated on the worker that drives a running NDS game five frames into its
run: after the frame step and one pass the machine has run six frames and the worker is
paused. -/
theorem frame_step_runs_one_machine_frame_witness :
    (Worker.playing.msgQueue = [] ∧ Worker.playing.inst.canRunFrame = true ∧
      machineFrames Worker.playing = 5) ∧
    machineFrames (runPass Platform.desktop noHotkeys
      (handleMessages Platform.desktop (emuFrameStep Worker.playing))) = 5 + 1 ∧
    (runPass Platform.desktop noHotkeys
      (handleMessages Platform.desktop (emuFrameStep Worker.playing))).emuStatus
      = emuStatus_Paused :=
  ⟨by decide,
   (frame_step_runs_one_machine_frame Platform.desktop Worker.playing 0 rfl (by decide)).2.1,
   (frame_step_runs_one_machine_frame Platform.desktop Worker.playing 0 rfl
      (by decide)).2.2.1⟩

/-- C4 as stated fails.  On the running worker whose instance has no machine, the frame
step ends `Paused` as claimed, but its pass executes no machine frame: `frameStep()`
finds neither `nds` nor `dsi` and calls no `RunFrame()`.  The same holds with a DSi
that is not running. -/
theorem frame_step_without_machine_counterexample :
    (Worker.started.emuStatus = emuStatus_Running ∧ Worker.started.inst.nds = none ∧
      Worker.started.inst.dsi = none) ∧
    (runPass Platform.offline noHotkeys
      (handleMessages Platform.offline (emuFrameStep Worker.started))).emuStatus
      = emuStatus_Paused ∧
    (runPass Platform.offline noHotkeys
      (handleMessages Platform.offline (emuFrameStep Worker.started))).calls.count
        InstCall.frameStep = 1 ∧
    machineFrames (runPass Platform.offline noHotkeys
      (handleMessages Platform.offline (emuFrameStep Worker.started)))
      = machineFrames Worker.started ∧
    (runPass Platform.offline noHotkeys
      (handleMessages Platform.offline (emuFrameStep Worker.started))).inst.emuFrameCount
      = 0 := by
  decide

end Worker

namespace Worker

/-- C5: `handleMessages` takes the queued messages in enqueue order, each once (the
record of taken messages grows by exactly the queue), applies their handlers first to
last and leaves the queue empty; handling `EmuReset` in any worker state gives status
`Running` with the pause stack at its running baseline 0; and the queue
`[EmuRun, EmuPause, EmuReset]`, which is what sending the three messages in this order
builds, drives the status through `Running`, `Paused`, `Running`, one message after
the other. -/
theorem messages_applied_in_order (P : Platform) (w : Worker) :
    (handleMessages P w).msgQueue = [] ∧
    (handleMessages P w).handled = w.handled ++ w.msgQueue ∧
    handleMessages P w
      = { handleAll P w.msgQueue w with msgQueue := [], handled := w.handled ++ w.msgQueue } ∧
    ((handleMessage P msg_EmuReset w).emuStatus = emuStatus_Running ∧
     (handleMessage P msg_EmuReset w).emuPauseStack = emuPauseStackRunning ∧
     emuPauseStackRunning = 0) ∧
    ((handleMessages P { w with msgQueue := [msg_EmuRun] }).emuStatus = emuStatus_Running ∧
     (handleMessages P { w with msgQueue := [msg_EmuRun, msg_EmuPause] }).emuStatus
        = emuStatus_Paused ∧
     (handleMessages P { w with msgQueue := [msg_EmuRun, msg_EmuPause, msg_EmuReset] }).emuStatus
        = emuStatus_Running ∧
     (handleMessages P
        { w with msgQueue := [msg_EmuRun, msg_EmuPause, msg_EmuReset] }).emuPauseStack = 0) ∧
    (sendMessage msg_EmuReset (sendMessage msg_EmuPause (sendMessage msg_EmuRun
        { w with msgQueue := [] }))).msgQueue = [msg_EmuRun, msg_EmuPause, msg_EmuReset] := by
  refine ⟨handleMessages_msgQueue P w, ?_, handleMessages_eq P w, ⟨rfl, rfl, rfl⟩,
    ⟨rfl, ?_, rfl, rfl⟩, rfl⟩
  · rw [handleMessages_eq]
  · simp [handleMessages, handleLoop, handleMessage, audioEnable, audioDisable, osdAddMessage,
      emuPauseStackRunning, emuPauseStackPauseThreshold]

/-- C6 (amended): in the frame-execution step of a loop pass a machine frame is executed
(one `RunFrame()` on the machine) iff `emuStatus` is `Running` or `FrameStep` when the
pass begins and the instance has a machine that can run a frame (an NDS, or else a DSi
that is running); otherwise no machine frame is executed.  A `FrameStep` status is
`Paused` once `emuInstance->frameStep()` has run, a `Running` status stays `Running`;
with any other status (`Paused`, `Exit`) the step changes nothing.  A pass without
hotkeys is this step followed by `handleMessages`, and with no message pending the pass
executes as many machine frames as the step. -/
theorem machine_frame_iff_running (P : Platform) (w : Worker) :
    (machineFrames (frameExec P w) = machineFrames w + 1
      ↔ ((w.emuStatus = emuStatus_Running ∨ w.emuStatus = emuStatus_FrameStep) ∧
          w.inst.canRunFrame = true)) ∧
    (¬ ((w.emuStatus = emuStatus_Running ∨ w.emuStatus = emuStatus_FrameStep) ∧
          w.inst.canRunFrame = true) →
      machineFrames (frameExec P w) = machineFrames w) ∧
    ((w.emuStatus = emuStatus_Running ∨ w.emuStatus = emuStatus_FrameStep) →
      (frameExec P w).inst = w.inst.frameStep P) ∧
    (w.emuStatus = emuStatus_FrameStep → (frameExec P w).emuStatus = emuStatus_Paused) ∧
    (w.emuStatus = emuStatus_Running → (frameExec P w).emuStatus = emuStatus_Running) ∧
    ((w.emuStatus = emuStatus_Paused ∨ w.emuStatus = emuStatus_Exit) → frameExec P w = w) ∧
    runPass P noHotkeys w = handleMessages P (frameExec P w) ∧
    (w.msgQueue = [] →
      machineFrames (runPass P noHotkeys w) = machineFrames (frameExec P w)) := by
  have hpass : runPass P noHotkeys w = handleMessages P (frameExec P w) := by
    simp only [runPass, noHotkeys, Bool.false_eq_true, if_false]
  have hinst : (w.emuStatus = emuStatus_Running ∨ w.emuStatus = emuStatus_FrameStep) →
      (frameExec P w).inst = w.inst.frameStep P := by
    intro h
    unfold frameExec
    rw [if_pos h]
    split_ifs <;> rfl
  have hidle : ¬ (w.emuStatus = emuStatus_Running ∨ w.emuStatus = emuStatus_FrameStep) →
      frameExec P w = w := by
    intro h
    unfold frameExec
    rw [if_neg h]
  have hcount : machineFrames (frameExec P w)
      = machineFrames w
        + (if (w.emuStatus = emuStatus_Running ∨ w.emuStatus = emuStatus_FrameStep) ∧
              w.inst.canRunFrame = true then 1 else 0) := by
    by_cases h : w.emuStatus = emuStatus_Running ∨ w.emuStatus = emuStatus_FrameStep
    · rw [machineFrames_after_frameStep P w _ (hinst h)]
      by_cases hc : w.inst.canRunFrame = true
      · rw [if_pos hc, if_pos ⟨h, hc⟩]
      · rw [if_neg hc, if_neg (fun hh => hc hh.2)]
    · rw [hidle h, if_neg (fun hh => h hh.1), Nat.add_zero]
  refine ⟨?_, ?_, hinst, ?_, ?_, ?_, hpass, ?_⟩
  · rw [hcount]
    split_ifs with h
    · exact ⟨fun _ => h, fun _ => rfl⟩
    · exact ⟨fun hh => absurd hh (by omega), fun hh => absurd hh h⟩
  · intro h
    rw [hcount, if_neg h, Nat.add_zero]
  · intro h
    simp [frameExec, h]
  · intro h
    simp [frameExec, h]
  · intro h
    apply hidle
    rcases h with h | h <;> simp [h]
  · intro hq
    rw [hpass, handleMessages_nil P _ (by
      unfold frameExec
      split_ifs <;> exact hq)]

/-- C6, evaluated on the worker that drives a running NDS game: the pass executes the
sixth machine frame and the status stays `Running`. -/
theorem machine_frame_iff_running_witness :
    (Worker.playing.emuStatus = emuStatus_Running ∧ Worker.playing.inst.canRunFrame = true ∧
      Worker.playing.msgQueue = [] ∧ machineFrames Worker.playing = 5) ∧
    machineFrames (frameExec Platform.desktop Worker.playing) = 5 + 1 ∧
    (frameExec Platform.desktop Worker.playing).emuStatus = emuStatus_Running ∧
    machineFrames (runPass Platform.desktop noHotkeys Worker.playing)
      = machineFrames (frameExec Platform.desktop Worker.playing) :=
  ⟨by decide,
   (machine_frame_iff_running Platform.desktop Worker.playing).1.mpr
     ⟨Or.inl (by decide), by decide⟩,
   (machine_frame_iff_running Platform.desktop Worker.playing).2.2.2.2.1 (by decide),
   (machine_frame_iff_running Platform.desktop Worker.playing).2.2.2.2.2.2.2 rfl⟩

/-- C6 as stated fails.  The running worker whose instance has no machine has status
`Running` when the pass begins; the frame-execution step calls `emuInstance->frameStep()`
but no machine frame is executed. -/
theorem running_without_machine_counterexample :
    Worker.started.emuStatus = emuStatus_Running ∧
    (frameExec Platform.offline Worker.started).calls.count InstCall.frameStep = 1 ∧
    machineFrames (frameExec Platform.offline Worker.started)
      = machineFrames Worker.started ∧
    (frameExec Platform.offline Worker.started).inst.emuFrameCount = 0 ∧
    machineFrames (runPass Platform.offline noHotkeys Worker.started)
      = machineFrames Worker.started := by
  decide

end Worker

namespace Instance

theorem runConsoleFrame_flag (P : Platform) (i : Instance) (h : i.emuShouldStop = true) :
    (runConsoleFrame P i).emuShouldStop = true := by
  unfold runConsoleFrame
  split
  · simp [h]
  · split_ifs <;> simp [h]
  · exact h

theorem audioDisable_idem (i : Instance) : audioDisable (audioDisable i) = audioDisable i := by
  unfold audioDisable micClose
  split_ifs <;> simp_all

theorem audioDisable_fields (i : Instance) :
    (audioDisable i).running = i.running ∧ (audioDisable i).paused = i.paused ∧
    (audioDisable i).emuShouldStop = i.emuShouldStop ∧ (audioDisable i).nds = i.nds ∧
    (audioDisable i).dsi = i.dsi := by
  unfold audioDisable micClose
  split_ifs <;> simp

theorem stop_running (i : Instance) :
    (stop i).running = false ∧ (stop i).paused = false := by
  unfold stop
  exact ⟨(audioDisable_fields _).1, (audioDisable_fields _).2.1⟩

theorem audioDisable_stop (i : Instance) : audioDisable (stop i) = stop i := by
  unfold stop
  exact audioDisable_idem _

end Instance

namespace Worker

/-- C7 (amended): if the should-stop flag is set when a loop pass (no hotkeys, empty
queue) begins and the status is `Running` or `FrameStep`, the pass polls the flag in
`emuInstance->frameStep()`, runs the instance's `stop()` (instance no longer running,
left as an external `EmuStop` message would leave it) and clears the flag; this leaves
`emuActive` as it was and `emuStatus` as the frame step leaves it (`Running` stays
`Running`).  With status `Paused` or `Exit` the pass changes nothing: the flag is not
polled and stays set. -/
theorem should_stop_polled_in_frame (P : Platform) (w : Worker)
    (hflag : w.inst.emuShouldStop = true) (hq : w.msgQueue = []) :
    ((w.emuStatus = emuStatus_Running ∨ w.emuStatus = emuStatus_FrameStep) →
      (runPass P noHotkeys w).inst
        = { (w.inst.runConsoleFrame P).stop with emuShouldStop := false } ∧
      (runPass P noHotkeys w).inst
        = { (handleMessage P (msg_EmuStop true)
              { w with inst := w.inst.runConsoleFrame P }).inst with emuShouldStop := false } ∧
      (runPass P noHotkeys w).inst.emuShouldStop = false ∧
      (runPass P noHotkeys w).inst.running = false ∧
      (runPass P noHotkeys w).emuActive = w.emuActive ∧
      (runPass P noHotkeys w).emuStatus
        = (if w.emuStatus = emuStatus_FrameStep then emuStatus_Paused else emuStatus_Running)) ∧
    ((w.emuStatus = emuStatus_Paused ∨ w.emuStatus = emuStatus_Exit) →
      runPass P noHotkeys w = w ∧ (runPass P noHotkeys w).inst.emuShouldStop = true) := by
  have hpass : runPass P noHotkeys w = frameExec P w := by
    simp only [runPass, noHotkeys, Bool.false_eq_true, if_false]
    apply handleMessages_nil
    unfold frameExec
    split_ifs <;> exact hq
  have hfs : w.inst.frameStep P = { (w.inst.runConsoleFrame P).stop with emuShouldStop := false } := by
    unfold Instance.frameStep
    simp [Instance.runConsoleFrame_flag P w.inst hflag]
  constructor
  · intro h
    have hinst : (frameExec P w).inst = w.inst.frameStep P := by
      unfold frameExec
      rw [if_pos h]
      split_ifs <;> rfl
    rw [hpass]
    refine ⟨by rw [hinst, hfs], ?_, by rw [hinst, hfs], ?_, ?_, ?_⟩
    · rw [hinst, hfs]
      simp [handleMessage, audioDisable, Instance.audioDisable_stop]
    · rw [hinst, hfs]
      exact (Instance.stop_running _).1
    · unfold frameExec
      rw [if_pos h]
      split_ifs <;> rfl
    · unfold frameExec
      rw [if_pos h]
      rcases h with h | h <;> simp [h]
  · intro h
    have hw : frameExec P w = w := by
      unfold frameExec
      rw [if_neg]
      rcases h with h | h <;> simp [h]
    rw [hpass, hw]
    exact ⟨rfl, hflag⟩

/-- C7, evaluated on a worker that is running a game when the flag is raised. -/
theorem should_stop_polled_in_frame_witness :
    ({ Worker.playing with
        inst := { Instance.playing with emuShouldStop := true } }.inst.emuShouldStop = true) ∧
    (runPass Platform.desktop noHotkeys
      { Worker.playing with
        inst := { Instance.playing with emuShouldStop := true } }).inst.running = false :=
  ⟨rfl,
   ((should_stop_polled_in_frame Platform.desktop
      { Worker.playing with inst := { Instance.playing with emuShouldStop := true } }
      rfl rfl).1 (by decide)).2.2.2.1⟩

/-- C7 as stated fails.  A running worker whose flag is set is still `Running` and
active after the pass (the flag is cleared and the instance stopped, but no stop
command reaches the worker state); a paused worker whose flag is set does not poll the
flag in the pass: it is still set afterwards. -/
theorem should_stop_counterexample :
    ((runPass Platform.desktop noHotkeys
        { Worker.playing with
          inst := { Instance.playing with emuShouldStop := true } }).emuStatus
        = emuStatus_Running ∧
     (runPass Platform.desktop noHotkeys
        { Worker.playing with
          inst := { Instance.playing with emuShouldStop := true } }).emuActive = true ∧
     (handleMessage Platform.desktop (msg_EmuStop false)
        { Worker.playing with
          inst := { Instance.playing with emuShouldStop := true } }).emuStatus
        = emuStatus_Paused ∧
     (handleMessage Platform.desktop (msg_EmuStop false)
        { Worker.playing with
          inst := { Instance.playing with emuShouldStop := true } }).emuActive = false) ∧
    ({ Worker.constructed with
        inst := { Instance.constructed with emuShouldStop := true } }.emuStatus
        = emuStatus_Paused ∧
     (runPass Platform.desktop noHotkeys
        { Worker.constructed with
          inst := { Instance.constructed with emuShouldStop := true } }).inst.emuShouldStop
        = true) := by
  decide

end Worker

namespace Instance

/-! ## Boot commands -/

theorem loadROM_ok_or_same (P : Platform) (filepath : List String) (reset : Bool)
    (i : Instance) :
    (loadROM P filepath reset i).2.1 = true ∨ (loadROM P filepath reset i).1 = i := by
  unfold loadROM
  split
  · exact Or.inr rfl
  split
  · exact Or.inr rfl
  dsimp only
  split_ifs
  all_goals first
    | exact Or.inr rfl
    | exact Or.inl rfl
    | skip
  all_goals
    repeat' split
  all_goals first
    | exact Or.inr rfl
    | exact Or.inl rfl

theorem bootFirmware_ok_or_cleared (P : Platform) (i : Instance) :
    (bootFirmware P i).2.1 = true ∨
    ((bootFirmware P i).1.nds = i.nds.map Console.EjectCart ∧
     ((bootFirmware P i).2.2 ≠ some "Failed to load DSi firmware." →
        (bootFirmware P i).1.dsi = i.dsi.map Console.EjectCart) ∧
     (bootFirmware P i).1.consoleType = P.cfgConsoleType ∧
     (bootFirmware P i).1.cartInserted = false ∧
     (bootFirmware P i).1.gbaCartInserted = false ∧
     (bootFirmware P i).1.gbaCartType = -1 ∧
     (bootFirmware P i).1.baseGBAROMDir = "" ∧
     (bootFirmware P i).1.baseGBAROMName = "" ∧
     (bootFirmware P i).1.baseGBAAssetName = "" ∧
     (bootFirmware P i).1.running = i.running ∧
     (bootFirmware P i).1.paused = i.paused ∧
     (bootFirmware P i).1.backupState = i.backupState ∧
     (bootFirmware P i).1.savestateLoaded = i.savestateLoaded ∧
     (bootFirmware P i).1.audioDevicePaused = i.audioDevicePaused) := by
  unfold bootFirmware
  dsimp only
  split_ifs
  all_goals first
    | exact Or.inl rfl
    | exact Or.inr ⟨rfl, fun _ => rfl, rfl, rfl, rfl, rfl, rfl, rfl, rfl, rfl, rfl, rfl, rfl, rfl⟩
    | skip
  all_goals
    repeat' split
  all_goals first
    | exact Or.inl rfl
    | exact Or.inr ⟨rfl, fun _ => rfl, rfl, rfl, rfl, rfl, rfl, rfl, rfl, rfl, rfl, rfl, rfl, rfl⟩
    | exact Or.inr ⟨rfl, fun h => absurd rfl h, rfl, rfl, rfl, rfl, rfl, rfl, rfl, rfl, rfl, rfl,
        rfl, rfl⟩

end Instance

namespace Worker

/-- C8 (amended): when a `BootROM` command fails (`loadROM` returns false) the result
code is 0, the machine is not started and the whole instance is as before.  When a
`BootFirmware` command fails the result code is 0 and the machine is not started, but
`bootFirmware` has already ejected the carts and reset the cart state: the `nds`
object is the previous one with its cart ejected, the inserted-cart flags are false,
the GBA cart type is -1 and the GBA names are empty; the `dsi` object is the previous
one with its cart ejected whenever the reported error is not the late
"Failed to load DSi firmware." one. -/
theorem failed_boot_effects (P : Platform) (w : Worker) (filename : List String) :
    ((w.inst.loadROM P filename true).2.1 = false →
      (handleMessage P (msg_BootROM filename) w).msgResult = 0 ∧
      (handleMessage P (msg_BootROM filename) w).calls
        = w.calls ++ [InstCall.loadROM filename true] ∧
      (handleMessage P (msg_BootROM filename) w).inst = w.inst) ∧
    ((w.inst.bootFirmware P).2.1 = false →
      (handleMessage P msg_BootFirmware w).msgResult = 0 ∧
      (handleMessage P msg_BootFirmware w).calls = w.calls ++ [InstCall.bootFirmware] ∧
      (handleMessage P msg_BootFirmware w).inst.running = w.inst.running ∧
      (handleMessage P msg_BootFirmware w).inst.nds = w.inst.nds.map Console.EjectCart ∧
      ((w.inst.bootFirmware P).2.2 ≠ some "Failed to load DSi firmware." →
        (handleMessage P msg_BootFirmware w).inst.dsi = w.inst.dsi.map Console.EjectCart) ∧
      (handleMessage P msg_BootFirmware w).inst.cartInserted = false ∧
      (handleMessage P msg_BootFirmware w).inst.gbaCartInserted = false ∧
      (handleMessage P msg_BootFirmware w).inst.gbaCartType = -1 ∧
      (handleMessage P msg_BootFirmware w).inst.baseGBAROMDir = "" ∧
      (handleMessage P msg_BootFirmware w).inst.baseGBAROMName = "" ∧
      (handleMessage P msg_BootFirmware w).inst.baseGBAAssetName = "") := by
  constructor
  · intro h
    have hsame : (w.inst.loadROM P filename true).1 = w.inst := by
      rcases Instance.loadROM_ok_or_same P filename true w.inst with h1 | h1
      · rw [h] at h1; exact absurd h1 (by decide)
      · exact h1
    simp only [handleMessage, setError, h, hsame]
    exact ⟨rfl, rfl, rfl⟩
  · intro h
    rcases Instance.bootFirmware_ok_or_cleared P w.inst with h1 | h1
    · rw [h] at h1; exact absurd h1 (by decide)
    · obtain ⟨hn, hd, _, hc, hg, ht, hdir, hname, hasset, hr, _⟩ := h1
      simp only [handleMessage, setError, h]
      exact ⟨rfl, rfl, hr, hn, hd, hc, hg, ht, hdir, hname, hasset⟩

/-- C8, evaluated: on a platform where the ROM file and the BIOS images are missing,
the failed `BootROM` leaves the playing instance unchanged and the failed
`BootFirmware` leaves it with result code 0 and cleared cart flags. -/
theorem failed_boot_effects_witness :
    ((Worker.playing.inst.loadROM Platform.offline ["missing"] true).2.1 = false ∧
     (Worker.playing.inst.bootFirmware Platform.offline).2.1 = false) ∧
    (handleMessage Platform.offline (msg_BootROM ["missing"]) Worker.playing).inst
      = Worker.playing.inst ∧
    (handleMessage Platform.offline msg_BootFirmware Worker.playing).msgResult = 0 :=
  ⟨by decide,
   ((failed_boot_effects Platform.offline Worker.playing ["missing"]).1 (by decide)).2.2,
   ((failed_boot_effects Platform.offline Worker.playing ["missing"]).2 (by decide)).1⟩

/-- C8 as stated fails for `BootFirmware`: with a game running and the DS BIOS images
missing, the boot fails with result code 0, yet afterwards the console has lost its
cart and the inserted-cart flags, the GBA cart type and the GBA names are reset. -/
theorem failed_boot_counterexample :
    (handleMessage Platform.offline msg_BootFirmware Worker.playing).msgResult = 0 ∧
    (handleMessage Platform.offline msg_BootFirmware Worker.playing).msgError
      = "Failed to load DS ARM9 BIOS." ∧
    (Worker.playing.inst.cartInserted = true ∧
     (handleMessage Platform.offline msg_BootFirmware Worker.playing).inst.cartInserted = false) ∧
    (Worker.playing.inst.gbaCartInserted = true ∧
     (handleMessage Platform.offline msg_BootFirmware Worker.playing).inst.gbaCartInserted
        = false) ∧
    (Worker.playing.inst.gbaCartType = 0 ∧
     (handleMessage Platform.offline msg_BootFirmware Worker.playing).inst.gbaCartType = -1) ∧
    (Worker.playing.inst.baseGBAROMName = "pak.gba" ∧
     (handleMessage Platform.offline msg_BootFirmware Worker.playing).inst.baseGBAROMName = "") ∧
    (handleMessage Platform.offline msg_BootFirmware Worker.playing).inst.nds
      ≠ Worker.playing.inst.nds := by
  decide

end Worker

namespace Instance

/-! ## Savestates -/

theorem setConsole_console (i : Instance) (c' : Console) :
    (i.setConsole c').console = some c' := by
  unfold setConsole console
  cases hn : i.nds with
  | some n => simp
  | none => simp

theorem setConsole_fields (i : Instance) (c : Console) :
    (i.setConsole c).backupState = i.backupState ∧
    (i.setConsole c).savestateLoaded = i.savestateLoaded ∧
    (i.setConsole c).running = i.running ∧
    (i.setConsole c).previousSaveFile = i.previousSaveFile := by
  unfold setConsole
  cases i.nds <;> simp

theorem console_isSome (i : Instance) (c : Console) (h : i.console = some c) :
    (i.nds.isSome || i.dsi.isSome) = true := by
  unfold console at h
  cases hn : i.nds with
  | some n => simp
  | none => rw [hn] at h; simp at h; simp [h]

/-- The backup step of `loadState` when a backup can be taken. -/
theorem loadStateBackup_taken (P : Platform) (i : Instance) (c : Console)
    (hc : i.console = some c) (hrun : i.running = true)
    (halloc : P.newSavestateError = false)
    (hok : (P.DoSavestate c { buffer := [], Error := false, saving := true }).2.2 = true)
    (herr : (P.DoSavestate c { buffer := [], Error := false, saving := true }).2.1.Error = false) :
    loadStateBackup P i
      = { i.setConsole (P.DoSavestate c { buffer := [], Error := false, saving := true }).1 with
          backupState := some (P.DoSavestate c { buffer := [], Error := false, saving := true }).2.1 } := by
  unfold loadStateBackup
  simp [console_isSome i c hc, hrun, halloc, hc, hok, herr]

theorem loadState_ok_or_shape (P : Platform) (filename : String) (i : Instance) :
    (i.loadState P filename).2 = true ∨
    (i.loadState P filename).1 = loadStateBackup P i ∨
    ∃ c', (i.loadState P filename).1 = (loadStateBackup P i).setConsole c' := by
  unfold loadState
  dsimp only
  repeat' split
  all_goals first
    | exact Or.inl rfl
    | exact Or.inr (Or.inl rfl)
    | exact Or.inr (Or.inr ⟨_, rfl⟩)

theorem loadState_fail_shape (P : Platform) (filename : String) (i : Instance)
    (hfail : (i.loadState P filename).2 = false) :
    (i.loadState P filename).1 = loadStateBackup P i ∨
    ∃ c', (i.loadState P filename).1 = (loadStateBackup P i).setConsole c' := by
  rcases loadState_ok_or_shape P filename i with h | h
  · rw [hfail] at h; exact absurd h (by decide)
  · exact h

theorem undoStateLoad_not_loaded (P : Platform) (i : Instance)
    (h : i.savestateLoaded = false) : undoStateLoad P i = i := by
  unfold undoStateLoad
  split
  · rfl
  · simp [h]

theorem undoStateLoad_loaded (P : Platform) (i : Instance) (b : Savestate) (c : Console)
    (hb : i.backupState = some b) (h : i.savestateLoaded = true) (hc : i.console = some c) :
    (undoStateLoad P i).console = some (P.DoSavestate c (b.Rewind false)).1 ∧
    (undoStateLoad P i).savestateLoaded = false := by
  unfold undoStateLoad
  rw [hb]
  simp only [h, Bool.not_true, Bool.false_eq_true, if_false, hc]
  refine ⟨?_, trivial⟩
  split_ifs <;> exact setConsole_console _ _

/-- C9 (amended): for a running machine, when `loadState` fails after the pre-load
backup was taken, the backup snapshot is still held in `backupState` and
`savestateLoaded` is as before the call; a following `undoStateLoad` restores the
machine from that snapshot when `savestateLoaded` is set (an earlier load succeeded and
was not undone), and changes nothing when it is not set. -/
theorem failed_loadState_keeps_backup (P : Platform) (filename : String) (i : Instance)
    (c : Console)
    (hc : i.console = some c) (hrun : i.running = true)
    (halloc : P.newSavestateError = false)
    (hok : (P.DoSavestate c { buffer := [], Error := false, saving := true }).2.2 = true)
    (herr : (P.DoSavestate c { buffer := [], Error := false, saving := true }).2.1.Error = false)
    (hfail : (i.loadState P filename).2 = false) :
    (i.loadState P filename).1.backupState
      = some (P.DoSavestate c { buffer := [], Error := false, saving := true }).2.1 ∧
    (i.loadState P filename).1.savestateLoaded = i.savestateLoaded ∧
    (i.savestateLoaded = false →
      undoStateLoad P (i.loadState P filename).1 = (i.loadState P filename).1) ∧
    (i.savestateLoaded = true →
      ∃ c', (i.loadState P filename).1.console = some c' ∧
        (undoStateLoad P (i.loadState P filename).1).console
          = some (P.DoSavestate c'
              ((P.DoSavestate c { buffer := [], Error := false, saving := true }).2.1.Rewind
                false)).1 ∧
        (undoStateLoad P (i.loadState P filename).1).savestateLoaded = false) := by
  have hbk := loadStateBackup_taken P i c hc hrun halloc hok herr
  have hb1 : (loadStateBackup P i).backupState
      = some (P.DoSavestate c { buffer := [], Error := false, saving := true }).2.1 := by
    rw [hbk]
  have hs1 : (loadStateBackup P i).savestateLoaded = i.savestateLoaded := by
    rw [hbk]; exact (setConsole_fields i _).2.1
  have hc1 : ∃ c1, (loadStateBackup P i).console = some c1 := by
    rw [hbk]
    exact ⟨(P.DoSavestate c { buffer := [], Error := false, saving := true }).1,
      setConsole_console i _⟩
  have hB : (i.loadState P filename).1.backupState
      = some (P.DoSavestate c { buffer := [], Error := false, saving := true }).2.1 := by
    rcases loadState_fail_shape P filename i hfail with h | ⟨c', h⟩
    · rw [h]; exact hb1
    · rw [h, (setConsole_fields _ _).1]; exact hb1
  have hS : (i.loadState P filename).1.savestateLoaded = i.savestateLoaded := by
    rcases loadState_fail_shape P filename i hfail with h | ⟨c', h⟩
    · rw [h]; exact hs1
    · rw [h, (setConsole_fields _ _).2.1]; exact hs1
  have hC : ∃ c', (i.loadState P filename).1.console = some c' := by
    rcases loadState_fail_shape P filename i hfail with h | ⟨c', h⟩
    · rw [h]; exact hc1
    · rw [h]; exact ⟨c', setConsole_console _ _⟩
  refine ⟨hB, hS, fun h => undoStateLoad_not_loaded P _ (by rw [hS]; exact h), fun h => ?_⟩
  obtain ⟨c', hc'⟩ := hC
  exact ⟨c', hc', undoStateLoad_loaded P _ _ c' hB (by rw [hS]; exact h) hc'⟩

end Instance

namespace Instance

/-- C9, evaluated: a game is running, the savestate file is missing; the failed
`loadState` leaves the backup written from the running console in `backupState`. -/
theorem failed_loadState_keeps_backup_witness :
    (Instance.playing.console = some Console.playing ∧ Instance.playing.running = true ∧
     (Instance.playing.loadState Platform.desktop "missing").2 = false) ∧
    (Instance.playing.loadState Platform.desktop "missing").1.backupState
      = some { buffer := [5], Error := false, saving := true } :=
  ⟨by decide,
   (failed_loadState_keeps_backup Platform.desktop "missing" Instance.playing Console.playing
      (by decide) (by decide) (by decide) (by decide) (by decide) (by decide)).1⟩

/-- C9 as stated fails: a game is running (machine state 5, no earlier state load) and
the savestate file is corrupt, so that the load fails after the machine state has been
overwritten (99).  The backup of state 5 is held, but the following `undoStateLoad`
returns at its guard `!savestateLoaded` and leaves the machine at 99, where restoring
from the backup would give 5. -/
theorem failed_loadState_undo_counterexample :
    (Instance.playing.console.map Console.core = some 5 ∧
     Instance.playing.running = true ∧ Instance.playing.savestateLoaded = false) ∧
    (Instance.playing.loadState Platform.desktop "corrupt.mln").2 = false ∧
    (Instance.playing.loadState Platform.desktop "corrupt.mln").1.backupState
      = some { buffer := [5], Error := false, saving := true } ∧
    (Instance.playing.loadState Platform.desktop "corrupt.mln").1.console.map Console.core
      = some 99 ∧
    undoStateLoad Platform.desktop (Instance.playing.loadState Platform.desktop "corrupt.mln").1
      = (Instance.playing.loadState Platform.desktop "corrupt.mln").1 ∧
    (undoStateLoad Platform.desktop
        (Instance.playing.loadState Platform.desktop "corrupt.mln").1).console.map Console.core
      = some 99 ∧
    (Platform.desktop.DoSavestate { Console.playing with core := 99 }
        (Savestate.Rewind { buffer := [5], Error := false, saving := true } false)).1.core = 5 := by
  decide

end Instance

namespace SaveManager

/-! ## The save-flush manager -/

theorem memcpy_length (dst src : List Nat) (off n : Nat)
    (hsrc : n ≤ src.length) (hdst : off + n ≤ dst.length) :
    (memcpy dst off src n).length = dst.length := by
  unfold memcpy
  simp only [List.length_append, List.length_take, List.length_drop]
  omega

theorem memcpy_zero_take (dst src : List Nat) (n : Nat) (hsrc : n ≤ src.length) :
    (memcpy dst 0 src n).take n = src.take n := by
  unfold memcpy
  have hlen : (src.take n).length = n := by
    rw [List.length_take]; omega
  simp only [List.take_zero, List.nil_append]
  rw [List.take_append_of_le_length (by omega)]
  rw [List.take_of_length_le (by omega)]

theorem RequestFlush_Buffer (savedata : List Nat) (savelen writeoffset writelen : Nat)
    (now : Int) (s : SaveManager) :
    (RequestFlush savedata savelen writeoffset writelen now s).Buffer
      = memcpy (if savelen > s.Length then List.replicate savelen 0 else s.Buffer) 0
          savedata savelen ∧
    (RequestFlush savedata savelen writeoffset writelen now s).Length
      = (if savelen > s.Length then savelen else s.Length) ∧
    (RequestFlush savedata savelen writeoffset writelen now s).SecondaryBuffer
      = memcpy (if savelen > s.SecondaryBufferLength then List.replicate savelen 0
                else s.SecondaryBuffer) writeoffset (savedata.drop writeoffset) writelen ∧
    (RequestFlush savedata savelen writeoffset writelen now s).SecondaryBufferLength
      = (if savelen > s.SecondaryBufferLength then savelen else s.SecondaryBufferLength) := by
  unfold RequestFlush
  dsimp only
  split_ifs <;> exact ⟨rfl, rfl, rfl, rfl⟩

/-- C10 (amended): for every manager state and every request with
`writeoffset + writelen <= savelen` (and `savelen` bytes of save data), `RequestFlush`
leaves the first `savelen` bytes of the primary buffer equal to `savedata`, sets the
buffer length to the maximum of the old length and `savelen`, sets the pending flag,
stamps the request time, increments `FlushVersion` by 1 modulo `2^32` (by exactly 1
unless it was `2^32 - 1`), leaves `PreviousFlushVersion` unchanged and performs no file
write; the two allocations keep the sizes their length fields record. -/
theorem requestFlush_effects (savedata : List Nat) (savelen writeoffset writelen : Nat)
    (now : Int) (s : SaveManager)
    (hdata : savelen ≤ savedata.length) (hw : writeoffset + writelen ≤ savelen) :
    (RequestFlush savedata savelen writeoffset writelen now s).Buffer.take savelen
      = savedata.take savelen ∧
    (RequestFlush savedata savelen writeoffset writelen now s).Length = max s.Length savelen ∧
    (RequestFlush savedata savelen writeoffset writelen now s).FlushRequested = true ∧
    (RequestFlush savedata savelen writeoffset writelen now s).TimeAtLastFlushRequest = now ∧
    (RequestFlush savedata savelen writeoffset writelen now s).FlushVersion
      = (s.FlushVersion + 1) % 2 ^ 32 ∧
    (s.FlushVersion < 2 ^ 32 - 1 →
      (RequestFlush savedata savelen writeoffset writelen now s).FlushVersion
        = s.FlushVersion + 1) ∧
    (RequestFlush savedata savelen writeoffset writelen now s).PreviousFlushVersion
      = s.PreviousFlushVersion ∧
    (RequestFlush savedata savelen writeoffset writelen now s).writes = s.writes ∧
    (s.Buffer.length = s.Length →
      (RequestFlush savedata savelen writeoffset writelen now s).Buffer.length
        = (RequestFlush savedata savelen writeoffset writelen now s).Length) ∧
    (s.SecondaryBuffer.length = s.SecondaryBufferLength →
      (RequestFlush savedata savelen writeoffset writelen now s).SecondaryBuffer.length
        = (RequestFlush savedata savelen writeoffset writelen now s).SecondaryBufferLength) := by
  have hdrop : writelen ≤ (savedata.drop writeoffset).length := by
    rw [List.length_drop]; omega
  refine ⟨?_, ?_, ?_, ?_, ?_, ?_, ?_, ?_, ?_, ?_⟩
  · unfold RequestFlush
    dsimp only
    exact memcpy_zero_take _ _ _ hdata
  · unfold RequestFlush
    dsimp only
    split_ifs <;> simp <;> omega
  · rfl
  · rfl
  · unfold RequestFlush
    dsimp only
    split_ifs <;> rfl
  · intro h
    unfold RequestFlush
    dsimp only
    have : (s.FlushVersion + 1) % 2 ^ 32 = s.FlushVersion + 1 := Nat.mod_eq_of_lt (by omega)
    split_ifs <;> exact this
  · unfold RequestFlush
    dsimp only
    split_ifs <;> rfl
  · unfold RequestFlush
    dsimp only
    split_ifs <;> rfl
  · intro hwf
    obtain ⟨hB, hL, _, _⟩ := RequestFlush_Buffer savedata savelen writeoffset writelen now s
    rw [hB, hL]
    split_ifs with h1
    · rw [memcpy_length _ _ _ _ hdata (by simp)]
      simp
    · rw [memcpy_length _ _ _ _ hdata (by omega)]
      exact hwf
  · intro hwf
    obtain ⟨_, _, hB, hL⟩ := RequestFlush_Buffer savedata savelen writeoffset writelen now s
    rw [hB, hL]
    split_ifs with h1
    · rw [memcpy_length _ _ _ _ hdrop (by simp; omega)]
      simp
    · rw [memcpy_length _ _ _ _ hdrop (by omega)]
      exact hwf

end SaveManager

namespace SaveManager

/-- C10, evaluated on a fresh manager and a four-byte image of which bytes 1..2 were
written. -/
theorem requestFlush_effects_witness :
    (4 ≤ [1, 2, 3, 4].length ∧ 1 + 2 ≤ 4) ∧
    (RequestFlush [1, 2, 3, 4] 4 1 2 100 (SaveManager.new "game.sav")).Buffer.take 4
      = [1, 2, 3, 4] ∧
    (RequestFlush [1, 2, 3, 4] 4 1 2 100 (SaveManager.new "game.sav")).FlushVersion = 0 + 1 :=
  ⟨by decide,
   (requestFlush_effects [1, 2, 3, 4] 4 1 2 100 (SaveManager.new "game.sav")
      (by decide) (by decide)).1,
   (requestFlush_effects [1, 2, 3, 4] 4 1 2 100 (SaveManager.new "game.sav")
      (by decide) (by decide)).2.2.2.2.2.1 (by decide)⟩

/-- C10 as stated fails at the top of the `u32` range: with `FlushVersion = 2^32 - 1`
the increment wraps to 0 instead of increasing the counter by 1. -/
theorem requestFlush_version_counterexample :
    (1 + 2 ≤ 4) ∧
    (RequestFlush [1, 2, 3, 4] 4 1 2 100
        { SaveManager.new "game.sav" with FlushVersion := 4294967295 }).FlushVersion = 0 ∧
    (RequestFlush [1, 2, 3, 4] 4 1 2 100
        { SaveManager.new "game.sav" with FlushVersion := 4294967295 }).FlushVersion
      ≠ 4294967295 + 1 := by
  decide

end SaveManager

namespace SaveManager

/-! ## The background loop of the save-flush manager -/

theorem flush_fail (P : Platform) (s : SaveManager)
    (h : s.Path = "" ∨ P.canOpenWrite s.Path = false) : flush P s = s := by
  unfold flush
  rcases h with h | h
  · rw [if_pos h]
  · split_ifs with h1 h2
    · rfl
    · rfl
    · simp [h] at h2

theorem flush_ok (P : Platform) (s : SaveManager)
    (hp : s.Path ≠ "") (ho : P.canOpenWrite s.Path = true) :
    flush P s = { s with writes := (s.Path, s.Buffer.take s.Length) :: s.writes,
                         FlushRequested := false, PreviousFlushVersion := s.FlushVersion } := by
  unfold flush
  rw [if_neg hp]
  simp [ho]

theorem wake_not_pending (P : Platform) (t : Nat) (s : SaveManager)
    (h : s.FlushRequested = false) : wake P t s = s := by
  unfold wake
  split_ifs <;> simp_all

theorem wake_early (P : Platform) (t : Nat) (s : SaveManager)
    (h : clock t - s.TimeAtLastFlushRequest < 2) : wake P t s = s := by
  unfold wake
  dsimp only
  split_ifs with h1 h2 h3
  · rfl
  · rfl
  · simp [h] at h3
  · rfl

theorem wake_late (P : Platform) (t : Nat) (s : SaveManager)
    (hr : s.Running = true) (hp : s.FlushRequested = true)
    (h0 : s.TimeAtLastFlushRequest ≠ 0) (h : 2 ≤ clock t - s.TimeAtLastFlushRequest) :
    wake P t s = flush P s := by
  unfold wake
  have h2 : ¬ (clock t - s.TimeAtLastFlushRequest < 2) := by omega
  simp [hr, hp, h0, h2]

/-- C11, evaluated at the failing input: a `RequestFlush` at 1999 ms is stamped with
clock second 1; the wake at 3000 ms reads clock second 3, finds a difference of 2 and
writes, 1001 ms after the request.  Likewise two requests 500 ms apart, at 1499 ms and
1999 ms, are followed by a write at 3000 ms, 1001 ms after the second one. -/
theorem debounce_counts_whole_seconds :
    ((wake Platform.desktop 3000
        (RequestFlush [1, 2, 3, 4] 4 1 2 (clock 1999) (SaveManager.new "game.sav"))).writes
      = [("game.sav", [1, 2, 3, 4])] ∧
     3000 - 1999 < 2000) ∧
    ((runEvents Platform.desktop
        [Event.request [1, 2, 3, 4] 4 1 2 1499, Event.request [1, 2, 3, 4] 4 1 2 1999,
         Event.wake 3000] (SaveManager.new "game.sav")).writes
      = [("game.sav", [1, 2, 3, 4])] ∧
     1999 - 1499 = 500 ∧ 3000 - 1999 < 2000) := by
  decide

/-- C13: when the destination path is empty or cannot be opened, `flush` performs no
write and leaves the manager state as it was (pending flag, both versions, both
buffers), so that a later eligible wake calls `flush` on the same state again; when the
open succeeds, `flush` writes the first `Length` bytes of the primary buffer once,
clears the pending flag and sets `PreviousFlushVersion` to `FlushVersion`. -/
theorem flush_failure_keeps_state (P P' : Platform) (t' : Nat) (s : SaveManager) :
    ((s.Path = "" ∨ P.canOpenWrite s.Path = false) →
      flush P s = s ∧
      (s.Running = true → s.FlushRequested = true → s.TimeAtLastFlushRequest ≠ 0 →
        2 ≤ clock t' - s.TimeAtLastFlushRequest →
        wake P' t' (flush P s) = flush P' s)) ∧
    ((s.Path ≠ "" ∧ P.canOpenWrite s.Path = true) →
      flush P s = { s with writes := (s.Path, s.Buffer.take s.Length) :: s.writes,
                           FlushRequested := false,
                           PreviousFlushVersion := s.FlushVersion }) := by
  refine ⟨fun h => ⟨flush_fail P s h, fun hr hp h0 ht => ?_⟩, fun h => flush_ok P s h.1 h.2⟩
  rw [flush_fail P s h]
  exact wake_late P' t' s hr hp h0 ht

/-- C13, evaluated: a pending manager whose file cannot be opened is left unchanged by
`flush`; once the file can be opened, the next wake writes the image. -/
theorem flush_failure_keeps_state_witness :
    (Platform.offline.canOpenWrite "game.sav" = false) ∧
    flush Platform.offline
        (RequestFlush [1, 2, 3, 4] 4 1 2 (clock 5000) (SaveManager.new "game.sav"))
      = RequestFlush [1, 2, 3, 4] 4 1 2 (clock 5000) (SaveManager.new "game.sav") ∧
    wake Platform.desktop 7000 (flush Platform.offline
        (RequestFlush [1, 2, 3, 4] 4 1 2 (clock 5000) (SaveManager.new "game.sav")))
      = flush Platform.desktop
          (RequestFlush [1, 2, 3, 4] 4 1 2 (clock 5000) (SaveManager.new "game.sav")) :=
  ⟨rfl,
   ((flush_failure_keeps_state Platform.offline Platform.desktop 7000
      (RequestFlush [1, 2, 3, 4] 4 1 2 (clock 5000) (SaveManager.new "game.sav"))).1
      (Or.inr rfl)).1,
   ((flush_failure_keeps_state Platform.offline Platform.desktop 7000
      (RequestFlush [1, 2, 3, 4] 4 1 2 (clock 5000) (SaveManager.new "game.sav"))).1
      (Or.inr rfl)).2 (by decide) (by decide) (by decide) (by decide)⟩

end SaveManager

namespace SaveManager

/-! ## The secondary buffer -/

theorem memcpy_getD (dst src : List Nat) (off n j : Nat)
    (hsrc : n ≤ src.length) (hdst : off + n ≤ dst.length) :
    (memcpy dst off src n).getD j 0
      = if j < off then dst.getD j 0
        else if j < off + n then src.getD (j - off) 0
        else dst.getD j 0 := by
  unfold memcpy
  simp only [List.getD_eq_getElem?_getD]
  have h1 : (dst.take off).length = off := by rw [List.length_take]; omega
  have h2 : (src.take n).length = n := by rw [List.length_take]; omega
  split_ifs with ha hb
  · rw [List.append_assoc, List.getElem?_append_left (by omega), List.getElem?_take_of_lt ha]
  · rw [List.append_assoc, List.getElem?_append_right (by omega), h1,
      List.getElem?_append_left (by omega), List.getElem?_take_of_lt (by omega)]
  · rw [List.getElem?_append_right (by simp only [List.length_append]; omega)]
    simp only [List.length_append, h1, h2, List.getElem?_drop]
    congr 2
    omega

end SaveManager

namespace SaveManager

/-- C14 (amended): after `RequestFlush(savedata, savelen, writeoffset, writelen)` with
`writeoffset + writelen <= savelen`, the bytes of the secondary buffer in
`[writeoffset, writeoffset + writelen)` equal the corresponding bytes of `savedata`;
outside that range the buffer holds what it held before the request (bytes recorded by
earlier requests stay), or zeros when the request enlarged the buffer. -/
theorem secondary_buffer_after_request (savedata : List Nat)
    (savelen writeoffset writelen : Nat) (now : Int) (s : SaveManager) (j : Nat)
    (hdata : savelen ≤ savedata.length) (hw : writeoffset + writelen ≤ savelen)
    (hwf : s.SecondaryBuffer.length = s.SecondaryBufferLength) :
    (writeoffset ≤ j → j < writeoffset + writelen →
      (RequestFlush savedata savelen writeoffset writelen now s).SecondaryBuffer.getD j 0
        = savedata.getD j 0) ∧
    ((j < writeoffset ∨ writeoffset + writelen ≤ j) →
      (RequestFlush savedata savelen writeoffset writelen now s).SecondaryBuffer.getD j 0
        = if savelen > s.SecondaryBufferLength then 0 else s.SecondaryBuffer.getD j 0) := by
  obtain ⟨_, _, hB, _⟩ := RequestFlush_Buffer savedata savelen writeoffset writelen now s
  have hdrop : writelen ≤ (savedata.drop writeoffset).length := by
    rw [List.length_drop]; omega
  have hdst : writeoffset + writelen
      ≤ (if savelen > s.SecondaryBufferLength then List.replicate savelen 0
         else s.SecondaryBuffer).length := by
    split_ifs with h
    · simp; omega
    · omega
  rw [hB, memcpy_getD _ _ _ _ _ hdrop hdst]
  constructor
  · intro h1 h2
    rw [if_neg (by omega), if_pos h2]
    simp only [List.getD_eq_getElem?_getD, List.getElem?_drop]
    congr 2
    omega
  · intro h
    have hz : ∀ k, (List.replicate savelen 0).getD k 0 = 0 := by
      intro k
      simp only [List.getD_eq_getElem?_getD, List.getElem?_replicate]
      split_ifs <;> rfl
    rcases h with h | h
    · rw [if_pos h]
      split_ifs
      · exact hz j
      · rfl
    · rw [if_neg (by omega), if_neg (by omega)]
      split_ifs
      · exact hz j
      · rfl

/-- C14, evaluated on a fresh manager: byte 2 of the secondary buffer is byte 2 of the
image after a request that wrote the range `[1, 3)`. -/
theorem secondary_buffer_after_request_witness :
    (4 ≤ [5, 6, 7, 8].length ∧ 1 + 2 ≤ 4 ∧
     (SaveManager.new "game.sav").SecondaryBuffer.length
        = (SaveManager.new "game.sav").SecondaryBufferLength) ∧
    (RequestFlush [5, 6, 7, 8] 4 1 2 100 (SaveManager.new "game.sav")).SecondaryBuffer.getD 2 0
      = [5, 6, 7, 8].getD 2 0 :=
  ⟨by decide,
   (secondary_buffer_after_request [5, 6, 7, 8] 4 1 2 100 (SaveManager.new "game.sav") 2
      (by decide) (by decide) (by decide)).1 (by decide) (by decide)⟩

/-- C14 as stated fails: a first request records bytes `[1, 2]` in the range `[0, 2)`;
a second request for the range `[2, 4)` of another image of the same length records
`[9, 9]` there, and the secondary buffer still carries the bytes `[1, 2]` of the first
request outside that range. -/
theorem secondary_buffer_counterexample :
    (2 + 2 ≤ 4) ∧
    (RequestFlush [7, 7, 9, 9] 4 2 2 101
        (RequestFlush [1, 2, 3, 4] 4 0 2 100 (SaveManager.new "game.sav"))).SecondaryBuffer
      = [1, 2, 9, 9] ∧
    (RequestFlush [1, 2, 3, 4] 4 0 2 100 (SaveManager.new "game.sav")).SecondaryBuffer
      = [1, 2, 0, 0] ∧
    FlushSecondaryBuffer (some [0, 0, 0, 0]) 4
        (RequestFlush [7, 7, 9, 9] 4 2 2 101
          (RequestFlush [1, 2, 3, 4] 4 0 2 100 (SaveManager.new "game.sav")))
      = some [1, 2, 9, 9] := by
  decide

end SaveManager

namespace SaveManager

/-! ## The version counters -/

theorem RequestFlush_versions (savedata : List Nat) (savelen writeoffset writelen : Nat)
    (now : Int) (s : SaveManager) :
    (RequestFlush savedata savelen writeoffset writelen now s).FlushVersion
      = (s.FlushVersion + 1) % 2 ^ 32 ∧
    (RequestFlush savedata savelen writeoffset writelen now s).PreviousFlushVersion
      = s.PreviousFlushVersion ∧
    (RequestFlush savedata savelen writeoffset writelen now s).FlushRequested = true := by
  unfold RequestFlush
  dsimp only
  split_ifs <;> exact ⟨rfl, rfl, rfl⟩

theorem flush_versions (P : Platform) (s : SaveManager) :
    flush P s = s ∨
    ((flush P s).FlushVersion = s.FlushVersion ∧
     (flush P s).PreviousFlushVersion = s.FlushVersion ∧
     (flush P s).FlushRequested = false) := by
  unfold flush
  split_ifs
  · exact Or.inl rfl
  · exact Or.inl rfl
  · exact Or.inr ⟨rfl, rfl, rfl⟩

theorem versionInv_flush (P : Platform) (s : SaveManager) (n : Nat) (h : VersionInv s n) :
    VersionInv (flush P s) n ∧
    s.FlushVersion ≤ (flush P s).FlushVersion ∧
    s.PreviousFlushVersion ≤ (flush P s).PreviousFlushVersion := by
  obtain ⟨hv, hle, hnp, hp⟩ := h
  rcases flush_versions P s with h1 | ⟨h1, h2, h3⟩
  · rw [h1]
    exact ⟨⟨hv, hle, hnp, hp⟩, le_rfl, le_rfl⟩
  · refine ⟨⟨by omega, by omega, fun _ => by omega, ?_⟩, by omega, by omega⟩
    intro hf2; rw [h3] at hf2; exact absurd hf2 (by decide)

theorem versionInv_step (s : SaveManager) (n : Nat) (op : Op) (h : VersionInv s n)
    (hn : n + (if op.isRequest then 1 else 0) < 2 ^ 32) :
    VersionInv (applyOp s op) (n + (if op.isRequest then 1 else 0)) ∧
    s.FlushVersion ≤ (applyOp s op).FlushVersion ∧
    s.PreviousFlushVersion ≤ (applyOp s op).PreviousFlushVersion := by
  cases op with
  | requestFlush savedata savelen writeoffset writelen now =>
    obtain ⟨hv, hle, hnp, hp⟩ := h
    obtain ⟨h1, h2, h3⟩ := RequestFlush_versions savedata savelen writeoffset writelen now s
    simp only [Op.isRequest, if_true] at hn ⊢
    have hmod : (s.FlushVersion + 1) % 2 ^ 32 = s.FlushVersion + 1 :=
      Nat.mod_eq_of_lt (by omega)
    simp only [applyOp]
    rw [hmod] at h1
    refine ⟨⟨by omega, by omega, ?_, ?_⟩, by omega, by omega⟩
    · intro hf; rw [h3] at hf; exact absurd hf (by decide)
    · intro _; omega
  | checkFlush P =>
    simp only [Op.isRequest, Bool.false_eq_true, if_false, Nat.add_zero, applyOp]
    unfold CheckFlush
    split_ifs
    · exact versionInv_flush P s n h
    · exact ⟨h, le_rfl, le_rfl⟩
  | flush P =>
    simp only [Op.isRequest, Bool.false_eq_true, if_false, Nat.add_zero, applyOp]
    exact versionInv_flush P s n h

theorem versionInv_foldl (ops : List Op) :
    ∀ (s : SaveManager) (n : Nat), VersionInv s n → n + numRequests ops < 2 ^ 32 →
      VersionInv (ops.foldl applyOp s) (n + numRequests ops) := by
  induction ops with
  | nil => intro s n h _; simpa [numRequests] using h
  | cons op ops ih =>
    intro s n h hn
    have hcount : numRequests (op :: ops)
        = (if op.isRequest then 1 else 0) + numRequests ops := by
      unfold numRequests
      rw [List.countP_cons]
      split_ifs <;> omega
    rw [hcount] at hn ⊢
    have hstep := (versionInv_step s n op h (by omega)).1
    have := ih (applyOp s op) _ hstep (by omega)
    rw [List.foldl_cons]
    rw [show n + ((if op.isRequest then 1 else 0) + numRequests ops)
        = n + (if op.isRequest then 1 else 0) + numRequests ops by omega]
    exact this

theorem versionInv_new (path : String) : VersionInv (SaveManager.new path) 0 := by
  refine ⟨rfl, le_rfl, fun _ => rfl, ?_⟩
  intro h
  exact absurd h Bool.false_ne_true

theorem versionInv_reach (path : String) (ops : List Op) (h : numRequests ops < 2 ^ 32) :
    VersionInv (reach path ops) (numRequests ops) := by
  have := versionInv_foldl ops (SaveManager.new path) 0 (versionInv_new path) (by omega)
  rw [Nat.zero_add] at this
  exact this

/-- C15 (amended): in every state of a save manager reachable from construction by
`RequestFlush`, `CheckFlush` and `flush` steps, as long as fewer than `2^32`
`RequestFlush` calls have been made (so that the `u32` counter has not wrapped), a
further step decreases neither `FlushVersion` nor `PreviousFlushVersion`,
`PreviousFlushVersion <= FlushVersion`, and `PreviousFlushVersion == FlushVersion` holds
exactly when no flush is pending. -/
theorem versions_monotone_until_wrap (path : String) (ops : List Op) (op : Op)
    (h : numRequests (ops ++ [op]) < 2 ^ 32) :
    ((reach path ops).PreviousFlushVersion ≤ (reach path ops).FlushVersion ∧
     ((reach path ops).PreviousFlushVersion = (reach path ops).FlushVersion
        ↔ (reach path ops).NeedsFlush = false)) ∧
    ((reach path ops).FlushVersion ≤ (reach path (ops ++ [op])).FlushVersion ∧
     (reach path ops).PreviousFlushVersion ≤ (reach path (ops ++ [op])).PreviousFlushVersion) ∧
    ((reach path (ops ++ [op])).PreviousFlushVersion ≤ (reach path (ops ++ [op])).FlushVersion ∧
     ((reach path (ops ++ [op])).PreviousFlushVersion = (reach path (ops ++ [op])).FlushVersion
        ↔ (reach path (ops ++ [op])).NeedsFlush = false)) := by
  have hsplit : numRequests (ops ++ [op])
      = numRequests ops + (if op.isRequest then 1 else 0) := by
    unfold numRequests
    rw [List.countP_append, List.countP_cons]
    simp
  have hinv := versionInv_reach path ops (by omega)
  have hinv' := versionInv_reach path (ops ++ [op]) h
  have hstep := versionInv_step (reach path ops) _ op hinv (by omega)
  have hreach : reach path (ops ++ [op]) = applyOp (reach path ops) op := by
    unfold reach
    rw [List.foldl_append]
    rfl
  have key : ∀ (s : SaveManager) (n : Nat), VersionInv s n →
      s.PreviousFlushVersion ≤ s.FlushVersion ∧
      (s.PreviousFlushVersion = s.FlushVersion ↔ s.NeedsFlush = false) := by
    intro s n ⟨_, hle, hnp, hp⟩
    refine ⟨hle, ?_⟩
    unfold NeedsFlush
    constructor
    · intro heq
      cases hf : s.FlushRequested with
      | false => rfl
      | true => have := hp hf; omega
    · exact hnp
  refine ⟨key _ _ hinv, ?_, key _ _ hinv'⟩
  rw [hreach]
  exact hstep.2

end SaveManager

namespace SaveManager

theorem reach_replicate_requests (path : String) (n : Nat) :
    (reach path (List.replicate n (Op.requestFlush [] 0 0 0 1))).FlushVersion = n % 2 ^ 32 ∧
    (reach path (List.replicate n (Op.requestFlush [] 0 0 0 1))).PreviousFlushVersion = 0 ∧
    (0 < n →
      (reach path (List.replicate n (Op.requestFlush [] 0 0 0 1))).NeedsFlush = true) := by
  induction n with
  | zero => exact ⟨rfl, rfl, fun h => absurd h (by omega)⟩
  | succ n ih =>
    have hreach : reach path (List.replicate (n + 1) (Op.requestFlush [] 0 0 0 1))
        = RequestFlush [] 0 0 0 1 (reach path (List.replicate n (Op.requestFlush [] 0 0 0 1))) := by
      unfold reach
      rw [List.replicate_succ', List.foldl_append]
      rfl
    obtain ⟨h1, h2, h3⟩ := RequestFlush_versions [] 0 0 0 1
      (reach path (List.replicate n (Op.requestFlush [] 0 0 0 1)))
    rw [hreach]
    refine ⟨?_, ?_, fun _ => ?_⟩
    · rw [h1, ih.1]
      omega
    · rw [h2, ih.2.1]
    · unfold NeedsFlush
      exact h3

/-- C15, evaluated: after a request, a successful flush and one more request the
counters are ordered. -/
theorem versions_monotone_until_wrap_witness :
    (numRequests ([Op.requestFlush [1, 2] 2 0 1 100, Op.flush Platform.desktop]
        ++ [Op.requestFlush [3, 4] 2 0 1 105]) < 2 ^ 32) ∧
    (reach "game.sav" [Op.requestFlush [1, 2] 2 0 1 100, Op.flush Platform.desktop]).FlushVersion
      ≤ (reach "game.sav" ([Op.requestFlush [1, 2] 2 0 1 100, Op.flush Platform.desktop]
          ++ [Op.requestFlush [3, 4] 2 0 1 105])).FlushVersion :=
  ⟨by decide,
   (versions_monotone_until_wrap "game.sav"
      [Op.requestFlush [1, 2] 2 0 1 100, Op.flush Platform.desktop]
      (Op.requestFlush [3, 4] 2 0 1 105) (by decide)).2.1.1⟩

/-- C15 as stated fails once the `u32` counter wraps: after `2^32 - 1` requests
`FlushVersion` is `2^32 - 1`, and one more request makes it 0, a decrease, with a flush
pending although `PreviousFlushVersion == FlushVersion`. -/
theorem versions_wrap_counterexample :
    (reach "game.sav"
        (List.replicate (2 ^ 32 - 1) (Op.requestFlush [] 0 0 0 1))).FlushVersion = 4294967295 ∧
    (reach "game.sav"
        (List.replicate (2 ^ 32) (Op.requestFlush [] 0 0 0 1))).FlushVersion = 0 ∧
    (reach "game.sav"
        (List.replicate (2 ^ 32) (Op.requestFlush [] 0 0 0 1))).PreviousFlushVersion = 0 ∧
    (reach "game.sav"
        (List.replicate (2 ^ 32) (Op.requestFlush [] 0 0 0 1))).NeedsFlush = true :=
  ⟨((reach_replicate_requests "game.sav" (2 ^ 32 - 1)).1).trans (by decide),
   ((reach_replicate_requests "game.sav" (2 ^ 32)).1).trans (by decide),
   (reach_replicate_requests "game.sav" (2 ^ 32)).2.1,
   (reach_replicate_requests "game.sav" (2 ^ 32)).2.2 (by decide)⟩

end SaveManager

namespace SaveManager

/-! ## Debounced bursts -/

theorem clock_early (t w : Nat) (h : w ≤ t + 1000) : clock w - clock t < 2 := by
  unfold clock
  omega

theorem clock_late (t w : Nat) (h : t + 2000 ≤ w) : 2 ≤ clock w - clock t := by
  unfold clock
  omega

theorem clock_ne_zero (t : Nat) (h : 1000 ≤ t) : clock t ≠ 0 := by
  unfold clock
  omega

theorem runEvents_append (P : Platform) (l₁ l₂ : List Event) (s : SaveManager) :
    runEvents P (l₁ ++ l₂) s = runEvents P l₂ (runEvents P l₁ s) := by
  simp [runEvents, List.foldl_append]

theorem runEvents_cons (P : Platform) (e : Event) (l : List Event) (s : SaveManager) :
    runEvents P (e :: l) s = runEvents P l (step P s e) := rfl

theorem wakes_idle (P : Platform) (ws : List Nat) (s : SaveManager)
    (h : s.FlushRequested = false) : runEvents P (ws.map Event.wake) s = s := by
  induction ws with
  | nil => rfl
  | cons w ws ih =>
    rw [List.map_cons, runEvents_cons]
    simp only [step]
    rw [wake_not_pending P w s h]
    exact ih

theorem wakes_early (P : Platform) (ws : List Nat) (s : SaveManager)
    (h : ∀ w ∈ ws, clock w - s.TimeAtLastFlushRequest < 2) :
    runEvents P (ws.map Event.wake) s = s := by
  induction ws with
  | nil => rfl
  | cons w ws ih =>
    rw [List.map_cons, runEvents_cons]
    simp only [step]
    rw [wake_early P w s (h w (List.mem_cons_self _ _))]
    exact ih (fun x hx => h x (List.mem_cons_of_mem _ hx))

theorem wakes_late (P : Platform) (ws : List Nat) (s : SaveManager)
    (hr : s.Running = true) (hp : s.FlushRequested = true)
    (h0 : s.TimeAtLastFlushRequest ≠ 0) (hpath : s.Path ≠ "")
    (hopen : P.canOpenWrite s.Path = true)
    (h : ∃ w ∈ ws, 2 ≤ clock w - s.TimeAtLastFlushRequest) :
    runEvents P (ws.map Event.wake) s = flush P s := by
  induction ws with
  | nil =>
    obtain ⟨w, hw, _⟩ := h
    exact absurd hw (List.not_mem_nil w)
  | cons w ws ih =>
    rw [List.map_cons, runEvents_cons]
    simp only [step]
    by_cases hw : 2 ≤ clock w - s.TimeAtLastFlushRequest
    · rw [wake_late P w s hr hp h0 hw]
      apply wakes_idle
      rw [flush_ok P s hpath hopen]
    · rw [wake_early P w s (by omega)]
      apply ih
      obtain ⟨x, hx, hx2⟩ := h
      rcases List.mem_cons.mp hx with rfl | hx'
      · exact absurd hx2 hw
      · exact ⟨x, hx', hx2⟩

theorem RequestFlush_fields (savedata : List Nat) (savelen writeoffset writelen : Nat)
    (now : Int) (s : SaveManager) :
    (RequestFlush savedata savelen writeoffset writelen now s).Running = s.Running ∧
    (RequestFlush savedata savelen writeoffset writelen now s).Path = s.Path ∧
    (RequestFlush savedata savelen writeoffset writelen now s).writes = s.writes ∧
    (RequestFlush savedata savelen writeoffset writelen now s).FlushRequested = true ∧
    (RequestFlush savedata savelen writeoffset writelen now s).TimeAtLastFlushRequest = now := by
  unfold RequestFlush
  dsimp only
  split_ifs <;> exact ⟨rfl, rfl, rfl, rfl, rfl⟩

theorem step_request_buffer (P : Platform) (r : Req) (s : SaveManager) :
    ((step P s r.event).Buffer, (step P s r.event).Length)
      = bufferAfter r (s.Buffer, s.Length) := by
  obtain ⟨hB, hL, _, _⟩ :=
    RequestFlush_Buffer r.savedata r.savelen r.writeoffset r.writelen (clock r.t) s
  simp only [step, Req.event, bufferAfter]
  rw [hB, hL]

end SaveManager

namespace SaveManager

theorem burstEvents_cons (r : Req) (ws : List Nat) (rest : List (Req × List Nat)) :
    burstEvents ((r, ws) :: rest) = (r.event :: ws.map Event.wake) ++ burstEvents rest := by
  simp [burstEvents]

theorem burstEvents_append (l₁ l₂ : List (Req × List Nat)) :
    burstEvents (l₁ ++ l₂) = burstEvents l₁ ++ burstEvents l₂ := by
  induction l₁ with
  | nil => rfl
  | cons b l ih =>
    obtain ⟨r, ws⟩ := b
    rw [List.cons_append, burstEvents_cons, burstEvents_cons, ih, List.append_assoc]

theorem block_early (P : Platform) (r : Req) (ws : List Nat) (s : SaveManager)
    (hearly : ∀ w ∈ ws, w ≤ r.t + 1000) :
    runEvents P (r.event :: ws.map Event.wake) s = step P s r.event := by
  rw [runEvents_cons]
  apply wakes_early
  intro w hw
  have hT : (step P s r.event).TimeAtLastFlushRequest = clock r.t :=
    (RequestFlush_fields r.savedata r.savelen r.writeoffset r.writelen (clock r.t) s).2.2.2.2
  rw [hT]
  exact clock_early r.t w (hearly w hw)

theorem block_late (P : Platform) (r : Req) (ws : List Nat) (s : SaveManager)
    (hr : s.Running = true) (hpath : s.Path ≠ "") (hopen : P.canOpenWrite s.Path = true)
    (hwf : r.wf) (hlate : ∃ w ∈ ws, r.t + 2000 ≤ w) :
    runEvents P (r.event :: ws.map Event.wake) s = flush P (step P s r.event) := by
  rw [runEvents_cons]
  obtain ⟨h1, h2, _, h4, h5⟩ :=
    RequestFlush_fields r.savedata r.savelen r.writeoffset r.writelen (clock r.t) s
  have hstep : step P s r.event
      = RequestFlush r.savedata r.savelen r.writeoffset r.writelen (clock r.t) s := rfl
  apply wakes_late
  · rw [hstep, h1]; exact hr
  · rw [hstep]; exact h4
  · rw [hstep, h5]; exact clock_ne_zero r.t hwf.2.2
  · rw [hstep, h2]; exact hpath
  · rw [hstep, h2]; exact hopen
  · obtain ⟨w, hw, hw2⟩ := hlate
    refine ⟨w, hw, ?_⟩
    rw [hstep, h5]
    exact clock_late r.t w hw2

theorem early_blocks (P : Platform) (pre : List (Req × List Nat)) :
    ∀ s : SaveManager, (∀ b ∈ pre, ∀ w ∈ b.2, w ≤ b.1.t + 1000) →
      (runEvents P (burstEvents pre) s).writes = s.writes ∧
      (runEvents P (burstEvents pre) s).Running = s.Running ∧
      (runEvents P (burstEvents pre) s).Path = s.Path ∧
      ((runEvents P (burstEvents pre) s).Buffer, (runEvents P (burstEvents pre) s).Length)
        = buffersAfter (pre.map Prod.fst) (s.Buffer, s.Length) := by
  induction pre with
  | nil => intro s _; exact ⟨rfl, rfl, rfl, rfl⟩
  | cons b pre ih =>
    intro s h
    obtain ⟨r, ws⟩ := b
    rw [burstEvents_cons, runEvents_append,
      block_early P r ws s (h (r, ws) (List.mem_cons_self _ _))]
    obtain ⟨h1, h2, h3, h4⟩ := ih (step P s r.event)
      (fun b hb => h b (List.mem_cons_of_mem _ hb))
    obtain ⟨g1, g2, g3, _, _⟩ :=
      RequestFlush_fields r.savedata r.savelen r.writeoffset r.writelen (clock r.t) s
    have hstep : step P s r.event
        = RequestFlush r.savedata r.savelen r.writeoffset r.writelen (clock r.t) s := rfl
    refine ⟨by rw [h1, hstep, g3], by rw [h2, hstep, g1], by rw [h3, hstep, g2], ?_⟩
    rw [h4, step_request_buffer]
    rfl

theorem late_blocks (P : Platform) (blocks : List (Req × List Nat)) :
    ∀ s : SaveManager, s.Running = true → s.Path ≠ "" → P.canOpenWrite s.Path = true →
      (∀ b ∈ blocks, b.1.wf) → (∀ b ∈ blocks, ∃ w ∈ b.2, b.1.t + 2000 ≤ w) →
      (runEvents P (burstEvents blocks) s).writes
        = ((snapshots (blocks.map Prod.fst) (s.Buffer, s.Length)).map
            (fun c => (s.Path, c))).reverse ++ s.writes := by
  induction blocks with
  | nil => intro s _ _ _ _ _; rfl
  | cons b blocks ih =>
    intro s hr hpath hopen hwf hlate
    obtain ⟨r, ws⟩ := b
    rw [burstEvents_cons, runEvents_append,
      block_late P r ws s hr hpath hopen (hwf (r, ws) (List.mem_cons_self _ _))
        (hlate (r, ws) (List.mem_cons_self _ _))]
    obtain ⟨g1, g2, g3, _, _⟩ :=
      RequestFlush_fields r.savedata r.savelen r.writeoffset r.writelen (clock r.t) s
    have hstep : step P s r.event
        = RequestFlush r.savedata r.savelen r.writeoffset r.writelen (clock r.t) s := rfl
    have hp1 : (step P s r.event).Path ≠ "" := by rw [hstep, g2]; exact hpath
    have ho1 : P.canOpenWrite (step P s r.event).Path = true := by rw [hstep, g2]; exact hopen
    have hbuf := step_request_buffer P r s
    have hB : (step P s r.event).Buffer = (bufferAfter r (s.Buffer, s.Length)).1 :=
      congrArg Prod.fst hbuf
    have hL : (step P s r.event).Length = (bufferAfter r (s.Buffer, s.Length)).2 :=
      congrArg Prod.snd hbuf
    have hflush := flush_ok P (step P s r.event) hp1 ho1
    rw [ih (flush P (step P s r.event))
      (by rw [hflush]; show (step P s r.event).Running = true; rw [hstep, g1]; exact hr)
      (by rw [hflush]; exact hp1)
      (by rw [hflush]; exact ho1)
      (fun b hb => hwf b (List.mem_cons_of_mem _ hb))
      (fun b hb => hlate b (List.mem_cons_of_mem _ hb))]
    rw [hflush]
    simp only [List.map_cons, snapshots, List.reverse_cons, List.append_assoc,
      List.singleton_append]
    rw [hB, hL]
    have hP : (step P s r.event).Path = s.Path := by rw [hstep, g2]
    have hW : (step P s r.event).writes = s.writes := by rw [hstep, g3]
    rw [hP, hW]

end SaveManager

namespace SaveManager

theorem bufferAfter_len (r : Req) (b : List Nat × Nat) :
    r.savelen ≤ (bufferAfter r b).2 ∧ b.2 ≤ (bufferAfter r b).2 ∧
    (bufferAfter r b).2 ≤ max b.2 r.savelen := by
  unfold bufferAfter
  dsimp only
  split_ifs <;> omega

theorem bufferAfter_take (r : Req) (b : List Nat × Nat) (hdata : r.savelen ≤ r.savedata.length) :
    ((bufferAfter r b).1.take (bufferAfter r b).2).take r.savelen
      = r.savedata.take r.savelen := by
  rw [List.take_take, min_eq_left (bufferAfter_len r b).1]
  unfold bufferAfter
  exact memcpy_zero_take _ _ _ hdata

theorem bufferAfter_exact (r : Req) (b : List Nat × Nat)
    (hdata : r.savelen ≤ r.savedata.length) (hle : b.2 ≤ r.savelen) :
    (bufferAfter r b).1.take (bufferAfter r b).2 = r.savedata.take r.savelen := by
  have hL : (bufferAfter r b).2 = r.savelen := by
    have := bufferAfter_len r b
    have h2 : max b.2 r.savelen = r.savelen := max_eq_right hle
    omega
  rw [hL]
  unfold bufferAfter
  exact memcpy_zero_take _ _ _ hdata

theorem buffersAfter_len_le (rs : List Req) (L : Nat) :
    ∀ b : List Nat × Nat, b.2 ≤ L → (∀ q ∈ rs, q.savelen ≤ L) → (buffersAfter rs b).2 ≤ L := by
  induction rs with
  | nil => intro b hb _; exact hb
  | cons q rs ih =>
    intro b hb h
    unfold buffersAfter
    rw [List.foldl_cons]
    apply ih
    · have := (bufferAfter_len q b).2.2
      have := h q (List.mem_cons_self _ _)
      omega
    · exact fun x hx => h x (List.mem_cons_of_mem _ hx)

theorem flushImage_snoc (rs : List Req) (r : Req) (b : List Nat × Nat) :
    flushImage (rs ++ [r]) b
      = (bufferAfter r (buffersAfter rs b)).1.take (bufferAfter r (buffersAfter rs b)).2 := by
  unfold flushImage buffersAfter
  rw [List.foldl_append]
  rfl

theorem snapshots_length (rs : List Req) :
    ∀ b : List Nat × Nat, (snapshots rs b).length = rs.length := by
  induction rs with
  | nil => intro b; rfl
  | cons q rs ih => intro b; simp [snapshots, ih]

theorem snapshots_contain (rs : List Req) :
    ∀ b : List Nat × Nat, (∀ q ∈ rs, q.savelen ≤ q.savedata.length) →
      List.Forall₂ (fun q c => c.take q.savelen = q.savedata.take q.savelen) rs
        (snapshots rs b) := by
  induction rs with
  | nil => intro b _; exact List.Forall₂.nil
  | cons q rs ih =>
    intro b h
    exact List.Forall₂.cons (bufferAfter_take q b (h q (List.mem_cons_self _ _)))
      (ih _ (fun x hx => h x (List.mem_cons_of_mem _ hx)))

/-- C12 (amended): for a running manager whose destination can be opened.  Burst: when
every wake that falls between two consecutive calls comes at most 1000 ms after the
earlier call, and the last call is followed by a wake at least 2000 ms after it, the
loop performs exactly one write; its content is the primary buffer at its full length,
which begins with the last-submitted image and is exactly that image when neither the
buffer before the burst nor an earlier image of the burst was longer.  Spaced calls:
when every call is followed, before the next one, by a wake at least 2000 ms after it,
one write is performed per call, in call order, each beginning with the image of its
call. -/
theorem debounced_burst_writes (P : Platform) (s : SaveManager)
    (pre : List (Req × List Nat)) (r : Req) (ws : List Nat)
    (blocks : List (Req × List Nat))
    (hrun : s.Running = true) (hpath : s.Path ≠ "") (hopen : P.canOpenWrite s.Path = true) :
    (r.wf → (∀ b ∈ pre, ∀ w ∈ b.2, w ≤ b.1.t + 1000) → (∃ w ∈ ws, r.t + 2000 ≤ w) →
      (runEvents P (burstEvents (pre ++ [(r, ws)])) s).writes
        = (s.Path, flushImage (pre.map Prod.fst ++ [r]) (s.Buffer, s.Length)) :: s.writes ∧
      (flushImage (pre.map Prod.fst ++ [r]) (s.Buffer, s.Length)).take r.savelen
        = r.savedata.take r.savelen ∧
      (s.Length ≤ r.savelen → (∀ b ∈ pre, b.1.savelen ≤ r.savelen) →
        flushImage (pre.map Prod.fst ++ [r]) (s.Buffer, s.Length)
          = r.savedata.take r.savelen)) ∧
    ((∀ b ∈ blocks, b.1.wf) → (∀ b ∈ blocks, ∃ w ∈ b.2, b.1.t + 2000 ≤ w) →
      (runEvents P (burstEvents blocks) s).writes
        = ((snapshots (blocks.map Prod.fst) (s.Buffer, s.Length)).map
            (fun c => (s.Path, c))).reverse ++ s.writes ∧
      (snapshots (blocks.map Prod.fst) (s.Buffer, s.Length)).length = blocks.length ∧
      List.Forall₂ (fun q c => c.take q.savelen = q.savedata.take q.savelen)
        (blocks.map Prod.fst) (snapshots (blocks.map Prod.fst) (s.Buffer, s.Length))) := by
  constructor
  · intro hwf hearly hquiet
    obtain ⟨e1, e2, e3, e4⟩ := early_blocks P pre s hearly
    have hlast := late_blocks P [(r, ws)] (runEvents P (burstEvents pre) s)
      (by rw [e2]; exact hrun) (by rw [e3]; exact hpath) (by rw [e3]; exact hopen)
      (by intro b hb; rw [List.mem_singleton.mp hb]; exact hwf)
      (by intro b hb; rw [List.mem_singleton.mp hb]; exact hquiet)
    refine ⟨?_, ?_, ?_⟩
    · rw [burstEvents_append, runEvents_append, hlast, e4, e3, e1, flushImage_snoc]
      simp [snapshots]
    · rw [flushImage_snoc]
      exact bufferAfter_take r _ hwf.1
    · intro hL hpre
      rw [flushImage_snoc]
      apply bufferAfter_exact r _ hwf.1
      apply buffersAfter_len_le _ _ _ hL
      intro q hq
      obtain ⟨b, hb, rfl⟩ := List.mem_map.mp hq
      exact hpre b hb
  · intro hwf hlate
    refine ⟨late_blocks P blocks s hrun hpath hopen hwf hlate, ?_, ?_⟩
    · rw [snapshots_length, List.length_map]
    · apply snapshots_contain
      intro q hq
      obtain ⟨b, hb, rfl⟩ := List.mem_map.mp hq
      exact (hwf b hb).1

end SaveManager

namespace SaveManager

/-- C12, evaluated: two calls 500 ms apart with wakes in between, then a quiet period;
the one write holds the second image. -/
theorem debounced_burst_writes_witness :
    ((SaveManager.new "game.sav").Running = true ∧ (SaveManager.new "game.sav").Path ≠ "" ∧
     Platform.desktop.canOpenWrite (SaveManager.new "game.sav").Path = true ∧
     ({ savedata := [9, 8, 7, 6], savelen := 4, writeoffset := 0, writelen := 4,
        t := 5500 } : Req).wf) ∧
    (runEvents Platform.desktop
        (burstEvents
          ([(({ savedata := [1, 2, 3, 4], savelen := 4, writeoffset := 1, writelen := 2,
                t := 5000 } : Req), [5100, 5400])]
            ++ [(({ savedata := [9, 8, 7, 6], savelen := 4, writeoffset := 0, writelen := 4,
                    t := 5500 } : Req), [5600, 7500])]))
        (SaveManager.new "game.sav")).writes
      = [("game.sav", [9, 8, 7, 6])] :=
  ⟨by decide,
   ((debounced_burst_writes Platform.desktop (SaveManager.new "game.sav")
      [(({ savedata := [1, 2, 3, 4], savelen := 4, writeoffset := 1, writelen := 2,
           t := 5000 } : Req), [5100, 5400])]
      { savedata := [9, 8, 7, 6], savelen := 4, writeoffset := 0, writelen := 4, t := 5500 }
      [5600, 7500] [] (by decide) (by decide) (by decide)).1
      (by decide) (by decide) (by decide)).1.trans (by decide)⟩

/-- C12 as stated fails.  A four-byte image and, 500 ms later, a two-byte image are
followed by a quiet period: the one write holds four bytes, the two of the last image
followed by two stale bytes of the first, not the last-submitted image alone.  And with
an empty destination path, as the emulator instance constructs its manager, the same
burst is followed by no write at all. -/
theorem debounced_burst_counterexample :
    ((runEvents Platform.desktop
        [Event.request [1, 2, 3, 4] 4 0 4 5000, Event.request [9, 9] 2 0 2 5500,
         Event.wake 8000, Event.wake 8100] (SaveManager.new "game.sav")).writes
      = [("game.sav", [9, 9, 3, 4])] ∧
     [9, 9, 3, 4] ≠ [9, 9]) ∧
    (runEvents Platform.desktop
        [Event.request [1, 2, 3, 4] 4 0 4 5000, Event.request [9, 9] 2 0 2 5500,
         Event.wake 8000, Event.wake 8100] (SaveManager.new "")).writes = [] := by
  decide

end SaveManager

/-! ## Rounding to a binary format -/

theorem roundNearestEven_intCast (n : Int) : roundNearestEven (n : ℚ) = n := by
  unfold roundNearestEven
  simp

theorem roundNearestEven_ge_floor (q : ℚ) : ⌊q⌋ ≤ roundNearestEven q := by
  unfold roundNearestEven
  split_ifs <;> omega

theorem roundNearestEven_le_floor_succ (q : ℚ) : roundNearestEven q ≤ ⌊q⌋ + 1 := by
  unfold roundNearestEven
  split_ifs <;> omega

theorem roundNearestEven_le_of_le (q : ℚ) (n : Int) (h : q ≤ n) : roundNearestEven q ≤ n := by
  rcases eq_or_lt_of_le h with h | h
  · rw [h, roundNearestEven_intCast]
  · have h1 : ⌊q⌋ < n := Int.floor_lt.mpr h
    have h2 := roundNearestEven_le_floor_succ q
    omega

theorem roundNearestEven_ge_of_le (q : ℚ) (n : Int) (h : (n : ℚ) ≤ q) :
    n ≤ roundNearestEven q :=
  le_trans (Int.le_floor.mpr h) (roundNearestEven_ge_floor q)

theorem roundNearestEven_sub_le (q : ℚ) : |(roundNearestEven q : ℚ) - q| ≤ 1 / 2 := by
  have h1 := Int.floor_le q
  have h2 := Int.lt_floor_add_one q
  unfold roundNearestEven
  rw [abs_le]
  split_ifs with a b c
  · constructor <;> linarith
  · push_cast; constructor <;> linarith
  · constructor <;> linarith
  · push_cast; constructor <;> linarith

theorem roundNearestEven_eq_of_near (q : ℚ) (n : Int) (h1 : (n : ℚ) - 1 / 2 < q)
    (h2 : q < n + 1 / 2) : roundNearestEven q = n := by
  have h3 := Int.floor_le q
  have h4 := Int.lt_floor_add_one q
  unfold roundNearestEven
  split_ifs with a b c
  · have : (⌊q⌋ : ℚ) < n + 1 := by linarith
    have : ((n : ℚ) - 1) < ⌊q⌋ := by linarith
    have h5 : ⌊q⌋ < n + 1 := by exact_mod_cast ‹(⌊q⌋ : ℚ) < n + 1›
    have h6 : n - 1 < ⌊q⌋ := by exact_mod_cast ‹((n : ℚ) - 1) < ⌊q⌋›
    omega
  · have h5 : (⌊q⌋ : ℚ) < n := by linarith
    have h6 : (n : ℚ) - 2 < ⌊q⌋ := by linarith
    have h7 : ⌊q⌋ < n := by exact_mod_cast h5
    have h8 : n - 2 < ⌊q⌋ := by exact_mod_cast h6
    omega
  · have e : q - ⌊q⌋ = 1 / 2 := le_antisymm (not_lt.mp b) (not_lt.mp a)
    have h5 : (⌊q⌋ : ℚ) < n := by linarith
    have h6 : (n : ℚ) - 1 < ⌊q⌋ := by linarith
    have h7 : ⌊q⌋ < n := by exact_mod_cast h5
    have h8 : n - 1 < ⌊q⌋ := by exact_mod_cast h6
    omega
  · have e : q - ⌊q⌋ = 1 / 2 := le_antisymm (not_lt.mp b) (not_lt.mp a)
    have h5 : (⌊q⌋ : ℚ) < n := by linarith
    have h6 : (n : ℚ) - 1 < ⌊q⌋ := by linarith
    have h7 : ⌊q⌋ < n := by exact_mod_cast h5
    have h8 : n - 1 < ⌊q⌋ := by exact_mod_cast h6
    omega

/-- A tie goes to the even neighbour. -/
theorem roundNearestEven_tie (n : Int) (hn : n % 2 = 0) :
    roundNearestEven ((n : ℚ) + 1 / 2) = n ∧ roundNearestEven ((n : ℚ) - 1 / 2) = n := by
  have f1 : ⌊(n : ℚ) + 1 / 2⌋ = n := by
    rw [Int.floor_eq_iff]; constructor <;> linarith
  have f2 : ⌊(n : ℚ) - 1 / 2⌋ = n - 1 := by
    rw [Int.floor_eq_iff]; push_cast; constructor <;> linarith
  constructor
  · unfold roundNearestEven
    rw [f1]
    have e : (n : ℚ) + 1 / 2 - n = 1 / 2 := by ring
    rw [e, if_neg (lt_irrefl _), if_neg (lt_irrefl _), if_pos hn]
  · unfold roundNearestEven
    rw [f2]
    have e : (n : ℚ) - 1 / 2 - ((n - 1 : Int) : ℚ) = 1 / 2 := by push_cast; ring
    rw [e, if_neg (lt_irrefl _), if_neg (lt_irrefl _), if_neg (by omega)]
    omega

theorem two_zpow_pos (e : Int) : (0 : ℚ) < 2 ^ e := zpow_pos (by norm_num) e

theorem log_lt_of_lt (x : ℚ) (k : Int) (h0 : 0 < x) (h : x < 2 ^ k) : Int.log 2 x < k :=
  (Int.lt_zpow_iff_log_lt (by norm_num) h0).mp (by exact_mod_cast h)

theorem le_log_of_le (x : ℚ) (k : Int) (h0 : 0 < x) (h : 2 ^ k ≤ x) : k ≤ Int.log 2 x :=
  (Int.zpow_le_iff_le_log (by norm_num) h0).mp (by exact_mod_cast h)

theorem log_eq_of_bounds (x : ℚ) (k : Int) (h1 : 2 ^ k ≤ x) (h2 : x < 2 ^ (k + 1)) :
    Int.log 2 x = k := by
  have h0 : (0 : ℚ) < x := lt_of_lt_of_le (two_zpow_pos k) h1
  have a := log_lt_of_lt x (k + 1) h0 h2
  have b := le_log_of_le x k h0 h1
  omega

theorem zpow_log_le (x : ℚ) (h0 : 0 < x) : (2 : ℚ) ^ Int.log 2 x ≤ x := by
  have := Int.zpow_log_le_self (b := 2) (r := x) (by norm_num) h0
  exact_mod_cast this

theorem lt_zpow_log_succ (x : ℚ) : x < (2 : ℚ) ^ (Int.log 2 x + 1) := by
  have := Int.lt_zpow_succ_log_self (b := 2) (by norm_num) x
  exact_mod_cast this

theorem roundFloat_zero (p : Nat) (emin : Int) : roundFloat p emin 0 = 0 := by
  unfold roundFloat
  rw [zero_div]
  have : roundNearestEven 0 = 0 := by simpa using roundNearestEven_intCast 0
  rw [this]
  simp

theorem roundFloat_nonneg (p : Nat) (emin : Int) (x : ℚ) (h : 0 ≤ x) :
    0 ≤ roundFloat p emin x := by
  unfold roundFloat
  apply mul_nonneg _ (le_of_lt (two_zpow_pos _))
  have : (0 : ℚ) ≤ x / 2 ^ ulpExp p emin x := div_nonneg h (le_of_lt (two_zpow_pos _))
  have h2 := roundNearestEven_ge_of_le _ 0 (by simpa using this)
  exact_mod_cast h2

theorem roundFloat_nonpos (p : Nat) (emin : Int) (x : ℚ) (h : x ≤ 0) :
    roundFloat p emin x ≤ 0 := by
  unfold roundFloat
  apply mul_nonpos_of_nonpos_of_nonneg _ (le_of_lt (two_zpow_pos _))
  have : x / 2 ^ ulpExp p emin x ≤ (0 : ℚ) := div_nonpos_of_nonpos_of_nonneg h (le_of_lt (two_zpow_pos _))
  have h2 := roundNearestEven_le_of_le _ 0 (by simpa using this)
  exact_mod_cast h2

/-- The unit in the last place of a non-zero representable value is not above the
exponent of any of its representations. -/
theorem ulpExp_le_of_rep (p : Nat) (emin : Int) (m e : Int) (hm : |m| < 2 ^ p)
    (he : emin ≤ e) (h0 : m ≠ 0) : ulpExp p emin ((m : ℚ) * 2 ^ e) ≤ e := by
  unfold ulpExp
  apply max_le _ he
  have hpos : (0 : ℚ) < |(m : ℚ) * 2 ^ e| := abs_pos.mpr
    (mul_ne_zero (by exact_mod_cast h0) (ne_of_gt (two_zpow_pos e)))
  have hlt : |(m : ℚ) * 2 ^ e| < 2 ^ ((p : Int) + e) := by
    rw [abs_mul, abs_of_pos (two_zpow_pos e), zpow_add₀ (by norm_num : (2 : ℚ) ≠ 0)]
    apply mul_lt_mul_of_pos_right _ (two_zpow_pos e)
    have : ((|m| : Int) : ℚ) < ((2 ^ p : Int) : ℚ) := by exact_mod_cast hm
    rw [zpow_natCast]
    simpa using this
  have := log_lt_of_lt _ _ hpos hlt
  omega

/-- A representable value rounds to itself. -/
theorem roundFloat_of_rep (p : Nat) (emin : Int) (x : ℚ) (h : Representable p emin x) :
    roundFloat p emin x = x := by
  obtain ⟨m, e, hx, hm, he⟩ := h
  by_cases h0 : m = 0
  · subst h0
    rw [hx]
    simp [roundFloat_zero]
  · have hle := ulpExp_le_of_rep p emin m e hm he h0
    rw [← hx] at hle
    unfold roundFloat
    generalize ulpExp p emin x = u at hle
    obtain ⟨d, hd⟩ : ∃ d : Nat, e = u + d := ⟨(e - u).toNat, by omega⟩
    have hu := two_zpow_pos u
    have hx2 : x = ((m * 2 ^ d : Int) : ℚ) * 2 ^ u := by
      rw [hx, hd, zpow_add₀ (by norm_num : (2 : ℚ) ≠ 0), zpow_natCast]
      push_cast
      ring
    have hq : x / 2 ^ u = ((m * 2 ^ d : Int) : ℚ) := by
      rw [hx2]
      field_simp
    rw [hq, roundNearestEven_intCast, ← hx2]

theorem ulpExp_ge (p : Nat) (emin : Int) (x : ℚ) : emin ≤ ulpExp p emin x := le_max_right _ _

theorem abs_lt_zpow_ulpExp (p : Nat) (emin : Int) (x : ℚ) :
    |x| < 2 ^ (ulpExp p emin x + p) := by
  have h1 := lt_zpow_log_succ |x|
  have h2 : Int.log 2 |x| + 1 ≤ ulpExp p emin x + p := by
    have := le_max_left (Int.log 2 |x| - ((p : Int) - 1)) emin
    unfold ulpExp
    omega
  exact lt_of_lt_of_le h1 (zpow_le_zpow_right₀ (by norm_num) h2)

theorem zpow_le_abs_of_ulpExp (p : Nat) (emin : Int) (x : ℚ) (h0 : x ≠ 0)
    (h : emin < ulpExp p emin x) : (2 : ℚ) ^ (ulpExp p emin x + p - 1) ≤ |x| := by
  have h1 := zpow_log_le |x| (abs_pos.mpr h0)
  have h2 : ulpExp p emin x = Int.log 2 |x| - ((p : Int) - 1) := by
    unfold ulpExp at h ⊢
    rcases max_cases (Int.log 2 |x| - ((p : Int) - 1)) emin with ⟨a, _⟩ | ⟨a, _⟩
    · exact a
    · rw [a] at h; omega
  have h3 : ulpExp p emin x + p - 1 = Int.log 2 |x| := by omega
  rw [h3]
  exact h1

theorem ulpExp_le_of_lt (p : Nat) (emin : Int) (x : ℚ) (k : Int) (h0 : x ≠ 0)
    (h : |x| < 2 ^ k) (he : emin ≤ k - p) : ulpExp p emin x ≤ k - p := by
  have := log_lt_of_lt |x| k (abs_pos.mpr h0) h
  unfold ulpExp
  apply max_le _ he
  omega

theorem ulpExp_eq (p : Nat) (emin : Int) (x : ℚ) (k : Int) (h1 : 2 ^ k ≤ |x|)
    (h2 : |x| < 2 ^ (k + 1)) (he : emin ≤ k - ((p : Int) - 1)) :
    ulpExp p emin x = k - ((p : Int) - 1) := by
  unfold ulpExp
  rw [log_eq_of_bounds |x| k h1 h2]
  exact max_eq_left he

/-- The result of a rounding is a value of the format. -/
theorem roundFloat_rep (p : Nat) (emin : Int) (x : ℚ) (hp : 0 < p) :
    Representable p emin (roundFloat p emin x) := by
  have hu := two_zpow_pos (ulpExp p emin x)
  have hlt := abs_lt_zpow_ulpExp p emin x
  have hq : |x / 2 ^ ulpExp p emin x| < 2 ^ p := by
    rw [abs_div, abs_of_pos hu, div_lt_iff₀ hu, ← zpow_natCast, ← zpow_add₀ (by norm_num : (2 : ℚ) ≠ 0)]
    rw [add_comm]
    exact hlt
  rw [abs_lt] at hq
  have hn1 : roundNearestEven (x / 2 ^ ulpExp p emin x) ≤ 2 ^ p :=
    roundNearestEven_le_of_le _ _ (by push_cast; exact le_of_lt hq.2)
  have hn2 : -(2 ^ p) ≤ roundNearestEven (x / 2 ^ ulpExp p emin x) :=
    roundNearestEven_ge_of_le _ _ (by push_cast; exact le_of_lt hq.1)
  unfold roundFloat
  generalize roundNearestEven (x / 2 ^ ulpExp p emin x) = n at hn1 hn2
  have hge := ulpExp_ge p emin x
  generalize ulpExp p emin x = u at hge
  obtain ⟨r, hr⟩ : ∃ r : Nat, p = r + 1 := ⟨p - 1, by omega⟩
  have hpow : (2 : Int) ^ p = 2 * 2 ^ r := by rw [hr, pow_succ]; ring
  have hrpos : (0 : Int) < 2 ^ r := by positivity
  by_cases h1 : n = 2 ^ p
  · refine ⟨2 ^ r, u + 1, ?_, ?_, by omega⟩
    · rw [h1, hpow, zpow_add₀ (by norm_num : (2 : ℚ) ≠ 0)]
      push_cast
      ring
    · rw [abs_of_pos hrpos, hpow]; omega
  · by_cases h2 : n = -(2 ^ p)
    · refine ⟨-(2 ^ r), u + 1, ?_, ?_, by omega⟩
      · rw [h2, hpow, zpow_add₀ (by norm_num : (2 : ℚ) ≠ 0)]
        push_cast
        ring
      · rw [abs_neg, abs_of_pos hrpos, hpow]; omega
    · refine ⟨n, u, rfl, ?_, hge⟩
      rw [abs_lt]
      constructor <;> omega

/-- Rounding does not cross a non-negative value of the format from below. -/
theorem roundFloat_le_of_le (p : Nat) (emin : Int) (x y : ℚ) (hy : Representable p emin y)
    (h0 : 0 ≤ y) (h : x ≤ y) : roundFloat p emin x ≤ y := by
  rcases le_or_lt x 0 with hx | hx
  · exact le_trans (roundFloat_nonpos p emin x hx) h0
  obtain ⟨m, e, hye, hm, he⟩ := hy
  have hu := two_zpow_pos (ulpExp p emin x)
  have hmabs : ((|m| : Int) : ℚ) < 2 ^ p := by exact_mod_cast hm
  rcases le_or_lt (ulpExp p emin x) e with hc | hc
  · obtain ⟨d, hd⟩ : ∃ d : Nat, e = ulpExp p emin x + d :=
      ⟨(e - ulpExp p emin x).toNat, by omega⟩
    have hy2 : y = ((m * 2 ^ d : Int) : ℚ) * 2 ^ ulpExp p emin x := by
      rw [hye, hd, zpow_add₀ (by norm_num : (2 : ℚ) ≠ 0), zpow_natCast]
      push_cast
      ring
    have hq : x / 2 ^ ulpExp p emin x ≤ ((m * 2 ^ d : Int) : ℚ) := by
      rw [div_le_iff₀ hu, ← hy2]
      exact h
    have hn := roundNearestEven_le_of_le _ _ hq
    unfold roundFloat
    rw [hy2]
    exact mul_le_mul_of_nonneg_right (by exact_mod_cast hn) (le_of_lt hu)
  · exfalso
    have h1 := zpow_le_abs_of_ulpExp p emin x (ne_of_gt hx) (by omega)
    rw [abs_of_pos hx] at h1
    have h2 : y < 2 ^ ((p : Int) + e) := by
      rw [hye, zpow_add₀ (by norm_num : (2 : ℚ) ≠ 0), zpow_natCast]
      apply mul_lt_mul_of_pos_right _ (two_zpow_pos e)
      exact lt_of_le_of_lt (by exact_mod_cast le_abs_self m) hmabs
    have h3 : (2 : ℚ) ^ ((p : Int) + e) ≤ 2 ^ (ulpExp p emin x + p - 1) :=
      zpow_le_zpow_right₀ (by norm_num) (by omega)
    linarith

/-- Rounding does not cross a non-negative value of the format from above. -/
theorem le_roundFloat_of_le (p : Nat) (emin : Int) (x y : ℚ) (hy : Representable p emin y)
    (h0 : 0 ≤ y) (h : y ≤ x) : y ≤ roundFloat p emin x := by
  rcases eq_or_lt_of_le h0 with hy0 | hy0
  · rw [← hy0]
    exact roundFloat_nonneg p emin x (le_trans h0 h)
  have hx : 0 < x := lt_of_lt_of_le hy0 h
  obtain ⟨m, e, hye, hm, he⟩ := hy
  have hu := two_zpow_pos (ulpExp p emin x)
  have hmabs : ((|m| : Int) : ℚ) < 2 ^ p := by exact_mod_cast hm
  rcases le_or_lt (ulpExp p emin x) e with hc | hc
  · obtain ⟨d, hd⟩ : ∃ d : Nat, e = ulpExp p emin x + d :=
      ⟨(e - ulpExp p emin x).toNat, by omega⟩
    have hy2 : y = ((m * 2 ^ d : Int) : ℚ) * 2 ^ ulpExp p emin x := by
      rw [hye, hd, zpow_add₀ (by norm_num : (2 : ℚ) ≠ 0), zpow_natCast]
      push_cast
      ring
    have hq : ((m * 2 ^ d : Int) : ℚ) ≤ x / 2 ^ ulpExp p emin x := by
      rw [le_div_iff₀ hu, ← hy2]
      exact h
    have hn := roundNearestEven_ge_of_le _ _ hq
    unfold roundFloat
    rw [hy2]
    exact mul_le_mul_of_nonneg_right (by exact_mod_cast hn) (le_of_lt hu)
  · have h1 := zpow_le_abs_of_ulpExp p emin x (ne_of_gt hx) (by omega)
    rw [abs_of_pos hx] at h1
    have h2 : y < 2 ^ ((p : Int) + e) := by
      rw [hye, zpow_add₀ (by norm_num : (2 : ℚ) ≠ 0), zpow_natCast]
      apply mul_lt_mul_of_pos_right _ (two_zpow_pos e)
      exact lt_of_le_of_lt (by exact_mod_cast le_abs_self m) hmabs
    have h3 : (2 : ℚ) ^ ((p : Int) + e) ≤ 2 ^ (ulpExp p emin x + p - 1) :=
      zpow_le_zpow_right₀ (by norm_num) (by omega)
    obtain ⟨r, hr⟩ : ∃ r : Nat, ulpExp p emin x + p - 1 = ulpExp p emin x + r :=
      ⟨p - 1, by
        have : 0 < p := by
          rcases Nat.eq_zero_or_pos p with hp | hp
          · subst hp
            have : |m| < 1 := by simpa using hm
            have hm0 : m = 0 := by
              rw [abs_lt] at this; omega
            rw [hye, hm0] at hy0
            simp at hy0
          · exact hp
        omega⟩
    have hq : (((2 : Int) ^ r : Int) : ℚ) ≤ x / 2 ^ ulpExp p emin x := by
      rw [le_div_iff₀ hu]
      push_cast
      rw [← zpow_natCast, ← zpow_add₀ (by norm_num : (2 : ℚ) ≠ 0), add_comm, ← hr]
      exact h1
    have hn := roundNearestEven_ge_of_le _ _ hq
    unfold roundFloat
    have h4 : (((2 : Int) ^ r : Int) : ℚ) * 2 ^ ulpExp p emin x
        ≤ (roundNearestEven (x / 2 ^ ulpExp p emin x) : ℚ) * 2 ^ ulpExp p emin x :=
      mul_le_mul_of_nonneg_right (by exact_mod_cast hn) (le_of_lt hu)
    have h5 : (((2 : Int) ^ r : Int) : ℚ) * 2 ^ ulpExp p emin x
        = 2 ^ (ulpExp p emin x + p - 1) := by
      push_cast
      rw [← zpow_natCast, ← zpow_add₀ (by norm_num : (2 : ℚ) ≠ 0), add_comm, ← hr]
    linarith

/-- The rounding error is at most half a unit in the last place. -/
theorem roundFloat_error (p : Nat) (emin : Int) (x : ℚ) (k : Int) (h : |x| < 2 ^ k)
    (he : emin ≤ k - p) : |roundFloat p emin x - x| ≤ 2 ^ (k - p) / 2 := by
  by_cases h0 : x = 0
  · subst h0
    rw [roundFloat_zero, sub_zero, abs_zero]
    exact le_of_lt (div_pos (two_zpow_pos _) (by norm_num))
  have hle := ulpExp_le_of_lt p emin x k h0 h he
  have hu := two_zpow_pos (ulpExp p emin x)
  have h1 := roundNearestEven_sub_le (x / 2 ^ ulpExp p emin x)
  have h2 : roundFloat p emin x - x
      = ((roundNearestEven (x / 2 ^ ulpExp p emin x) : ℚ) - x / 2 ^ ulpExp p emin x)
          * 2 ^ ulpExp p emin x := by
    unfold roundFloat
    field_simp
  rw [h2, abs_mul, abs_of_pos hu]
  have h3 : (2 : ℚ) ^ ulpExp p emin x ≤ 2 ^ (k - p) := zpow_le_zpow_right₀ (by norm_num) hle
  calc |(roundNearestEven (x / 2 ^ ulpExp p emin x) : ℚ) - x / 2 ^ ulpExp p emin x|
        * 2 ^ ulpExp p emin x
      ≤ 1 / 2 * 2 ^ ulpExp p emin x := mul_le_mul_of_nonneg_right h1 (le_of_lt hu)
    _ ≤ 1 / 2 * 2 ^ (k - p) := mul_le_mul_of_nonneg_left h3 (by norm_num)
    _ = 2 ^ (k - p) / 2 := by ring

/-- The rounding of a value whose binade is known and that lies less than half a unit
in the last place from `n` units. -/
theorem roundFloat_eq_of_near (p : Nat) (emin : Int) (x : ℚ) (k u n : Int)
    (h1 : 2 ^ k ≤ x) (h2 : x < 2 ^ (k + 1)) (hu : u = k - ((p : Int) - 1))
    (he : emin ≤ u) (hn1 : ((n : ℚ) - 1 / 2) * 2 ^ u < x) (hn2 : x < ((n : ℚ) + 1 / 2) * 2 ^ u) :
    roundFloat p emin x = n * 2 ^ u := by
  have hue : ulpExp p emin x = u := by
    have hx0 : 0 < x := lt_of_lt_of_le (two_zpow_pos k) h1
    rw [hu]
    exact ulpExp_eq p emin x k (by rw [abs_of_pos hx0]; exact h1)
      (by rw [abs_of_pos hx0]; exact h2) (by omega)
  unfold roundFloat
  rw [hue]
  have hpos := two_zpow_pos u
  rw [roundNearestEven_eq_of_near _ n (by rw [lt_div_iff₀ hpos]; exact hn1)
    (by rw [div_lt_iff₀ hpos]; exact hn2)]

/-- The rounding of a value whose binade is known and that lies half way between two
neighbours: the even one. -/
theorem roundFloat_eq_of_tie (p : Nat) (emin : Int) (x : ℚ) (k u n : Int)
    (h1 : 2 ^ k ≤ x) (h2 : x < 2 ^ (k + 1)) (hu : u = k - ((p : Int) - 1))
    (he : emin ≤ u) (hn : n % 2 = 0)
    (hx : x = ((n : ℚ) + 1 / 2) * 2 ^ u ∨ x = ((n : ℚ) - 1 / 2) * 2 ^ u) :
    roundFloat p emin x = n * 2 ^ u := by
  have hue : ulpExp p emin x = u := by
    have hx0 : 0 < x := lt_of_lt_of_le (two_zpow_pos k) h1
    rw [hu]
    exact ulpExp_eq p emin x k (by rw [abs_of_pos hx0]; exact h1)
      (by rw [abs_of_pos hx0]; exact h2) (by omega)
  unfold roundFloat
  rw [hue]
  have hpos := two_zpow_pos u
  have hq : x / 2 ^ u = (n : ℚ) + 1 / 2 ∨ x / 2 ^ u = (n : ℚ) - 1 / 2 := by
    rcases hx with hx | hx
    · left; rw [hx]; field_simp; ring
    · right; rw [hx]; field_simp; ring
  rcases hq with hq | hq
  · rw [hq, (roundNearestEven_tie n hn).1]
  · rw [hq, (roundNearestEven_tie n hn).2]

theorem rep_intCast (p : Nat) (emin : Int) (n : Int) (h : |n| < 2 ^ p) (he : emin ≤ 0) :
    Representable p emin (n : ℚ) :=
  ⟨n, 0, by simp, h, he⟩

theorem rep_mono (p q : Nat) (emin emin2 : Int) (x : ℚ) (hpq : p ≤ q) (he : emin2 ≤ emin)
    (h : Representable p emin x) : Representable q emin2 x := by
  obtain ⟨m, e, hx, hm, hee⟩ := h
  exact ⟨m, e, hx, lt_of_lt_of_le hm (pow_le_pow_right₀ (by norm_num) hpq), le_trans he hee⟩

theorem fl32_of_rep (x : ℚ) (h : Representable 24 (-149) x) : fl32 x = x :=
  roundFloat_of_rep 24 (-149) x h

theorem fl64_of_rep (x : ℚ) (h : Representable 53 (-1074) x) : fl64 x = x :=
  roundFloat_of_rep 53 (-1074) x h

theorem fl64_of_rep32 (x : ℚ) (h : Representable 24 (-149) x) : fl64 x = x :=
  fl64_of_rep x (rep_mono 24 53 (-149) (-1074) x (by norm_num) (by norm_num) h)

theorem fl32_rep (x : ℚ) : Representable 24 (-149) (fl32 x) :=
  roundFloat_rep 24 (-149) x (by norm_num)

theorem fl64_rep (x : ℚ) : Representable 53 (-1074) (fl64 x) :=
  roundFloat_rep 53 (-1074) x (by norm_num)

theorem fl32_intCast (n : Int) (h : |n| < 2 ^ 24) : fl32 (n : ℚ) = n :=
  fl32_of_rep _ (rep_intCast 24 (-149) n h (by norm_num))

theorem fl64_intCast (n : Int) (h : |n| < 2 ^ 53) : fl64 (n : ℚ) = n :=
  fl64_of_rep _ (rep_intCast 53 (-1074) n h (by norm_num))

/-- A value of the format from 1 to `2^p` has its predecessor by 1 in the format. -/
theorem rep_sub_one (p : Nat) (emin : Int) (t : ℚ) (h : Representable p emin t)
    (h1 : 1 ≤ t) (h2 : t ≤ 2 ^ p) (he : emin ≤ 0) : Representable p emin (t - 1) := by
  obtain ⟨m, e, hx, hm, hee⟩ := h
  rcases le_or_lt 0 e with hc | hc
  · obtain ⟨d, hd⟩ : ∃ d : Nat, e = d := ⟨e.toNat, by omega⟩
    have hx2 : t = ((m * 2 ^ d : Int) : ℚ) := by
      rw [hx, hd, zpow_natCast]
      push_cast
      ring
    have h3 : (1 : Int) ≤ m * 2 ^ d := by
      have : ((1 : Int) : ℚ) ≤ ((m * 2 ^ d : Int) : ℚ) := by rw [← hx2]; simpa using h1
      exact_mod_cast this
    have h4 : m * 2 ^ d ≤ 2 ^ p := by
      have : ((m * 2 ^ d : Int) : ℚ) ≤ ((2 ^ p : Int) : ℚ) := by rw [← hx2]; simpa using h2
      exact_mod_cast this
    refine ⟨m * 2 ^ d - 1, 0, ?_, ?_, he⟩
    · rw [hx2]
      push_cast
      simp
    · rw [abs_lt]
      constructor <;> omega
  · obtain ⟨d, hd⟩ : ∃ d : Nat, e = -(d : Int) := ⟨(-e).toNat, by omega⟩
    have hpos : (0 : ℚ) < 2 ^ d := by positivity
    have hx2 : t = (m : ℚ) / 2 ^ d := by
      rw [hx, hd, zpow_neg, zpow_natCast]
      rfl
    have h3 : (2 : Int) ^ d ≤ m := by
      have : ((2 ^ d : Int) : ℚ) ≤ (m : ℚ) := by
        rw [hx2, le_div_iff₀ hpos] at h1
        push_cast
        linarith
      exact_mod_cast this
    have hdpos : (0 : Int) < 2 ^ d := by positivity
    have hmlt : m < 2 ^ p := lt_of_le_of_lt (le_abs_self m) hm
    refine ⟨m - 2 ^ d, e, ?_, ?_, hee⟩
    · rw [hx2, hd, zpow_neg, zpow_natCast]
      push_cast
      field_simp
    · rw [abs_lt]
      constructor <;> omega

/-- The fractional part of a non-negative value of the format is in the format. -/
theorem rep_fract (p : Nat) (emin : Int) (f : ℚ) (h : Representable p emin f) (h0 : 0 ≤ f) :
    Representable p emin (f - ⌊f⌋) := by
  obtain ⟨m, e, hx, hm, hee⟩ := h
  rcases le_or_lt 0 e with hc | hc
  · obtain ⟨d, hd⟩ : ∃ d : Nat, e = d := ⟨e.toNat, by omega⟩
    have hx2 : f = ((m * 2 ^ d : Int) : ℚ) := by
      rw [hx, hd, zpow_natCast]
      push_cast
      ring
    refine ⟨0, e, ?_, by simp, hee⟩
    rw [hx2, Int.floor_intCast]
    simp
  · obtain ⟨d, hd⟩ : ∃ d : Nat, e = -(d : Int) := ⟨(-e).toNat, by omega⟩
    have hpos : (0 : ℚ) < 2 ^ d := by positivity
    have hx2 : f = (m : ℚ) / 2 ^ d := by
      rw [hx, hd, zpow_neg, zpow_natCast]
      rfl
    have hfl0 : 0 ≤ ⌊f⌋ := Int.floor_nonneg.mpr h0
    have hfl : ((⌊f⌋ * 2 ^ d : Int) : ℚ) ≤ (m : ℚ) := by
      have h5 := Int.floor_le f
      have h6 : f * 2 ^ d = m := by rw [hx2]; field_simp
      push_cast
      calc (⌊f⌋ : ℚ) * 2 ^ d ≤ f * 2 ^ d := mul_le_mul_of_nonneg_right h5 (le_of_lt hpos)
        _ = m := h6
    have hfl2 : ⌊f⌋ * 2 ^ d ≤ m := by exact_mod_cast hfl
    have hdpos : (0 : Int) < 2 ^ d := by positivity
    have hnn : 0 ≤ ⌊f⌋ * 2 ^ d := mul_nonneg hfl0 (le_of_lt hdpos)
    have hmlt : m < 2 ^ p := lt_of_le_of_lt (le_abs_self m) hm
    refine ⟨m - ⌊f⌋ * 2 ^ d, e, ?_, ?_, hee⟩
    · rw [hd, zpow_neg, zpow_natCast]
      nth_rewrite 1 [hx2]
      push_cast
      field_simp
      ring
    · rw [abs_lt]
      constructor <;> omega

/-- A value of the `float` format that is at least `2^23` is an integer. -/
theorem rep_int_of_large (x : ℚ) (h : Representable 24 (-149) x) (hx : 2 ^ 23 ≤ x) :
    ∃ n : Int, x = n := by
  obtain ⟨m, e, hxe, hm, hee⟩ := h
  rcases le_or_lt 0 e with hc | hc
  · obtain ⟨d, hd⟩ : ∃ d : Nat, e = d := ⟨e.toNat, by omega⟩
    refine ⟨m * 2 ^ d, ?_⟩
    rw [hxe, hd, zpow_natCast]
    push_cast
    ring
  · exfalso
    have h1 : (2 : ℚ) ^ e ≤ 2 ^ (-1 : Int) := zpow_le_zpow_right₀ (by norm_num) (by omega)
    have h2 : (m : ℚ) < 2 ^ 24 := by
      have : m < 2 ^ 24 := lt_of_le_of_lt (le_abs_self m) hm
      exact_mod_cast this
    have hepos := two_zpow_pos e
    have h3 : (0 : ℚ) < m := by
      by_contra hneg
      rw [not_lt] at hneg
      have : (m : ℚ) * 2 ^ e ≤ 0 := mul_nonpos_of_nonpos_of_nonneg hneg (le_of_lt hepos)
      rw [← hxe] at this
      have : (0 : ℚ) < 2 ^ 23 := by norm_num
      linarith
    have h4 : (m : ℚ) * 2 ^ e < 2 ^ 24 * 2 ^ (-1 : Int) := by
      calc (m : ℚ) * 2 ^ e ≤ m * 2 ^ (-1 : Int) := mul_le_mul_of_nonneg_left h1 (le_of_lt h3)
        _ < 2 ^ 24 * 2 ^ (-1 : Int) := mul_lt_mul_of_pos_right h2 (by norm_num)
    rw [← hxe] at h4
    norm_num at h4 hx
    linarith


namespace AudioInst

/-! ## Mute policy -/

theorem audioMute_muted (emuInstances : List (Option AudioInst)) (a : AudioInst) :
    (audioMute emuInstances a).audioMuted
      = (decide (2 ≤ numEmuInstances emuInstances) &&
          ((decide (a.mpAudioMode = 1) && decide (0 < a.instanceID)) ||
            decide (a.mpAudioMode = 2))) := by
  unfold audioMute
  dsimp only
  by_cases hn : numEmuInstances emuInstances < 2
  · rw [if_pos hn]
    have h2 : ¬ (2 ≤ numEmuInstances emuInstances) := by omega
    simp [h2]
  · rw [if_neg hn]
    have h2 : 2 ≤ numEmuInstances emuInstances := by omega
    by_cases h1 : a.mpAudioMode = 1
    · rw [if_pos h1]
      by_cases hid : a.instanceID > 0
      · rw [if_pos hid]
        simp [h2, h1, hid]
      · rw [if_neg hid]
        have h3 : ¬ (0 < a.instanceID) := hid
        simp [h2, h1, h3]
    · rw [if_neg h1]
      by_cases h4 : a.mpAudioMode = 2
      · rw [if_pos h4]
        simp [h2, h4]
      · rw [if_neg h4]
        simp [h1, h4]

/-- C19: for an instance whose id is a slot number (not negative) and any instance
table, `audioMute` leaves `audioMuted` false when fewer than 2 instances exist or the
mode is 0; in mode 1 with at least 2 instances `audioMuted` is false for instance 0 and
true for every other instance. -/
theorem audioMute_fixed_instance (emuInstances : List (Option AudioInst)) (a : AudioInst)
    (hid : 0 ≤ a.instanceID) :
    ((numEmuInstances emuInstances < 2 ∨ a.mpAudioMode = 0) →
      (audioMute emuInstances a).audioMuted = false) ∧
    (a.mpAudioMode = 1 → 2 ≤ numEmuInstances emuInstances →
      (a.instanceID = 0 → (audioMute emuInstances a).audioMuted = false) ∧
      (a.instanceID ≠ 0 → (audioMute emuInstances a).audioMuted = true)) := by
  rw [audioMute_muted]
  refine ⟨?_, ?_⟩
  · rintro (h | h)
    · have h2 : ¬ (2 ≤ numEmuInstances emuInstances) := by omega
      simp [h2]
    · simp [h]
  · intro h1 h2
    refine ⟨?_, ?_⟩
    · intro h0
      simp [h1, h0]
    · intro h0
      have h3 : 0 < a.instanceID := by omega
      simp [h1, h2, h3]

/-- C19, evaluated: with two instances in mode 1, instance 1 is muted. -/
theorem audioMute_fixed_instance_witness :
    0 ≤ (sample 1 1).instanceID ∧
    (audioMute (twoInstances 1) (sample 1 1)).audioMuted = true :=
  ⟨by decide,
   ((audioMute_fixed_instance (twoInstances 1) (sample 1 1) (by decide)).2
      rfl (by decide)).2 (by decide)⟩

/-- C20, the code at the failing input: two instances in mode 2, instance 0 shown in
the focused window.  `audioMute` on the focused instance sets `audioMuted`; and when the
window loses the focus and gets it back, it is focused again and its instance is still
muted, because `onFocusIn` never lifts the mute. -/
theorem mode2_mutes_focused_instance :
    numEmuInstances (twoInstances 2) = 2 ∧
    (audioMute (twoInstances 2) (sample 0 2)).audioMuted = true ∧
    (onFocusIn (onFocusOut (twoInstances 2)
        { focused := true, emuInstance := sample 0 2 })).focused = true ∧
    (onFocusIn (onFocusOut (twoInstances 2)
        { focused := true, emuInstance := sample 0 2 })).emuInstance.audioMuted = true := by
  decide

end AudioInst

namespace AudioInst

/-! ## The carried fraction of `audioGetNumSamplesOut` -/

theorem fl32_sixty : fl32 60 = 60 := by
  simpa using fl32_intCast 60 (by norm_num)

theorem fl64_one : fl64 1 = 1 := by
  simpa using fl64_intCast 1 (by norm_num)

/-- The `double` part of `f_len_in` for a request of at most 4095 input samples at a
device rate below `2^24`: the product is exact and `(float)audioFreq` is `audioFreq`, so
one rounding of the quotient remains. -/
theorem fLenIn_eq (o : Int) (a : AudioInst) (ho : 0 ≤ o)
    (hb : o * 4201425 ≤ 4095 * 128 * a.audioFreq) (hf : 0 < a.audioFreq)
    (hf2 : a.audioFreq ≤ 16777215) :
    fLenIn o a
      = fl32 (fl32 (fl64 ((o : ℚ) * (4201425 / 128) / (a.audioFreq : ℚ)))
          + a.audioSampleFrac) := by
  have e1 : fl64 ((60 : ℚ) / 60) = 1 := by
    rw [div_self (by norm_num)]
    exact fl64_one
  have e2 : fl32 (a.audioFreq : ℚ) = a.audioFreq :=
    fl32_intCast _ (by rw [abs_lt]; constructor <;> omega)
  have e3 : fl64 ((o : ℚ) * (4201425 / 128)) = (o : ℚ) * (4201425 / 128) := by
    apply fl64_of_rep
    refine ⟨o * 4201425, -7, ?_, ?_, by norm_num⟩
    · push_cast
      norm_num
      ring
    · rw [abs_lt]
      constructor <;> omega
  unfold fLenIn
  simp only [fl32_sixty, e1, mul_one, e2, e3]

theorem exactLen_bounds (o F : Int) (ho : 0 ≤ o) (hb : o * 4201425 ≤ 4095 * 128 * F)
    (hf : 0 < F) :
    0 ≤ (o : ℚ) * (4201425 / 128) / (F : ℚ) ∧ (o : ℚ) * (4201425 / 128) / (F : ℚ) ≤ 4095 := by
  have hF : (0 : ℚ) < (F : ℚ) := by exact_mod_cast hf
  have hO : (0 : ℚ) ≤ (o : ℚ) := by exact_mod_cast ho
  have hB : (o : ℚ) * 4201425 ≤ 4095 * 128 * (F : ℚ) := by exact_mod_cast hb
  constructor
  · positivity
  · rw [div_le_iff₀ hF]
    linarith

theorem rep_4095 (p : Nat) (emin : Int) (hp : 12 ≤ p) (he : emin ≤ 0) :
    Representable p emin 4095 :=
  ⟨4095, 0, by norm_num, by
    have : (2 : Int) ^ 12 ≤ 2 ^ p := pow_le_pow_right₀ (by norm_num) hp
    rw [abs_lt]
    constructor <;> omega, he⟩

/-- One call, in `float`: what it returns and carries, and how far `f_len_in` is from
the exact length plus the carried fraction. -/
theorem audioGetNumSamplesOut_float (o : Int) (a : AudioInst) (ho : 0 ≤ o)
    (hb : o * 4201425 ≤ 4095 * 128 * a.audioFreq) (hf : 0 < a.audioFreq)
    (hf2 : a.audioFreq ≤ 16777215)
    (hr : 0 ≤ a.audioSampleFrac ∧ a.audioSampleFrac < 1) :
    ((audioGetNumSamplesOut o a).1 : ℚ) + (audioGetNumSamplesOut o a).2.audioSampleFrac
      = fLenIn o a ∧
    (0 ≤ (audioGetNumSamplesOut o a).2.audioSampleFrac ∧
      (audioGetNumSamplesOut o a).2.audioSampleFrac < 1) ∧
    (0 ≤ (audioGetNumSamplesOut o a).1 ∧ (audioGetNumSamplesOut o a).1 ≤ 4096) ∧
    |fLenIn o a - ((o : ℚ) * (4201425 / 128) / (a.audioFreq : ℚ) + a.audioSampleFrac)|
      ≤ 1 / 2048 ∧
    (audioGetNumSamplesOut o a).2.audioFreq = a.audioFreq := by
  obtain ⟨hE0, hE1⟩ := exactLen_bounds o a.audioFreq ho hb hf
  have hfl := fLenIn_eq o a ho hb hf hf2
  generalize (o : ℚ) * (4201425 / 128) / (a.audioFreq : ℚ) = E at hE0 hE1 hfl
  -- the double quotient
  have hD0 : 0 ≤ fl64 E := roundFloat_nonneg 53 (-1074) E hE0
  have hD1 : fl64 E ≤ 4095 :=
    roundFloat_le_of_le 53 (-1074) E 4095 (rep_4095 53 (-1074) (by norm_num) (by norm_num))
      (by norm_num) hE1
  have hDe : |fl64 E - E| ≤ 2 ^ ((12 : Int) - (53 : Nat)) / 2 :=
    roundFloat_error 53 (-1074) E 12 (by rw [abs_of_nonneg hE0]; norm_num; linarith)
      (by norm_num)
  -- its store to the float
  have hA0 : 0 ≤ fl32 (fl64 E) := roundFloat_nonneg 24 (-149) _ hD0
  have hA1 : fl32 (fl64 E) ≤ 4095 :=
    roundFloat_le_of_le 24 (-149) _ 4095 (rep_4095 24 (-149) (by norm_num) (by norm_num))
      (by norm_num) hD1
  have hAe : |fl32 (fl64 E) - fl64 E| ≤ 2 ^ ((12 : Int) - (24 : Nat)) / 2 :=
    roundFloat_error 24 (-149) _ 12 (by rw [abs_of_nonneg hD0]; norm_num; linarith)
      (by norm_num)
  -- the float addition of the carried fraction
  have hS0 : 0 ≤ fl32 (fl64 E) + a.audioSampleFrac := by linarith [hr.1]
  have hS1 : fl32 (fl64 E) + a.audioSampleFrac < 4096 := by linarith [hr.2]
  have hF0 : 0 ≤ fLenIn o a := by
    rw [hfl]
    exact roundFloat_nonneg 24 (-149) _ hS0
  have hF1 : fLenIn o a ≤ 4096 := by
    rw [hfl]
    exact roundFloat_le_of_le 24 (-149) _ 4096
      ⟨4096, 0, by norm_num, by norm_num, by norm_num⟩ (by norm_num) (le_of_lt hS1)
  have hFe : |fLenIn o a - (fl32 (fl64 E) + a.audioSampleFrac)|
      ≤ 2 ^ ((12 : Int) - (24 : Nat)) / 2 := by
    rw [hfl]
    exact roundFloat_error 24 (-149) _ 12 (by rw [abs_of_nonneg hS0]; norm_num; linarith)
      (by norm_num)
  have hFrep : Representable 24 (-149) (fLenIn o a) := by
    rw [hfl]
    exact fl32_rep _
  -- the floor and the new fraction
  have hn0 : 0 ≤ ⌊fLenIn o a⌋ := Int.floor_nonneg.mpr hF0
  have hn1 : ⌊fLenIn o a⌋ ≤ 4096 := by
    have : ⌊fLenIn o a⌋ ≤ ⌊(4096 : ℚ)⌋ := Int.floor_mono hF1
    have e : ⌊(4096 : ℚ)⌋ = 4096 := by simp
    omega
  have en : fl32 ((⌊fLenIn o a⌋ : Int) : ℚ) = ⌊fLenIn o a⌋ :=
    fl32_intCast _ (by rw [abs_lt]; constructor <;> omega)
  have er : fl32 (fLenIn o a - fl32 ((⌊fLenIn o a⌋ : Int) : ℚ))
      = fLenIn o a - ⌊fLenIn o a⌋ := by
    rw [en]
    exact fl32_of_rep _ (rep_fract 24 (-149) _ hFrep hF0)
  have hfloor1 := Int.floor_le (fLenIn o a)
  have hfloor2 := Int.lt_floor_add_one (fLenIn o a)
  have h1 : (audioGetNumSamplesOut o a).1 = ⌊fLenIn o a⌋ := rfl
  have h2 : (audioGetNumSamplesOut o a).2.audioSampleFrac
      = fl32 (fLenIn o a - fl32 ((⌊fLenIn o a⌋ : Int) : ℚ)) := rfl
  rw [h1, h2, er]
  refine ⟨by ring, ⟨by linarith, by linarith⟩, ⟨hn0, hn1⟩, ?_, rfl⟩
  have p1 : (2 : ℚ) ^ ((12 : Int) - (53 : Nat)) / 2 ≤ 1 / 8192 := by norm_num
  have p2 : (2 : ℚ) ^ ((12 : Int) - (24 : Nat)) / 2 = 1 / 8192 := by norm_num
  rw [p2] at hAe hFe
  have hDe2 := le_trans hDe p1
  rw [abs_le] at hDe2 hAe hFe ⊢
  constructor <;> linarith [hDe2.1, hDe2.2, hAe.1, hAe.2, hFe.1, hFe.2]

/-- A run of calls, in `float`: the carried fraction stays in `[0, 1)`, every count is
from 0 to 4096, and the counts plus the carried fraction follow the exact total length
within `1/2048` per call. -/
theorem numSamplesRun_float (os : List Int) :
    ∀ (a : AudioInst), 0 < a.audioFreq → a.audioFreq ≤ 16777215 →
      (0 ≤ a.audioSampleFrac ∧ a.audioSampleFrac < 1) →
      (∀ o ∈ os, 0 ≤ o ∧ o * 4201425 ≤ 4095 * 128 * a.audioFreq) →
      (0 ≤ (numSamplesRun os a).2.audioSampleFrac ∧
        (numSamplesRun os a).2.audioSampleFrac < 1) ∧
      (∀ c ∈ (numSamplesRun os a).1, 0 ≤ c ∧ c ≤ 4096) ∧
      |(((numSamplesRun os a).1.sum : Int) : ℚ) + (numSamplesRun os a).2.audioSampleFrac
          - (((os.sum : Int) : ℚ) * (4201425 / 128) / (a.audioFreq : ℚ) + a.audioSampleFrac)|
        ≤ (os.length : ℚ) / 2048 := by
  induction os with
  | nil =>
    intro a _ _ hr _
    refine ⟨hr, ?_, ?_⟩
    · intro c hc
      simp [numSamplesRun] at hc
    · simp [numSamplesRun]
  | cons o os ih =>
    intro a hf hf2 hr hos
    obtain ⟨ho, hb⟩ := hos o (List.mem_cons_self _ _)
    obtain ⟨c1, c2, c3, c4, c5⟩ := audioGetNumSamplesOut_float o a ho hb hf hf2 hr
    obtain ⟨i1, i2, i3⟩ := ih (audioGetNumSamplesOut o a).2 (by rw [c5]; exact hf)
      (by rw [c5]; exact hf2) c2
      (fun x hx => by rw [c5]; exact hos x (List.mem_cons_of_mem _ hx))
    rw [c5] at i3
    refine ⟨i1, ?_, ?_⟩
    · intro c hc
      simp only [numSamplesRun, List.mem_cons] at hc
      rcases hc with rfl | hc
      · exact c3
      · exact i2 c hc
    · simp only [numSamplesRun, List.sum_cons, List.length_cons, Int.cast_add, Nat.cast_add,
        Nat.cast_one]
      rw [← c1] at c4
      rw [abs_le] at i3 c4 ⊢
      have e : (((o : Int) : ℚ) + ((os.sum : Int) : ℚ)) * (4201425 / 128) / (a.audioFreq : ℚ)
          = (o : ℚ) * (4201425 / 128) / (a.audioFreq : ℚ)
            + ((os.sum : Int) : ℚ) * (4201425 / 128) / (a.audioFreq : ℚ) := by ring
      rw [e]
      constructor <;> linarith [i3.1, i3.2, c4.1, c4.2]

theorem numSamplesRun_single (o : Int) (a : AudioInst) :
    (numSamplesRun [o] a).1.sum = ⌊fLenIn o a⌋ + 0 := rfl

theorem fLenIn_4079 :
    fLenIn 4079 { sample 0 0 with audioFreq := 44100 } = 3036 := by
  have hfl := fLenIn_eq 4079 { sample 0 0 with audioFreq := 44100 } (by norm_num)
    (by norm_num) (by norm_num) (by norm_num)
  have e0 : ({ sample 0 0 with audioFreq := 44100 } : AudioInst).audioSampleFrac = 0 := rfl
  have e1 : ((({ sample 0 0 with audioFreq := 44100 } : AudioInst).audioFreq : Int) : ℚ)
      = 44100 := by norm_num
  rw [e0, e1, add_zero] at hfl
  have hE1 : ((4079 : Int) : ℚ) * (4201425 / 128) / 44100 ≤ 3036 := by norm_num
  have hE2 : (3036 : ℚ) - 1 / 16384 ≤ ((4079 : Int) : ℚ) * (4201425 / 128) / 44100 := by
    norm_num
  generalize ((4079 : Int) : ℚ) * (4201425 / 128) / 44100 = E at hfl hE1 hE2
  have hD1 : fl64 E ≤ 3036 :=
    roundFloat_le_of_le 53 (-1074) E 3036 ⟨3036, 0, by norm_num, by norm_num, by norm_num⟩
      (by norm_num) hE1
  have hD2 : (3036 : ℚ) - 1 / 16384 ≤ fl64 E :=
    le_roundFloat_of_le 53 (-1074) E _
      ⟨49741823, -14, by norm_num, by norm_num, by norm_num⟩ (by norm_num) hE2
  have hA : fl32 (fl64 E) = 3036 := by
    have := roundFloat_eq_of_near 24 (-149) (fl64 E) 11 (-12) 12435456
      (by norm_num; linarith) (by norm_num; linarith) (by norm_num) (by norm_num)
      (by norm_num; linarith) (by norm_num; linarith)
    unfold fl32
    rw [this]
    norm_num
  rw [hfl, hA]
  simpa using fl32_intCast 3036 (by norm_num)

end AudioInst

namespace AudioInst

/-! ## Resampling -/

theorem rep24_two_pow : Representable 24 (-149) (2 ^ 24) :=
  ⟨2 ^ 23, 1, by norm_num, by norm_num, by norm_num⟩

theorem timerTurn_exact (t : ℚ) (pos : Nat) (ht : Representable 24 (-149) t) (h1 : 1 ≤ t)
    (h2 : t ≤ 2 ^ 24) : timerTurn (t, pos) = (t - 1, pos + 1) := by
  have hr := rep_sub_one 24 (-149) t ht h1 h2 (by norm_num)
  unfold timerTurn
  rw [fl64_of_rep32 _ hr, fl32_of_rep _ hr]

theorem whileTimer_some (fuel : Nat) :
    ∀ (t : ℚ) (pos : Nat), Representable 24 (-149) t → t ≤ 2 ^ 24 → ⌊t⌋.toNat ≤ fuel →
      ∃ st, whileTimer fuel (t, pos) = some st ∧ st.1 < 1 := by
  induction fuel with
  | zero =>
    intro t pos _ _ hf
    have h1 : ⌊t⌋ ≤ 0 := by omega
    have h2 := Int.lt_floor_add_one t
    have h3 : ((⌊t⌋ : Int) : ℚ) ≤ 0 := by exact_mod_cast h1
    have h4 : ¬ (t ≥ 1) := by
      intro h
      linarith
    exact ⟨(t, pos), by simp only [whileTimer, if_neg h4], by
      show t < 1
      linarith⟩
  | succ fuel ih =>
    intro t pos ht h2 hf
    by_cases h1 : t ≥ 1
    · have hr := rep_sub_one 24 (-149) t ht h1 h2 (by norm_num)
      have e : ⌊t - 1⌋ = ⌊t⌋ - 1 := Int.floor_sub_one t
      have h5 : (1 : Int) ≤ ⌊t⌋ := Int.le_floor.mpr (by exact_mod_cast h1)
      obtain ⟨st, hst, hlt⟩ := ih (t - 1) (pos + 1) hr (by linarith) (by rw [e]; omega)
      refine ⟨st, ?_, hlt⟩
      simp only [whileTimer]
      rw [if_pos h1, timerTurn_exact t pos ht h1 h2]
      exact hst
    · exact ⟨(t, pos), by simp only [whileTimer]; rw [if_neg h1], lt_of_not_ge h1⟩

theorem advanceTimer_some (res_incr t : ℚ) (pos : Nat) (hincr : res_incr ≤ 2 ^ 24 - 1)
    (ht : t < 1) : ∃ st, advanceTimer res_incr (t, pos) = some st ∧ st.1 < 1 := by
  have h1 : fl32 (t + res_incr) ≤ 2 ^ 24 :=
    roundFloat_le_of_le 24 (-149) _ _ rep24_two_pow (by norm_num) (by linarith)
  exact whileTimer_some _ (fl32 (t + res_incr)) pos (fl32_rep _) h1 le_rfl

theorem resIncr_le (inlen outlen : Int) (hin : 1 ≤ inlen) (hin2 : inlen ≤ 16777215)
    (hout : 1 ≤ outlen) : resIncr inlen outlen ≤ 2 ^ 24 - 1 := by
  have e1 : fl32 (inlen : ℚ) = inlen := fl32_intCast inlen (by rw [abs_lt]; constructor <;> omega)
  have h1 : (1 : ℚ) ≤ fl32 (outlen : ℚ) :=
    le_roundFloat_of_le 24 (-149) _ 1 ⟨1, 0, by norm_num, by norm_num, by norm_num⟩
      (by norm_num) (by exact_mod_cast hout)
  have h2 : (0 : ℚ) ≤ (inlen : ℚ) := by exact_mod_cast (by omega : (0 : Int) ≤ inlen)
  have h3 : (inlen : ℚ) ≤ 16777215 := by exact_mod_cast hin2
  have h4 : (inlen : ℚ) / fl32 (outlen : ℚ) ≤ inlen := div_le_self h2 h1
  unfold resIncr
  rw [e1]
  have hrep : Representable 24 (-149) (2 ^ 24 - 1) :=
    ⟨16777215, 0, by norm_num, by norm_num, by norm_num⟩
  exact roundFloat_le_of_le 24 (-149) _ _ hrep (by norm_num) (by norm_num; linarith)

theorem cround_intCast (V : Int) : cround (V : ℚ) = V := by
  unfold cround
  split_ifs
  · rw [Int.floor_eq_iff]
    constructor <;> linarith
  · rw [Int.ceil_eq_iff]
    constructor <;> linarith

theorem toS16_scaled (V volume : Int) (hV : -32768 ≤ V ∧ V ≤ 32767)
    (hvol : 0 ≤ volume ∧ volume ≤ 256) :
    toS16 ((V * volume) >>> (8 : Nat)) = (V * volume) >>> (8 : Nat) := by
  have e : (V * volume) >>> (8 : Nat) = (V * volume) / 256 := by
    rw [Int.shiftRight_eq_div_pow]
    rfl
  rw [e]
  have h1 : -32768 * 256 ≤ V * volume := by nlinarith [hV.1, hV.2, hvol.1, hvol.2]
  have h2 : V * volume ≤ 32767 * 256 := by nlinarith [hV.1, hV.2, hvol.1, hvol.2]
  unfold toS16
  generalize V * volume = p at h1 h2
  omega

/-- With both pairs of a turn equal to `V` the interpolated `float` is `V`, whatever
the timer. -/
theorem interpolate_const (V : Int) (hV : -32768 ≤ V ∧ V ≤ 32767) (t : ℚ) :
    fl32 (fl32 (V : ℚ) + fl32 (fl32 ((V - V : Int) : ℚ) * t)) = V := by
  have e1 : fl32 (V : ℚ) = V := fl32_intCast V (by rw [abs_lt]; constructor <;> omega)
  have e0 : fl32 0 = 0 := roundFloat_zero 24 (-149)
  rw [sub_self, Int.cast_zero, e0, zero_mul, e0, add_zero, e1, e1]

theorem resampleLoop_const (inbuf : Nat → Int) (res_incr : ℚ) (volume V : Int)
    (hV : -32768 ≤ V ∧ V ≤ 32767) (hincr : res_incr ≤ 2 ^ 24 - 1) (n : Nat) :
    ∀ (i : Nat) (st : ℚ × Nat) (outbuf : Nat → Int), st.1 < 1 →
      (∀ p ∈ resamplePositions res_incr n st, ∀ k < 4, inbuf (p * 2 + k) = V) →
      (resampleLoop inbuf res_incr volume n i st outbuf).2 = true ∧
      (resamplePositions res_incr n st).length = n ∧
      ∀ j, (resampleLoop inbuf res_incr volume n i st outbuf).1 j
        = if i * 2 ≤ j ∧ j < (i + n) * 2 then toS16 ((V * volume) >>> (8 : Nat)) else outbuf j := by
  induction n with
  | zero =>
    intro i st outbuf _ _
    refine ⟨rfl, rfl, fun j => ?_⟩
    have : ¬ (i * 2 ≤ j ∧ j < (i + 0) * 2) := by omega
    simp only [resampleLoop, if_neg this]
  | succ n ih =>
    intro i st outbuf hlt h
    obtain ⟨t, p⟩ := st
    have hp : ∀ k < 4, inbuf (p * 2 + k) = V :=
      h p (by simp [resamplePositions])
    have h0 : inbuf (p * 2) = V := hp 0 (by omega)
    have h1 : inbuf (p * 2 + 1) = V := hp 1 (by omega)
    have h2 : inbuf (p * 2 + 2) = V := hp 2 (by omega)
    have h3 : inbuf (p * 2 + 3) = V := hp 3 (by omega)
    obtain ⟨st2, hadv, hlt2⟩ := advanceTimer_some res_incr t p hincr hlt
    have hpos : resamplePositions res_incr (n + 1) (t, p)
        = p :: resamplePositions res_incr n st2 := by
      simp only [resamplePositions, hadv]
    obtain ⟨i1, i2, i3⟩ := ih (i + 1) st2
      (Function.update (Function.update outbuf (i * 2) (toS16 ((V * volume) >>> (8 : Nat))))
        (i * 2 + 1) (toS16 ((V * volume) >>> (8 : Nat)))) hlt2
      (fun q hq => h q (by rw [hpos]; exact List.mem_cons_of_mem _ hq))
    have hloop : resampleLoop inbuf res_incr volume (n + 1) i (t, p) outbuf
        = resampleLoop inbuf res_incr volume n (i + 1) st2
            (Function.update (Function.update outbuf (i * 2)
              (toS16 ((V * volume) >>> (8 : Nat))))
              (i * 2 + 1) (toS16 ((V * volume) >>> (8 : Nat)))) := by
      simp only [resampleLoop, hadv, h0, h1, h2, h3, interpolate_const V hV, cround_intCast]
    rw [hloop, hpos]
    refine ⟨i1, by rw [List.length_cons, i2], fun j => ?_⟩
    rw [i3 j]
    by_cases c1 : (i + 1) * 2 ≤ j ∧ j < (i + 1 + n) * 2
    · have c2 : i * 2 ≤ j ∧ j < (i + (n + 1)) * 2 := by omega
      rw [if_pos c1, if_pos c2]
    · rw [if_neg c1]
      by_cases c3 : j = i * 2 + 1
      · have c2 : i * 2 ≤ j ∧ j < (i + (n + 1)) * 2 := by omega
        rw [if_pos c2, c3, Function.update_same]
      · rw [Function.update_noteq c3]
        by_cases c4 : j = i * 2
        · have c2 : i * 2 ≤ j ∧ j < (i + (n + 1)) * 2 := by omega
          rw [if_pos c2, c4, Function.update_same]
        · rw [Function.update_noteq c4]
          have c2 : ¬ (i * 2 ≤ j ∧ j < (i + (n + 1)) * 2) := by omega
          rw [if_neg c2]

/-- A timer that a turn of the `while` loop leaves where it is never exits the loop. -/
theorem whileTimer_stuck (t : ℚ) (h1 : t ≥ 1) (hs : fl32 (fl64 (t - 1)) = t) :
    ∀ (fuel pos : Nat), whileTimer fuel (t, pos) = none := by
  intro fuel
  induction fuel with
  | zero =>
    intro pos
    simp only [whileTimer]
    rw [if_pos h1]
  | succ fuel ih =>
    intro pos
    have e : timerTurn (t, pos) = (t, pos + 1) := by
      unfold timerTurn
      rw [hs]
    simp only [whileTimer]
    rw [if_pos h1, e]
    exact ih (pos + 1)

/-- The turns given to the `while` loop by `advanceTimer` are enough: from a `float`
timer, a loop that has not exited after `⌊res_timer⌋` turns never exits. -/
theorem whileTimer_none (n : Nat) :
    ∀ (t : ℚ) (pos : Nat), Representable 24 (-149) t → ⌊t⌋.toNat ≤ n →
      whileTimer n (t, pos) = none → ∀ fuel, whileTimer fuel (t, pos) = none := by
  induction n with
  | zero =>
    intro t pos _ hf h
    exfalso
    have h1 : ⌊t⌋ ≤ 0 := by omega
    have h2 := Int.lt_floor_add_one t
    have h3 : ((⌊t⌋ : Int) : ℚ) ≤ 0 := by exact_mod_cast h1
    have h4 : ¬ (t ≥ 1) := by
      intro h
      linarith
    simp only [whileTimer, if_neg h4] at h
    exact Option.some_ne_none _ h
  | succ n ih =>
    intro t pos ht hf h
    by_cases h1 : t ≥ 1
    · have h0 : (0 : ℚ) ≤ t := by linarith
      have hT1 : fl64 (t - 1) ≤ t :=
        roundFloat_le_of_le 53 (-1074) _ _
          (rep_mono 24 53 (-149) (-1074) t (by norm_num) (by norm_num) ht) h0 (by linarith)
      have hT : fl32 (fl64 (t - 1)) ≤ t := roundFloat_le_of_le 24 (-149) _ _ ht h0 hT1
      have hstep : whileTimer n (fl32 (fl64 (t - 1)), pos + 1) = none := by
        simp only [whileTimer] at h
        rw [if_pos h1] at h
        exact h
      rcases eq_or_lt_of_le hT with hs | hs
      · exact fun fuel => whileTimer_stuck t h1 hs fuel pos
      · have h5 : (1 : Int) ≤ ⌊t⌋ := Int.le_floor.mpr (by exact_mod_cast h1)
        have hfl : ⌊fl32 (fl64 (t - 1))⌋.toNat ≤ n := by
          rcases le_or_lt t (2 ^ 24) with h2 | h2
          · have e := timerTurn_exact t pos ht h1 h2
            unfold timerTurn at e
            have e1 : fl32 (fl64 (t - 1)) = t - 1 := congrArg Prod.fst e
            rw [e1, Int.floor_sub_one]
            omega
          · obtain ⟨a, ha⟩ := rep_int_of_large t ht (by norm_num at h2 ⊢; linarith)
            have ha2 : (2 : Int) ^ 24 < a := by
              have : ((2 ^ 24 : Int) : ℚ) < (a : ℚ) := by rw [← ha]; push_cast; exact h2
              exact_mod_cast this
            have hge1 : (2 : ℚ) ^ 24 ≤ fl64 (t - 1) :=
              le_roundFloat_of_le 53 (-1074) _ _
                (rep_mono 24 53 (-149) (-1074) _ (by norm_num) (by norm_num) rep24_two_pow)
                (by norm_num) (by
                  rw [ha]
                  have : ((2 ^ 24 : Int) : ℚ) ≤ ((a - 1 : Int) : ℚ) := by
                    exact_mod_cast (by omega : (2 : Int) ^ 24 ≤ a - 1)
                  push_cast at this
                  exact this)
            have hge : (2 : ℚ) ^ 24 ≤ fl32 (fl64 (t - 1)) :=
              le_roundFloat_of_le 24 (-149) _ _ rep24_two_pow (by norm_num) hge1
            obtain ⟨b, hb⟩ := rep_int_of_large _ (fl32_rep (fl64 (t - 1)))
              (by norm_num at hge ⊢; linarith)
            rw [hb] at hs ⊢
            rw [ha] at hs
            have hba : b < a := by exact_mod_cast hs
            rw [Int.floor_intCast]
            have hta : ⌊t⌋ = a := by rw [ha, Int.floor_intCast]
            omega
        have hnone := ih _ (pos + 1) (fl32_rep _) hfl hstep
        intro fuel
        cases fuel with
        | zero =>
          simp only [whileTimer]
          rw [if_pos h1]
        | succ fuel =>
          simp only [whileTimer]
          rw [if_pos h1]
          exact hnone fuel
    · exfalso
      simp only [whileTimer, if_neg h1] at h
      exact Option.some_ne_none _ h

theorem fl32_16777220 : fl32 16777220 = 16777220 :=
  fl32_of_rep _ ⟨8388610, 1, by norm_num, by norm_num, by norm_num⟩

theorem resIncr_large : resIncr 16777220 1 = 16777220 := by
  have e1 : fl32 ((1 : Int) : ℚ) = 1 := by
    simpa using fl32_intCast 1 (by norm_num)
  unfold resIncr
  rw [e1]
  norm_num
  rw [fl32_16777220, fl32_16777220]

theorem timer_large : fl32 (-1 / 2 + 16777220) = 16777220 := by
  have := roundFloat_eq_of_near 24 (-149) (-1 / 2 + 16777220) 24 1 8388610 (by norm_num)
    (by norm_num) (by norm_num) (by norm_num) (by norm_num) (by norm_num)
  unfold fl32
  rw [this]
  norm_num

theorem timerTurn_large : fl32 (fl64 (16777220 - 1)) = 16777220 := by
  have e1 : fl64 (16777220 - 1) = 16777219 := by
    have := fl64_intCast 16777219 (by norm_num)
    norm_num at this ⊢
    exact this
  have := roundFloat_eq_of_tie 24 (-149) 16777219 24 1 8388610 (by norm_num) (by norm_num)
    (by norm_num) (by norm_num) (by norm_num) (Or.inr (by norm_num))
  rw [e1]
  unfold fl32
  rw [this]
  norm_num

theorem whileTimer_large (fuel pos : Nat) :
    whileTimer fuel (fl32 (-1 / 2 + resIncr 16777220 1), pos) = none := by
  rw [resIncr_large, timer_large]
  exact whileTimer_stuck 16777220 (by norm_num) timerTurn_large fuel pos

theorem advanceTimer_large : advanceTimer (resIncr 16777220 1) (-1 / 2, 0) = none :=
  whileTimer_large _ 0

theorem resampleLoop_none (inbuf : Nat → Int) (res_incr : ℚ) (volume : Int) (n i : Nat)
    (st : ℚ × Nat) (outbuf : Nat → Int) (h : advanceTimer res_incr st = none) :
    (resampleLoop inbuf res_incr volume (n + 1) i st outbuf).2 = false := by
  obtain ⟨t, p⟩ := st
  simp only [resampleLoop, h]

theorem audioResampleReturns_eq (inbuf : Nat → Int) (inlen : Int) (outbuf : Nat → Int)
    (outlen volume : Int) :
    audioResampleReturns inbuf inlen outbuf outlen volume
      = (resampleLoop inbuf (resIncr inlen outlen) volume outlen.toNat 0 (-1 / 2, 0) outbuf).2 :=
  rfl

theorem audioResample_eq (inbuf : Nat → Int) (inlen : Int) (outbuf : Nat → Int)
    (outlen volume : Int) :
    audioResample inbuf inlen outbuf outlen volume
      = (resampleLoop inbuf (resIncr inlen outlen) volume outlen.toNat 0 (-1 / 2, 0) outbuf).1 :=
  rfl

theorem toNat_one : (1 : Int).toNat = 0 + 1 := rfl

theorem resampleLoop_large (inbuf outbuf : Nat → Int) (volume : Int) :
    (resampleLoop inbuf (resIncr 16777220 1) volume (1 : Int).toNat 0 (-1 / 2, 0) outbuf).2
      = false := by
  rw [toNat_one]
  exact resampleLoop_none inbuf _ volume 0 0 _ outbuf advanceTimer_large

theorem audioResampleReturns_large (inbuf outbuf : Nat → Int) (volume : Int) :
    audioResampleReturns inbuf 16777220 outbuf 1 volume = false :=
  (audioResampleReturns_eq inbuf 16777220 outbuf 1 volume).trans
    (resampleLoop_large inbuf outbuf volume)

end AudioInst

namespace AudioInst

/-! ## Underrun policy of `audioCallback` -/

theorem copyPair_apply (buf : Nat → Int) (i last k : Nat) :
    copyPair buf i last k
      = if k = i * 2 + 1 then buf (last * 2 + 1)
        else if k = i * 2 then buf (last * 2) else buf k := by
  unfold copyPair
  by_cases h1 : k = i * 2 + 1
  · rw [if_pos h1, h1, Function.update_same]
  · rw [if_neg h1, Function.update_noteq h1]
    by_cases h2 : k = i * 2
    · rw [if_pos h2, h2, Function.update_same]
    · rw [if_neg h2, Function.update_noteq h2]

theorem padLoop_apply (last n : Nat) :
    ∀ (i : Nat) (buf : Nat → Int), last < i → ∀ k,
      padLoop last n i buf k
        = if i * 2 ≤ k ∧ k < (i + n) * 2 then buf (last * 2 + k % 2) else buf k := by
  induction n with
  | zero =>
    intro i buf _ k
    have : ¬ (i * 2 ≤ k ∧ k < (i + 0) * 2) := by omega
    simp only [padLoop, if_neg this]
  | succ n ih =>
    intro i buf hlast k
    simp only [padLoop]
    rw [ih (i + 1) _ (by omega) k]
    by_cases c1 : (i + 1) * 2 ≤ k ∧ k < (i + 1 + n) * 2
    · have c2 : i * 2 ≤ k ∧ k < (i + (n + 1)) * 2 := by omega
      rw [if_pos c1, if_pos c2, copyPair_apply, if_neg (by omega), if_neg (by omega)]
    · rw [if_neg c1, copyPair_apply]
      by_cases h1 : k = i * 2 + 1
      · have c2 : i * 2 ≤ k ∧ k < (i + (n + 1)) * 2 := by omega
        rw [if_pos h1, if_pos c2]
        congr 1
        omega
      · rw [if_neg h1]
        by_cases h2 : k = i * 2
        · have c2 : i * 2 ≤ k ∧ k < (i + (n + 1)) * 2 := by omega
          rw [if_pos h2, if_pos c2]
          congr 1
          omega
        · have c2 : ¬ (i * 2 ≤ k ∧ k < (i + (n + 1)) * 2) := by omega
          rw [if_neg h2, if_neg c2]

theorem audioGetNumSamplesOut_fields (o : Int) (a : AudioInst) :
    (audioGetNumSamplesOut o a).2.audioMuted = a.audioMuted ∧
    (audioGetNumSamplesOut o a).2.audioVolume = a.audioVolume ∧
    (audioGetNumSamplesOut o a).2.hasConsole = a.hasConsole ∧
    (audioGetNumSamplesOut o a).2.audioBufSize = a.audioBufSize :=
  ⟨rfl, rfl, rfl, rfl⟩

theorem callbackRead_inst (ReadOutput : (Nat → Int) → Int → (Nat → Int) × Int) (o : Int)
    (inst : AudioInst) (buf_in : Nat → Int) (len_in : Int) :
    callbackRead ReadOutput (audioGetNumSamplesOut o inst).2 buf_in len_in
      = callbackRead ReadOutput inst buf_in len_in := by
  unfold callbackRead
  rw [(audioGetNumSamplesOut_fields o inst).2.2.1]

theorem audioCallback_eq (ReadOutput : (Nat → Int) → Int → (Nat → Int) × Int)
    (inst : AudioInst) (buf_in stream : Nat → Int) (len : Nat) (len_in num_in : Int)
    (buf : Nat → Int)
    (hlen : callbackLenIn inst ((len / 4 : Nat) : Int) = len_in)
    (hrd : callbackRead ReadOutput inst buf_in len_in = (buf, num_in)) :
    audioCallback ReadOutput inst buf_in stream len
      = if num_in < 1 || inst.audioMuted then
          { inst := (audioGetNumSamplesOut ((len / 4 : Nat) : Int) inst).2, buf_in := buf,
            stream := fun j => if j < len / 4 * 2 then 0 else stream j }
        else if num_in < len_in - 6 then
          { inst := (audioGetNumSamplesOut ((len / 4 : Nat) : Int) inst).2,
            buf_in := padLoop (num_in - 1).toNat (len_in - 6 - num_in).toNat num_in.toNat buf,
            stream := audioResample
              (padLoop (num_in - 1).toNat (len_in - 6 - num_in).toNat num_in.toNat buf)
              (len_in - 6) stream ((len / 4 : Nat) : Int) inst.audioVolume }
        else
          { inst := (audioGetNumSamplesOut ((len / 4 : Nat) : Int) inst).2, buf_in := buf,
            stream := audioResample buf num_in stream ((len / 4 : Nat) : Int)
              inst.audioVolume } := by
  have hrd2 : callbackRead ReadOutput (audioGetNumSamplesOut ((len / 4 : Nat) : Int) inst).2
      buf_in len_in = (buf, num_in) := (callbackRead_inst ReadOutput _ inst buf_in len_in).trans hrd
  obtain ⟨hm, hv, _, _⟩ := audioGetNumSamplesOut_fields ((len / 4 : Nat) : Int) inst
  unfold audioCallback
  dsimp only
  rw [hlen, hrd2, hm, hv]

/-- C18: in `audioCallback`, with `len_in` pairs required and `num_in` pairs read into
`buf`: if `num_in < 1` or the instance is muted, the whole output stream (`len / 4`
stereo samples) is zero; otherwise if `num_in < len_in - 6`, every input pair at the
positions `num_in .. len_in - 7` is set to the last pair read (position `num_in - 1`),
the other pairs are left as read, and the resampler is given exactly `len_in - 6`
pairs; otherwise the resampler is given the `num_in` pairs unchanged. -/
theorem callback_underrun_policy (ReadOutput : (Nat → Int) → Int → (Nat → Int) × Int)
    (inst : AudioInst) (buf_in stream : Nat → Int) (len : Nat) (len_in num_in : Int)
    (buf : Nat → Int)
    (hlen : callbackLenIn inst ((len / 4 : Nat) : Int) = len_in)
    (hrd : callbackRead ReadOutput inst buf_in len_in = (buf, num_in)) :
    ((num_in < 1 ∨ inst.audioMuted = true) →
      (∀ j, j < len / 4 * 2 →
        (audioCallback ReadOutput inst buf_in stream len).stream j = 0) ∧
      (∀ j, len / 4 * 2 ≤ j →
        (audioCallback ReadOutput inst buf_in stream len).stream j = stream j)) ∧
    (¬ (num_in < 1 ∨ inst.audioMuted = true) → num_in < len_in - 6 →
      (∀ i : Nat, num_in ≤ (i : Int) → (i : Int) < len_in - 6 →
        (audioCallback ReadOutput inst buf_in stream len).buf_in (i * 2)
          = buf ((num_in - 1).toNat * 2) ∧
        (audioCallback ReadOutput inst buf_in stream len).buf_in (i * 2 + 1)
          = buf ((num_in - 1).toNat * 2 + 1)) ∧
      (∀ i : Nat, ((i : Int) < num_in ∨ len_in - 6 ≤ (i : Int)) →
        (audioCallback ReadOutput inst buf_in stream len).buf_in (i * 2) = buf (i * 2) ∧
        (audioCallback ReadOutput inst buf_in stream len).buf_in (i * 2 + 1)
          = buf (i * 2 + 1)) ∧
      (audioCallback ReadOutput inst buf_in stream len).stream
        = audioResample (audioCallback ReadOutput inst buf_in stream len).buf_in
            (len_in - 6) stream ((len / 4 : Nat) : Int) inst.audioVolume) ∧
    (¬ (num_in < 1 ∨ inst.audioMuted = true) → ¬ (num_in < len_in - 6) →
      (audioCallback ReadOutput inst buf_in stream len).buf_in = buf ∧
      (audioCallback ReadOutput inst buf_in stream len).stream
        = audioResample buf num_in stream ((len / 4 : Nat) : Int) inst.audioVolume) := by
  rw [audioCallback_eq ReadOutput inst buf_in stream len len_in num_in buf hlen hrd]
  refine ⟨fun h => ?_, fun h h2 => ?_, fun h h2 => ?_⟩
  · have hc : (decide (num_in < 1) || inst.audioMuted) = true := by
      rcases h with h | h
      · simp [h]
      · simp [h]
    rw [if_pos hc]
    exact ⟨fun j hj => if_pos hj, fun j hj => if_neg (by omega)⟩
  · have hc : ¬ ((decide (num_in < 1) || inst.audioMuted) = true) := by
      intro hc
      rw [Bool.or_eq_true, decide_eq_true_eq] at hc
      exact h hc
    rw [if_neg hc, if_pos h2]
    have h1 : 1 ≤ num_in := by
      by_contra hn
      exact h (Or.inl (by omega))
    refine ⟨fun i hi1 hi2 => ?_, fun i hi => ?_, rfl⟩
    · dsimp only
      rw [padLoop_apply _ _ _ _ (by omega), padLoop_apply _ _ _ _ (by omega),
        if_pos (by omega), if_pos (by omega)]
      constructor
      · congr 1
        omega
      · congr 1
        omega
    · dsimp only
      rw [padLoop_apply _ _ _ _ (by omega), padLoop_apply _ _ _ _ (by omega),
        if_neg (by omega), if_neg (by omega)]
      exact ⟨rfl, rfl⟩
  · have hc : ¬ ((decide (num_in < 1) || inst.audioMuted) = true) := by
      intro hc
      rw [Bool.or_eq_true, decide_eq_true_eq] at hc
      exact h hc
    rw [if_neg hc, if_neg h2]
    exact ⟨rfl, rfl⟩

theorem fLenIn_sample : 700 ≤ fLenIn 1024 (sample 0 0) ∧ fLenIn 1024 (sample 0 0) < 701 := by
  have hfl := fLenIn_eq 1024 (sample 0 0) (by norm_num) (by decide) (by decide) (by decide)
  have e0 : (sample 0 0).audioSampleFrac = 0 := rfl
  have e1 : (((sample 0 0).audioFreq : Int) : ℚ) = 48000 := by
    simp [sample]
  rw [e0, e1, add_zero] at hfl
  have hE1 : (700 : ℚ) ≤ ((1024 : Int) : ℚ) * (4201425 / 128) / 48000 := by norm_num
  have hE2 : ((1024 : Int) : ℚ) * (4201425 / 128) / 48000 ≤ 1401 / 2 := by norm_num
  generalize ((1024 : Int) : ℚ) * (4201425 / 128) / 48000 = E at hfl hE1 hE2
  have r700 : ∀ p : Nat, 24 ≤ p → ∀ emin : Int, emin ≤ -1 → Representable p emin 700 :=
    fun p hp emin he => ⟨700, 0, by norm_num, by
      have : (2 : Int) ^ 24 ≤ 2 ^ p := pow_le_pow_right₀ (by norm_num) hp
      rw [abs_lt]
      constructor <;> omega, by omega⟩
  have r7005 : ∀ p : Nat, 24 ≤ p → ∀ emin : Int, emin ≤ -1 →
      Representable p emin (1401 / 2) :=
    fun p hp emin he => ⟨1401, -1, by norm_num, by
      have : (2 : Int) ^ 24 ≤ 2 ^ p := pow_le_pow_right₀ (by norm_num) hp
      rw [abs_lt]
      constructor <;> omega, he⟩
  have hD1 : (700 : ℚ) ≤ fl64 E :=
    le_roundFloat_of_le 53 (-1074) E 700 (r700 53 (by norm_num) _ (by norm_num))
      (by norm_num) hE1
  have hD2 : fl64 E ≤ 1401 / 2 :=
    roundFloat_le_of_le 53 (-1074) E _ (r7005 53 (by norm_num) _ (by norm_num))
      (by norm_num) hE2
  have hA1 : (700 : ℚ) ≤ fl32 (fl64 E) :=
    le_roundFloat_of_le 24 (-149) _ 700 (r700 24 (by norm_num) _ (by norm_num))
      (by norm_num) hD1
  have hA2 : fl32 (fl64 E) ≤ 1401 / 2 :=
    roundFloat_le_of_le 24 (-149) _ _ (r7005 24 (by norm_num) _ (by norm_num))
      (by norm_num) hD2
  have hF1 : (700 : ℚ) ≤ fl32 (fl32 (fl64 E)) :=
    le_roundFloat_of_le 24 (-149) _ 700 (r700 24 (by norm_num) _ (by norm_num))
      (by norm_num) hA1
  have hF2 : fl32 (fl32 (fl64 E)) ≤ 1401 / 2 :=
    roundFloat_le_of_le 24 (-149) _ _ (r7005 24 (by norm_num) _ (by norm_num))
      (by norm_num) hA2
  rw [hfl]
  constructor <;> linarith

theorem callbackLenIn_of_count (inst : AudioInst) (len n : Int)
    (h : ⌊fLenIn len inst⌋ = n) (h1 : ¬ (n > inst.audioBufSize)) (h2 : ¬ (n > 4096)) :
    callbackLenIn inst len = n := by
  have e : (audioGetNumSamplesOut len inst).1 = n := h
  unfold callbackLenIn
  dsimp only
  rw [e, if_neg h1, if_neg h2]

theorem callbackLenIn_sample : callbackLenIn (sample 0 0) ((4096 / 4 : Nat) : Int) = 700 := by
  have e : ((4096 / 4 : Nat) : Int) = 1024 := rfl
  rw [e]
  apply callbackLenIn_of_count
  · rw [Int.floor_eq_iff]
    exact ⟨by exact_mod_cast fLenIn_sample.1, by
      have := fLenIn_sample.2
      norm_num at this ⊢
      exact this⟩
  · decide
  · decide

/-- C18, evaluated: a callback for 4096 bytes at 48000 Hz requires 700 pairs; the
machine delivers two, (10, 11) and (20, 21); the pair 100 of the input is then the last
pair read. -/
theorem callback_underrun_policy_witness :
    (callbackLenIn (sample 0 0) ((4096 / 4 : Nat) : Int) = 700 ∧
      callbackRead twoPairs (sample 0 0) (fun _ => 0) 700 = ((twoPairs (fun _ => 0) 700).1, 2) ∧
      ¬ ((2 : Int) < 1 ∨ (sample 0 0).audioMuted = true) ∧ (2 : Int) < 700 - 6) ∧
    (audioCallback twoPairs (sample 0 0) (fun _ => 0) (fun _ => 0) 4096).buf_in (100 * 2) = 20 ∧
    (audioCallback twoPairs (sample 0 0) (fun _ => 0) (fun _ => 0) 4096).buf_in (100 * 2 + 1)
      = 21 :=
  ⟨⟨callbackLenIn_sample, rfl, by decide, by decide⟩,
   (((callback_underrun_policy twoPairs (sample 0 0) (fun _ => 0) (fun _ => 0) 4096 700 2
      (twoPairs (fun _ => 0) 700).1 callbackLenIn_sample rfl).2.1
      (by decide) (by decide)).1 100 (by decide) (by decide)).1,
   (((callback_underrun_policy twoPairs (sample 0 0) (fun _ => 0) (fun _ => 0) 4096 700 2
      (twoPairs (fun _ => 0) 700).1 callbackLenIn_sample rfl).2.1
      (by decide) (by decide)).1 100 (by decide) (by decide)).2⟩

end AudioInst

namespace Worker

/-! ## Frames and `emuActive` -/

theorem handleMessage_active_shape (P : Platform) (m : Message) (w : Worker)
    (hm : keepsActive m = true) :
    (handleMessage P m w).emuActive = true ∨
    ((handleMessage P m w).emuActive = w.emuActive ∧
     ((handleMessage P m w).prevEmuStatus = w.prevEmuStatus ∨
      (handleMessage P m w).prevEmuStatus = w.emuStatus) ∧
     ((handleMessage P m w).emuStatus = w.emuStatus ∨
      (handleMessage P m w).emuStatus = w.prevEmuStatus ∨
      (handleMessage P m w).emuStatus = emuStatus_Paused ∨
      (handleMessage P m w).emuStatus = emuStatus_Exit)) := by
  cases m
  case msg_EmuFrameStep => exact absurd hm (by decide)
  case msg_EmuStop e => exact absurd hm (by simp [keepsActive])
  all_goals simp only [handleMessage, audioEnable, audioDisable, osdAddMessage, setError]
  all_goals (try split_ifs)
  all_goals
    first
    | exact Or.inl rfl
    | exact Or.inr ⟨rfl, Or.inl rfl, Or.inl rfl⟩
    | exact Or.inr ⟨rfl, Or.inl rfl, Or.inr (Or.inl rfl)⟩
    | exact Or.inr ⟨rfl, Or.inl rfl, Or.inr (Or.inr (Or.inl rfl))⟩
    | exact Or.inr ⟨rfl, Or.inl rfl, Or.inr (Or.inr (Or.inr rfl))⟩
    | exact Or.inr ⟨rfl, Or.inr rfl, Or.inl rfl⟩
    | exact Or.inr ⟨rfl, Or.inr rfl, Or.inr (Or.inl rfl)⟩
    | exact Or.inr ⟨rfl, Or.inr rfl, Or.inr (Or.inr (Or.inl rfl))⟩
    | exact Or.inr ⟨rfl, Or.inr rfl, Or.inr (Or.inr (Or.inr rfl))⟩
    | simp

theorem activeInv_handleMessage (P : Platform) (m : Message) (w : Worker)
    (hm : keepsActive m = true) (h : ActiveInv w) : ActiveInv (handleMessage P m w) := by
  obtain ⟨h1, h2, h3⟩ := h
  have hq : ∀ x ∈ (handleMessage P m w).msgQueue, keepsActive x = true := by
    rw [handleMessage_msgQueue]
    exact h3
  rcases handleMessage_active_shape P m w hm with ha | ⟨ha, hp, hs⟩
  · exact ⟨fun _ => ha, fun _ => ha, hq⟩
  · refine ⟨fun hc => ?_, fun hc => ?_, hq⟩
    · rw [ha]
      rcases hs with e | e | e | e
      · exact h1 (e ▸ hc)
      · exact h2 (e ▸ hc)
      · rw [e] at hc
        rcases hc with hc | hc <;> exact absurd hc (by decide)
      · rw [e] at hc
        rcases hc with hc | hc <;> exact absurd hc (by decide)
    · rw [ha]
      rcases hp with e | e
      · exact h2 (e ▸ hc)
      · exact h1 (e ▸ hc)

theorem activeInv_handleAll (P : Platform) (ms : List Message) (w : Worker)
    (hms : ∀ m ∈ ms, keepsActive m = true) (h : ActiveInv w) :
    ActiveInv (handleAll P ms w) := by
  induction ms generalizing w with
  | nil => exact h
  | cons m ms ih =>
    rw [handleAll_cons]
    exact ih _ (fun x hx => hms x (List.mem_cons_of_mem _ hx))
      (activeInv_handleMessage P m w (hms m (List.mem_cons_self _ _)) h)

theorem activeInv_sendMessage (m : Message) (w : Worker) (hm : keepsActive m = true)
    (h : ActiveInv w) : ActiveInv (sendMessage m w) := by
  obtain ⟨h1, h2, h3⟩ := h
  refine ⟨h1, h2, ?_⟩
  intro x hx
  simp only [sendMessage, List.mem_append, List.mem_singleton] at hx
  rcases hx with hx | rfl
  · exact h3 x hx
  · exact hm

theorem activeInv_frameExec (P : Platform) (w : Worker) (h : ActiveInv w) :
    ActiveInv (frameExec P w) := by
  obtain ⟨h1, h2, h3⟩ := h
  unfold frameExec
  split_ifs with c1 c2
  · refine ⟨fun _ => h1 c1, h2, h3⟩
  · exact ⟨fun _ => h1 c1, h2, h3⟩
  · exact ⟨h1, h2, h3⟩

theorem activeInv_handleMessages (P : Platform) (w : Worker) (h : ActiveInv w) :
    ActiveInv (handleMessages P w) := by
  rw [handleMessages_eq]
  obtain ⟨h1, h2, _⟩ := activeInv_handleAll P w.msgQueue w h.2.2 h
  exact ⟨h1, h2, fun x hx => absurd hx (List.not_mem_nil x)⟩

theorem activeInv_runPass (P : Platform) (hk : HotkeyPress) (w : Worker)
    (hhk : hk.HK_FrameStep = false) (h : ActiveInv w) : ActiveInv (runPass P hk w) := by
  unfold runPass
  dsimp only
  rw [hhk]
  apply activeInv_handleMessages
  apply activeInv_frameExec
  simp only [Bool.false_eq_true, if_false]
  have hp : ActiveInv (if hk.HK_Pause = true then emuTogglePause w else w) := by
    split_ifs
    · unfold emuTogglePause emuUnpause emuPause
      split_ifs
      · exact activeInv_sendMessage _ _ rfl h
      · exact activeInv_sendMessage _ _ rfl h
    · exact h
  generalize (if hk.HK_Pause = true then emuTogglePause w else w) = w1 at hp ⊢
  by_cases hr : hk.HK_Reset = true
  · rw [if_pos hr]
    exact activeInv_sendMessage _ _ rfl hp
  · rw [if_neg hr]
    exact hp

theorem activeInv_constructed : ActiveInv Worker.constructed :=
  ⟨fun h => by rcases h with h | h <;> exact absurd h (by decide),
   fun h => by rcases h with h | h <;> exact absurd h (by decide),
   fun x hx => absurd hx (List.not_mem_nil x)⟩

theorem activeInv_reachBy (P : Platform) (evs : List LoopEvent)
    (h : ∀ e ∈ evs, e.quiet = true) : ActiveInv (reachBy P evs) := by
  unfold reachBy
  induction evs using List.reverseRecOn with
  | nil => exact activeInv_constructed
  | append_singleton evs e ih =>
    rw [List.foldl_append]
    have hprev := ih (fun x hx => h x (List.mem_append_left _ hx))
    have he := h e (List.mem_append_right _ (List.mem_singleton_self e))
    cases e with
    | send m => exact activeInv_sendMessage m _ he hprev
    | handle m => exact activeInv_handleMessage P m _ he hprev
    | pass hk =>
      apply activeInv_runPass P hk _ _ hprev
      simpa [LoopEvent.quiet] using he

/-- C28 (amended): in every worker state reached from the constructed worker by
enqueued messages, handled messages and loop passes, as long as no `msg_EmuFrameStep`
and no `msg_EmuStop` is among the messages and no pass sees the frame-step hotkey,
`emuStatus` being `Running` or `FrameStep` implies that `emuActive` is true. -/
theorem running_implies_active (P : Platform) (evs : List LoopEvent)
    (h : ∀ e ∈ evs, e.quiet = true) :
    ((reachBy P evs).emuStatus = emuStatus_Running ∨
      (reachBy P evs).emuStatus = emuStatus_FrameStep) →
    (reachBy P evs).emuActive = true :=
  (activeInv_reachBy P evs h).1

/-- C28, evaluated: after `msg_EmuRun` is enqueued and a pass handles it, the worker is
`Running` and active. -/
theorem running_implies_active_witness :
    (∀ e ∈ [LoopEvent.send msg_EmuRun, LoopEvent.pass noHotkeys], e.quiet = true) ∧
    (reachBy Platform.offline [LoopEvent.send msg_EmuRun, LoopEvent.pass noHotkeys]).emuStatus
      = emuStatus_Running ∧
    (reachBy Platform.offline [LoopEvent.send msg_EmuRun, LoopEvent.pass noHotkeys]).emuActive
      = true :=
  ⟨by decide, by decide,
   running_implies_active Platform.offline
     [LoopEvent.send msg_EmuRun, LoopEvent.pass noHotkeys] (by decide) (Or.inl (by decide))⟩

/-- C28 as stated fails.  The constructed worker that handles `msg_EmuFrameStep` has
status `FrameStep` with `emuActive` false; after `msg_BootROM` has put a machine into the
instance, a pass that sees the frame-step hotkey followed by one more pass executes a
machine frame with `emuActive` still false; and a worker paused while running, stopped
and then unpaused is `Running` with `emuActive` false. -/
theorem frame_without_active_counterexample :
    ((reachBy Platform.offline [LoopEvent.handle msg_EmuFrameStep]).emuStatus
        = emuStatus_FrameStep ∧
     (reachBy Platform.offline [LoopEvent.handle msg_EmuFrameStep]).emuActive = false) ∧
    (machineFrames (reachBy Platform.desktop
        [LoopEvent.handle (msg_BootROM ["game.nds"]),
         LoopEvent.pass { HK_Pause := false, HK_Reset := false, HK_FrameStep := true },
         LoopEvent.pass noHotkeys]) = 1 ∧
     machineFrames (reachBy Platform.desktop
        [LoopEvent.handle (msg_BootROM ["game.nds"]),
         LoopEvent.pass { HK_Pause := false, HK_Reset := false, HK_FrameStep := true }]) = 0 ∧
     (reachBy Platform.desktop
        [LoopEvent.handle (msg_BootROM ["game.nds"]),
         LoopEvent.pass { HK_Pause := false, HK_Reset := false, HK_FrameStep := true },
         LoopEvent.pass noHotkeys]).emuActive = false) ∧
    ((reachBy Platform.offline
        [LoopEvent.handle msg_EmuRun, LoopEvent.handle msg_EmuPause,
         LoopEvent.handle (msg_EmuStop false), LoopEvent.handle msg_EmuUnpause]).emuStatus
        = emuStatus_Running ∧
     (reachBy Platform.offline
        [LoopEvent.handle msg_EmuRun, LoopEvent.handle msg_EmuPause,
         LoopEvent.handle (msg_EmuStop false), LoopEvent.handle msg_EmuUnpause]).emuActive
        = false) := by
  decide

end Worker

namespace Instance

set_option maxRecDepth 8192 in
/-- C30, the code at the failing input: from an instance with no machine, `loadROM` of a
DS ROM and then `loadROM` of a DSi ROM both succeed.  Afterwards both machine objects
are present, `consoleType` is 1 (DSi), and the machine that `if (nds) ... else if (dsi)`
selects in `reset`, `frameStep` and the audio callback is the NDS of the first call: the
reset of the second `loadROM` and a following `frameStep` act on it, and the DSi that was
just booted is neither reset nor run. -/
theorem second_boot_keeps_first_machine :
    (loadROM Platform.dsiReady ["game.nds"] true Instance.constructed).2.1 = true ∧
    (loadROM Platform.dsiReady ["game.dsi"] true
      (loadROM Platform.dsiReady ["game.nds"] true Instance.constructed).1).2.1 = true ∧
    ((loadROM Platform.dsiReady ["game.dsi"] true
      (loadROM Platform.dsiReady ["game.nds"] true Instance.constructed).1).1.nds.isSome = true ∧
     (loadROM Platform.dsiReady ["game.dsi"] true
      (loadROM Platform.dsiReady ["game.nds"] true Instance.constructed).1).1.dsi.isSome = true ∧
     (loadROM Platform.dsiReady ["game.dsi"] true
      (loadROM Platform.dsiReady ["game.nds"] true Instance.constructed).1).1.consoleType = 1) ∧
    (loadROM Platform.dsiReady ["game.dsi"] true
      (loadROM Platform.dsiReady ["game.nds"] true Instance.constructed).1).1.console
      = (loadROM Platform.dsiReady ["game.dsi"] true
          (loadROM Platform.dsiReady ["game.nds"] true Instance.constructed).1).1.nds ∧
    ((frameStep Platform.dsiReady (loadROM Platform.dsiReady ["game.dsi"] true
      (loadROM Platform.dsiReady ["game.nds"] true Instance.constructed).1).1).nds.map
        (fun c => (c.resets, c.frames)) = some (2, 1) ∧
     (frameStep Platform.dsiReady (loadROM Platform.dsiReady ["game.dsi"] true
      (loadROM Platform.dsiReady ["game.nds"] true Instance.constructed).1).1).dsi.map
        (fun c => (c.resets, c.frames)) = some (0, 0)) := by
  decide

end Instance

namespace AudioInst

/-! ## The input pairs that `audioResample` reads -/

theorem toNat_one_eq : (1 : Int).toNat = 1 := rfl

theorem resamplePositions_one (res_incr : ℚ) (st : ℚ × Nat) :
    resamplePositions res_incr 1 st = [st.2] := by
  simp only [resamplePositions]
  cases advanceTimer res_incr st <;> rfl

theorem readPositions_one (inlen : Int) : readPositions inlen 1 = [0] := by
  unfold readPositions
  rw [toNat_one_eq, resamplePositions_one]

theorem audioResample_first (inbuf outbuf : Nat → Int) (inlen volume : Int) :
    audioResample inbuf inlen outbuf 1 volume 0
      = toS16 ((cround (fl32 (fl32 (inbuf 0 : ℚ)
          + fl32 (fl32 ((inbuf 2 - inbuf 0 : Int) : ℚ) * (-1 / 2)))) * volume)
          >>> (8 : Nat)) := by
  unfold audioResample
  rw [toNat_one_eq]
  simp only [resampleLoop]
  cases advanceTimer (resIncr inlen 1) (-1 / 2, 0) <;>
    (simp only []
     rw [Function.update_noteq (by decide : (0 : Nat) ≠ 0 * 2 + 1)]
     simp only [Nat.zero_mul, Nat.zero_add, Function.update_same])

theorem interpolate_first (a b : Int) (c : ℚ) (ha : |a| < 2 ^ 24) (hb : |b - a| < 2 ^ 24)
    (hc : Representable 24 (-149) c)
    (hab : (a : ℚ) + ((b - a : Int) : ℚ) * (-1 / 2) = c) :
    fl32 (fl32 (a : ℚ) + fl32 (fl32 ((b - a : Int) : ℚ) * (-1 / 2))) = c := by
  have hprod : Representable 24 (-149) (((b - a : Int) : ℚ) * (-1 / 2)) :=
    ⟨-(b - a), -1, by push_cast; norm_num; ring, by rw [abs_neg]; exact hb, by norm_num⟩
  rw [fl32_intCast a ha, fl32_intCast (b - a) hb, fl32_of_rep _ hprod, hab, fl32_of_rep c hc]

/-- C29, the code at the failing input: with `inlen = 1` and `outlen = 1` the only turn
of the loop has `res_pos = 0` and reads the pairs 0 and 1, and pair 1 is not below
`inlen`.  The output depends on it: two inputs with the same pair 0 (value 100) and a
different pair 1 give the outputs 0 and 100. -/
theorem resample_reads_past_input :
    readPositions 1 1 = [0] ∧ ¬ ((0 : Int) + 1 < 1) ∧
    audioResample (fun k => if k < 2 then 100 else 300) 1 (fun _ => 0) 1 256 0 = 0 ∧
    audioResample (fun _ => 100) 1 (fun _ => 0) 1 256 0 = 100 := by
  refine ⟨readPositions_one 1, by decide, ?_, ?_⟩
  · rw [audioResample_first]
    have e : fl32 (fl32 (((if (0 : Nat) < 2 then 100 else 300 : Int)) : ℚ)
        + fl32 (fl32 (((if (2 : Nat) < 2 then 100 else 300)
            - (if (0 : Nat) < 2 then 100 else 300) : Int) : ℚ) * (-1 / 2))) = 0 :=
      interpolate_first _ _ 0 (by decide) (by decide) ⟨0, 0, by norm_num, by norm_num, by norm_num⟩
        (by norm_num)
    rw [e]
    have e2 : cround 0 = 0 := by simpa using cround_intCast 0
    rw [e2]
    decide
  · rw [audioResample_first]
    have e : fl32 (fl32 ((100 : Int) : ℚ)
        + fl32 (fl32 ((100 - 100 : Int) : ℚ) * (-1 / 2))) = ((100 : Int) : ℚ) :=
      interpolate_first 100 100 _ (by decide) (by decide)
        ⟨100, 0, by norm_num, by norm_num, by norm_num⟩ (by norm_num)
    rw [e, cround_intCast]
    decide

end AudioInst

namespace Sys

/-! ## Waiting for the worker -/

/-- C26, the code at the failing input: `bootROM` is called from another thread while
the worker is between two `handleMessages`.  After four steps of the caller alone the
wrapper has returned result 0 with an empty error string, the message is still in the
queue and the worker has handled nothing; when the worker then handles the message it
produces result 1.  And when the worker handles the message before the caller takes the
lock, the caller blocks in `wait` and is still blocked after further steps of both. -/
theorem bootROM_returns_before_handled :
    ((run Platform.desktop [Thread.caller, Thread.caller, Thread.caller, Thread.caller]
        (bootROM ["game.nds"] Worker.constructed)).pc = CallerPc.returned 0 "" ∧
     (run Platform.desktop [Thread.caller, Thread.caller, Thread.caller, Thread.caller]
        (bootROM ["game.nds"] Worker.constructed)).worker.msgQueue
        = [msg_BootROM ["game.nds"]] ∧
     (run Platform.desktop [Thread.caller, Thread.caller, Thread.caller, Thread.caller]
        (bootROM ["game.nds"] Worker.constructed)).worker.handled = [] ∧
     (run Platform.desktop
        [Thread.caller, Thread.caller, Thread.caller, Thread.caller, Thread.worker]
        (bootROM ["game.nds"] Worker.constructed)).worker.msgResult = 1 ∧
     (run Platform.desktop
        [Thread.caller, Thread.caller, Thread.caller, Thread.caller, Thread.worker]
        (bootROM ["game.nds"] Worker.constructed)).pc = CallerPc.returned 0 "") ∧
    ((run Platform.desktop [Thread.caller, Thread.worker, Thread.caller, Thread.caller]
        (bootROM ["game.nds"] Worker.constructed)).pc = CallerPc.asleep ∧
     (run Platform.desktop
        [Thread.caller, Thread.worker, Thread.caller, Thread.caller,
         Thread.worker, Thread.caller, Thread.worker, Thread.caller]
        (bootROM ["game.nds"] Worker.constructed)).pc = CallerPc.asleep) := by
  decide

theorem run_cons (P : Platform) (t : Thread) (sched : List Thread) (s : Sys) :
    run P (t :: sched) s = run P sched (step P s t) := rfl

theorem spinning_step (P : Platform) (s : Sys) (t : Thread)
    (hw : s.wait = WaitKind.waitAllMessages) (hm : s.msgMutex = some Thread.caller)
    (hq : s.worker.msgQueue ≠ []) (hs : spinning s) :
    (step P s t).worker = s.worker ∧ (step P s t).wait = WaitKind.waitAllMessages ∧
    (step P s t).msgMutex = some Thread.caller ∧ spinning (step P s t) := by
  have hne : (!s.worker.msgQueue.isEmpty) = true := by
    cases hl : s.worker.msgQueue with
    | nil => exact absurd hl hq
    | cons a l => rfl
  cases t with
  | worker =>
    have hn : ¬ (s.msgMutex = none) := by rw [hm]; exact Option.some_ne_none _
    have e : step P s Thread.worker = s := by
      simp only [step, workerStep, if_neg hn]
    rw [e]
    exact ⟨rfl, hw, hm, hs⟩
  | caller =>
    rcases hs with hs | hs
    · have e : step P s Thread.caller = { s with pc := CallerPc.waitPred } := by
        simp only [step, callerStep, hs, hne, if_true]
      rw [e]
      exact ⟨rfl, hw, hm, Or.inr rfl⟩
    · have e : step P s Thread.caller = { s with pc := CallerPc.loopTest } := by
        simp only [step, callerStep, hs, hne, if_true, hw]
      rw [e]
      exact ⟨rfl, hw, hm, Or.inl rfl⟩

theorem spinning_run (P : Platform) (sched : List Thread) (s : Sys)
    (hw : s.wait = WaitKind.waitAllMessages) (hm : s.msgMutex = some Thread.caller)
    (hq : s.worker.msgQueue ≠ []) (hs : spinning s) :
    (run P sched s).worker = s.worker ∧ (run P sched s).msgMutex = some Thread.caller ∧
    spinning (run P sched s) := by
  induction sched generalizing s with
  | nil => exact ⟨rfl, hm, hs⟩
  | cons t sched ih =>
    obtain ⟨h1, h2, h3, h4⟩ := spinning_step P s t hw hm hq hs
    rw [run_cons]
    obtain ⟨i1, i2, i3⟩ := ih (step P s t) h2 h3 (by rw [h1]; exact hq) h4
    exact ⟨i1.trans h1, i2, i3⟩

/-- C27, the code when the caller takes the lock first: `emuExit` is called from
another thread, and the caller sends `msg_Exit` and locks `msgMutex` in
`waitAllMessages` before the worker reaches `handleMessages`.  Then, whatever the
worker state and however the two threads are scheduled afterwards, the caller stays
inside the loop of `waitAllMessages` with the lock held, the worker handles nothing and
`msg_Exit` stays in the queue: the wait never ends.  The same holds for `emuFrameStep`
called on the running worker `Worker.started`, once its two messages are sent and the
lock is taken. -/
theorem emuExit_never_returns (P : Platform) (w : Worker) (sched : List Thread) :
    spinning (run P (Thread.caller :: Thread.caller :: sched) (emuExit w)) ∧
    (run P (Thread.caller :: Thread.caller :: sched) (emuExit w)).msgMutex
      = some Thread.caller ∧
    (run P (Thread.caller :: Thread.caller :: sched) (emuExit w)).worker.handled = w.handled ∧
    (run P (Thread.caller :: Thread.caller :: sched) (emuExit w)).worker.msgQueue
      = w.msgQueue ++ [msg_Exit] ∧
    spinning (run P (Thread.caller :: Thread.caller :: Thread.caller :: sched)
      (emuFrameStep Worker.started)) ∧
    (run P (Thread.caller :: Thread.caller :: Thread.caller :: sched)
      (emuFrameStep Worker.started)).worker.msgQueue = [msg_EmuPause, msg_EmuFrameStep] := by
  have h0 : step P (step P (emuExit w) Thread.caller) Thread.caller
      = { worker := w.sendMessage msg_Exit, msgMutex := some Thread.caller,
          wait := WaitKind.waitAllMessages, pc := CallerPc.loopTest } := rfl
  rw [run_cons, run_cons, h0]
  obtain ⟨h1, h2, h3⟩ := spinning_run P sched
    { worker := w.sendMessage msg_Exit, msgMutex := some Thread.caller,
      wait := WaitKind.waitAllMessages, pc := CallerPc.loopTest } rfl rfl
    (by simp [Worker.sendMessage]) (Or.inl rfl)
  have f0 : step P (step P (step P (emuFrameStep Worker.started) Thread.caller)
      Thread.caller) Thread.caller
      = { worker := (Worker.started.sendMessage msg_EmuPause).sendMessage msg_EmuFrameStep,
          msgMutex := some Thread.caller, wait := WaitKind.waitAllMessages,
          pc := CallerPc.loopTest } := rfl
  obtain ⟨f1, _, f3⟩ := spinning_run P sched
    { worker := (Worker.started.sendMessage msg_EmuPause).sendMessage msg_EmuFrameStep,
      msgMutex := some Thread.caller, wait := WaitKind.waitAllMessages,
      pc := CallerPc.loopTest } rfl rfl
    (by simp [Worker.sendMessage]) (Or.inl rfl)
  refine ⟨h3, h2, ?_, ?_, ?_, ?_⟩
  · rw [h1]
    rfl
  · rw [h1]
    rfl
  · rw [run_cons, run_cons, run_cons, f0]
    exact f3
  · rw [run_cons, run_cons, run_cons, f0, f1]
    rfl

end Sys

namespace Mic

/-! ## The microphone ring buffer -/

theorem add32_small (a b : Nat) (h : a + b < 4294967296) : add32 a b = a + b := by
  unfold add32
  norm_num
  omega

theorem sub32_small (a b : Nat) (h : b ≤ a) (ha : a < 4294967296) : sub32 a b = a - b := by
  unfold sub32
  norm_num
  omega

theorem range_map_getD (f : Nat → Int) (n i : Nat) (h : i < n) :
    ((List.range n).map f).getD i 0 = f i := by
  simp [List.getD_eq_getElem?_getD, h]

theorem range_map_take (f : Nat → Int) (n a : Nat) (h : a ≤ n) :
    ((List.range n).map f).take a = (List.range a).map f := by
  rw [← List.map_take, List.take_range, Nat.min_eq_left h]

theorem padTail_apply (last n : Nat) :
    ∀ (i : Nat) (tmp : Nat → Int), last < i → ∀ k,
      padTail last n i tmp k = if i ≤ k ∧ k < i + n then tmp last else tmp k := by
  induction n with
  | zero =>
    intro i tmp _ k
    have : ¬ (i ≤ k ∧ k < i + 0) := by omega
    simp only [padTail, if_neg this]
  | succ n ih =>
    intro i tmp hlast k
    simp only [padTail]
    rw [ih (i + 1) _ (by omega) k]
    have hl : (Function.update tmp i (tmp last)) last = tmp last :=
      Function.update_noteq (by omega) _ _
    by_cases c1 : i + 1 ≤ k ∧ k < i + 1 + n
    · rw [if_pos c1, if_pos (by omega), hl]
    · rw [if_neg c1]
      by_cases c2 : k = i
      · rw [if_pos (by omega), c2, Function.update_same]
      · rw [if_neg (by omega), Function.update_noteq c2]

theorem fillFrame_apply (len : Nat) (tmp : Nat → Int) (hlen : len ≤ 735) (k : Nat)
    (hk : k < 735) :
    fillFrame len tmp k
      = if len = 0 then 0 else if len ≤ k then tmp (len - 1) else tmp k := by
  unfold fillFrame kFrameLen
  by_cases h0 : len = 0
  · rw [if_pos h0, if_pos h0]
    simp only [hk, if_true]
  · rw [if_neg h0, if_neg h0]
    by_cases h1 : len < 735
    · rw [if_pos h1, padTail_apply _ _ _ _ (by omega)]
      by_cases h2 : len ≤ k
      · rw [if_pos (by omega), if_pos h2]
      · rw [if_neg (by omega), if_neg h2]
    · rw [if_neg h1, if_neg (by omega)]

theorem readSlice_ext (buf tmp : Nat → Int) (rp len : Nat) (hrp : rp ≤ 4096)
    (hlen : len ≤ 735) :
    (readSlice buf rp 4096 len tmp).2 ≤ 4096 ∧
    (readSlice buf rp 4096 len tmp).2 % 4096 = (rp + len) % 4096 ∧
    (∀ i, i < len → (readSlice buf rp 4096 len tmp).1 i = buf ((rp + i) % 4096)) := by
  unfold readSlice
  rw [add32_small rp len (by omega)]
  by_cases h : rp + len > 4096
  · rw [if_pos h]
    dsimp only
    rw [sub32_small 4096 rp hrp (by omega), sub32_small len (4096 - rp) (by omega) (by omega)]
    refine ⟨by omega, by omega, fun i hi => ?_⟩
    unfold memcpy
    by_cases c : 4096 - rp ≤ i
    · rw [if_pos (by omega)]
      congr 1
      omega
    · rw [if_neg (by omega), if_pos (by omega)]
      congr 1
      omega
  · rw [if_neg h]
    dsimp only
    refine ⟨by omega, rfl, fun i hi => ?_⟩
    unfold memcpy
    rw [if_pos (by omega)]
    congr 1
    omega

end Mic

namespace Mic

theorem micProcess_ext_eq (c : MicCall) (m : Mic) (h : ExtMode m) :
    micProcess c m
      = { m with
          micBufferReadPos :=
            (readSlice m.micExtBuffer m.micBufferReadPos 4096
              (min 735 m.micExtBufferCount) c.tmp).2,
          micFrames :=
            if m.hasConsole then
              m.micFrames ++ [some ((List.range 735).map
                (fillFrame (min 735 m.micExtBufferCount)
                  (readSlice m.micExtBuffer m.micBufferReadPos 4096
                    (min 735 m.micExtBufferCount) c.tmp).1))]
            else m.micFrames,
          micExtBufferCount := m.micExtBufferCount - min 735 m.micExtBufferCount } := by
  obtain ⟨h1, h2, h3, h4, h5, h6⟩ := h
  unfold maxlen at h3 h4 h5 h6
  have hlen : (if m.micExtBufferCount < 735 then m.micExtBufferCount else 735)
      = min 735 m.micExtBufferCount := by
    split_ifs <;> omega
  have hdata : m.micBufferData = some m.micExtBuffer := by
    unfold micBufferData
    rw [h2]
  have hsub : sub32 m.micExtBufferCount (min 735 m.micExtBufferCount)
      = m.micExtBufferCount - min 735 m.micExtBufferCount :=
    sub32_small _ _ (by omega) (by omega)
  unfold micProcess
  cases hcon : m.hasConsole <;>
    simp only [h1, ne_eq, not_true_eq_false, decide_False, Bool.false_and, Bool.false_eq_true,
      if_false, one_ne_zero, true_or, if_true, hdata, h3, MicInputFrame, kFrameLen, hlen, hcon,
      hsub]

/-- C21: with a machine present, in external-capture mode (`micBuffer` is the ring
buffer of 4096 samples, cursors and count within it) a call of `micProcess` with
`a = min(735, micExtBufferCount)` forwards a frame of exactly 735 samples whose first
`a` samples are the buffered samples at the read cursor onwards, wrapping at the buffer
end; the count goes down by `a` and the read cursor forward by `a` modulo 4096; when
`0 < a < 735` every sample at the positions `a..734` equals the one at position
`a - 1`; when `a = 0` the frame is all zeros.  In silence mode `MicInputFrame(nullptr, 0)`
is called. -/
theorem micProcess_forwards_frame (c : MicCall) (m : Mic) (hc : m.hasConsole = true) :
    (ExtMode m →
      ∃ frame : List Int,
        (micProcess c m).micFrames = m.micFrames ++ [some frame] ∧
        frame.length = 735 ∧
        (∀ i, i < min 735 m.micExtBufferCount →
          frame.getD i 0 = m.micExtBuffer ((m.micBufferReadPos + i) % 4096)) ∧
        (0 < min 735 m.micExtBufferCount →
          ∀ i, min 735 m.micExtBufferCount ≤ i → i < 735 →
            frame.getD i 0 = frame.getD (min 735 m.micExtBufferCount - 1) 0) ∧
        (min 735 m.micExtBufferCount = 0 → ∀ i, i < 735 → frame.getD i 0 = 0) ∧
        (micProcess c m).micExtBufferCount
          = m.micExtBufferCount - min 735 m.micExtBufferCount ∧
        (micProcess c m).micBufferReadPos % 4096
          = (m.micBufferReadPos + min 735 m.micExtBufferCount) % 4096) ∧
    (m.micInputType = 0 → (micProcess c m).micFrames = m.micFrames ++ [none]) := by
  constructor
  · intro h
    have hrp : m.micBufferReadPos ≤ 4096 := h.2.2.2.1
    have ha : min 735 m.micExtBufferCount ≤ 735 := Nat.min_le_left _ _
    obtain ⟨_, r2, r3⟩ := readSlice_ext m.micExtBuffer c.tmp m.micBufferReadPos
      (min 735 m.micExtBufferCount) hrp ha
    rw [micProcess_ext_eq c m h]
    generalize min 735 m.micExtBufferCount = a at ha r2 r3 ⊢
    refine ⟨_, by rw [if_pos hc], by simp, ?_, ?_, ?_, rfl, r2⟩
    · intro i hi
      have e1 : ¬ (a = 0) := by omega
      have e2 : ¬ (a ≤ i) := by omega
      rw [range_map_getD _ _ _ (by omega), fillFrame_apply _ _ ha i (by omega),
        if_neg e1, if_neg e2]
      exact r3 i hi
    · intro hpos i hi1 hi2
      have e1 : ¬ (a = 0) := by omega
      have e2 : ¬ (a ≤ a - 1) := by omega
      have e3 : a - 1 < 735 := by omega
      rw [range_map_getD _ _ _ hi2, range_map_getD _ _ _ e3,
        fillFrame_apply _ _ ha i hi2, fillFrame_apply _ _ ha _ e3]
      simp only [if_neg e1, if_pos hi1, if_neg e2]
    · intro h0 i hi
      rw [range_map_getD _ _ _ hi, fillFrame_apply _ _ ha i hi, if_pos h0]
  · intro h0
    unfold micProcess
    simp [h0, MicInputFrame, hc]


/-- C21, evaluated: three samples 1, 2, 3 were written into the empty ring buffer; the
next `micProcess` forwards a frame of 735 samples that starts 1, 2 and whose last sample
repeats the third, and leaves the buffer empty. -/
theorem micProcess_forwards_frame_witness :
    (({ audioInit 1 none constructed with hasConsole := true } : Mic).hasConsole = true ∧
      ExtMode (micCallback ramp 6 { audioInit 1 none constructed with hasConsole := true })) ∧
    ∃ frame : List Int,
      (micProcess plainCall
        (micCallback ramp 6 { audioInit 1 none constructed with hasConsole := true })).micFrames
        = [some frame] ∧
      frame.length = 735 ∧ frame.getD 0 0 = 1 ∧ frame.getD 1 0 = 2 ∧
      frame.getD 734 0 = frame.getD 2 0 ∧
      (micProcess plainCall
        (micCallback ramp 6
          { audioInit 1 none constructed with hasConsole := true })).micExtBufferCount = 0 := by
  refine ⟨⟨rfl, by decide⟩, ?_⟩
  obtain ⟨frame, h1, h2, h3, h4, _, h6, _⟩ :=
    (micProcess_forwards_frame plainCall
      (micCallback ramp 6 { audioInit 1 none constructed with hasConsole := true }) rfl).1
      (by decide)
  exact ⟨frame, h1, h2, (h3 0 (by decide)).trans (by decide),
    (h3 1 (by decide)).trans (by decide), h4 (by decide) 734 (by decide) (by decide),
    h6.trans (by decide)⟩

end Mic

namespace Mic

theorem micCallback_fields (input : Nat → Int) (len : Nat) (m : Mic) :
    (micCallback input len m).micBufferReadPos = m.micBufferReadPos ∧
    (micCallback input len m).micInputType = m.micInputType ∧
    (micCallback input len m).micBuffer = m.micBuffer ∧
    (micCallback input len m).micBufferLength = m.micBufferLength ∧
    (micCallback input len m).hasConsole = m.hasConsole ∧
    (micCallback input len m).micFrames = m.micFrames := by
  unfold micCallback
  dsimp only
  split_ifs <;> exact ⟨rfl, rfl, rfl, rfl, rfl, rfl⟩

theorem micCallback_ext (input : Nat → Int) (len : Nat) (m : Mic)
    (hwp : m.micExtBufferWritePos ≤ 4096) (hcnt : m.micExtBufferCount ≤ 4096)
    (hlen : len < 2 ^ 31) :
    (micCallback input len m).micExtBufferCount
      = m.micExtBufferCount + min (len / 2) (4096 - m.micExtBufferCount) ∧
    (micCallback input len m).micExtBufferWritePos ≤ 4096 ∧
    (micCallback input len m).micExtBufferWritePos % 4096
      = (m.micExtBufferWritePos + min (len / 2) (4096 - m.micExtBufferCount)) % 4096 ∧
    (∀ j, j < min (len / 2) (4096 - m.micExtBufferCount) →
      (micCallback input len m).micExtBuffer ((m.micExtBufferWritePos + j) % 4096) = input j) ∧
    (∀ k, (∀ j, j < min (len / 2) (4096 - m.micExtBufferCount) →
        k ≠ (m.micExtBufferWritePos + j) % 4096) →
      (micCallback input len m).micExtBuffer k = m.micExtBuffer k) := by
  have hlen2 : len < 2147483648 := by
    have : (2 : Nat) ^ 31 = 2147483648 := by norm_num
    omega
  have hL : (if add32 m.micExtBufferCount (len / 2) > maxlen
      then sub32 maxlen m.micExtBufferCount else len / 2)
      = min (len / 2) (4096 - m.micExtBufferCount) := by
    unfold maxlen
    rw [add32_small _ _ (by omega)]
    split_ifs with h
    · rw [sub32_small _ _ hcnt (by omega)]
      omega
    · omega
  unfold micCallback
  dsimp only
  rw [hL]
  have b1 : min (len / 2) (4096 - m.micExtBufferCount) ≤ len / 2 := Nat.min_le_left _ _
  have b2 : min (len / 2) (4096 - m.micExtBufferCount) ≤ 4096 - m.micExtBufferCount :=
    Nat.min_le_right _ _
  generalize min (len / 2) (4096 - m.micExtBufferCount) = L at b1 b2 ⊢
  unfold maxlen
  rw [add32_small _ L (by omega), add32_small _ L (by omega)]
  by_cases hw : m.micExtBufferWritePos + L > 4096
  · rw [if_pos hw]
    dsimp only
    rw [sub32_small 4096 _ hwp (by omega), sub32_small L _ (by omega) (by omega)]
    refine ⟨rfl, by omega, by omega, fun j hj => ?_, fun k hk => ?_⟩
    · unfold memcpy
      by_cases c : 4096 - m.micExtBufferWritePos ≤ j
      · rw [if_pos (by omega)]
        congr 1
        omega
      · rw [if_neg (by omega), if_pos (by omega)]
        congr 1
        omega
    · unfold memcpy
      by_cases c1 : 0 ≤ k ∧ k < 0 + (L - (4096 - m.micExtBufferWritePos))
      · exact absurd rfl (show k ≠ k from by
          have := hk (k + (4096 - m.micExtBufferWritePos)) (by omega)
          intro _
          omega)
      · rw [if_neg c1]
        by_cases c2 : m.micExtBufferWritePos ≤ k ∧
            k < m.micExtBufferWritePos + (4096 - m.micExtBufferWritePos)
        · have := hk (k - m.micExtBufferWritePos) (by omega)
          omega
        · rw [if_neg c2]
  · rw [if_neg hw]
    dsimp only
    refine ⟨rfl, by omega, rfl, fun j hj => ?_, fun k hk => ?_⟩
    · unfold memcpy
      rw [if_pos (by omega)]
      congr 1
      omega
    · unfold memcpy
      by_cases c2 : m.micExtBufferWritePos ≤ k ∧ k < m.micExtBufferWritePos + L
      · have := hk (k - m.micExtBufferWritePos) (by omega)
        omega
      · rw [if_neg c2]

end Mic

namespace Mic

theorem micCallback_inv (input : Nat → Int) (len : Nat) (m : Mic) (hlen : len < 2 ^ 31)
    (h : ExtMode m) (hc : Consistent m) :
    ExtMode (micCallback input len m) ∧ Consistent (micCallback input len m) := by
  obtain ⟨h1, h2, h3, h4, h5, h6⟩ := h
  unfold maxlen at h3 h4 h5 h6
  obtain ⟨f1, f2, f3, f4, _, _⟩ := micCallback_fields input len m
  obtain ⟨e1, e2, e3, _, _⟩ := micCallback_ext input len m h5 h6 hlen
  unfold Consistent maxlen at hc ⊢
  unfold ExtMode maxlen
  rw [f1, f2, f3, f4, e1, e3]
  refine ⟨⟨h1, h2, h3, h4, e2, by omega⟩, by omega⟩

theorem micProcess_inv (c : MicCall) (m : Mic) (h : ExtMode m) (hc : Consistent m) :
    ExtMode (micProcess c m) ∧ Consistent (micProcess c m) ∧
    (micProcess c m).micExtBuffer = m.micExtBuffer ∧
    (micProcess c m).hasConsole = m.hasConsole ∧
    (micProcess c m).micExtBufferCount = m.micExtBufferCount - min 735 m.micExtBufferCount ∧
    (micProcess c m).micBufferReadPos % 4096
      = (m.micBufferReadPos + min 735 m.micExtBufferCount) % 4096 := by
  have heq := micProcess_ext_eq c m h
  obtain ⟨h1, h2, h3, h4, h5, h6⟩ := h
  unfold maxlen at h3 h4 h5 h6
  obtain ⟨r1, r2, _⟩ := readSlice_ext m.micExtBuffer c.tmp m.micBufferReadPos
    (min 735 m.micExtBufferCount) h4 (Nat.min_le_left _ _)
  unfold Consistent maxlen at hc ⊢
  unfold ExtMode maxlen
  rw [heq]
  dsimp only
  refine ⟨⟨h1, h2, h3, r1, h5, by omega⟩, by omega, rfl, rfl, rfl, r2⟩

theorem audioInit_ext (wav : Option ((Nat → Int) × Nat)) (m : Mic) :
    ExtMode (audioInit 1 wav m) ∧ Consistent (audioInit 1 wav m) ∧
    (audioInit 1 wav m).micExtBufferCount = 0 := by
  unfold audioInit setupMicInputData ExtMode Consistent maxlen
  simp

theorem runEvents_snoc (evs : List Event) (e : Event) (m : Mic) :
    runEvents (evs ++ [e]) m = e.apply (runEvents evs m) := by
  simp [runEvents, List.foldl_append]

theorem runEvents_inv (evs : List Event) (m : Mic) (hfit : ∀ e ∈ evs, e.fits)
    (h : ExtMode m) (hc : Consistent m) :
    ExtMode (runEvents evs m) ∧ Consistent (runEvents evs m) := by
  induction evs using List.reverseRecOn with
  | nil => exact ⟨h, hc⟩
  | append_singleton evs e ih =>
    obtain ⟨i1, i2⟩ := ih (fun x hx => hfit x (List.mem_append_left _ hx))
    have he := hfit e (List.mem_append_right _ (List.mem_singleton_self e))
    rw [runEvents_snoc]
    cases e with
    | write input len => exact micCallback_inv input len _ he i1 i2
    | read c =>
      obtain ⟨p1, p2, _⟩ := micProcess_inv c _ i1 i2
      exact ⟨p1, p2⟩

/-- C23: starting from the buffer as `audioInit` leaves it in external-capture mode, after
every sequence of `micCallback` writes (of any length that fits the `int len`) and
`micProcess` reads, the count and both cursors are at most 4096; and a write that would
overflow brings the count to 4096, stores the first `4096 - count` samples of its input
from the write cursor onwards (wrapping) and leaves every unread sample as it was. -/
theorem ring_buffer_bounded (wav : Option ((Nat → Int) × Nat)) (m0 : Mic) (evs : List Event)
    (hfit : ∀ e ∈ evs, e.fits) :
    ((runEvents evs (audioInit 1 wav m0)).micExtBufferCount ≤ 4096 ∧
     (runEvents evs (audioInit 1 wav m0)).micExtBufferWritePos ≤ 4096 ∧
     (runEvents evs (audioInit 1 wav m0)).micBufferReadPos ≤ 4096) ∧
    (∀ (input : Nat → Int) (len : Nat), len < 2 ^ 31 →
      (runEvents evs (audioInit 1 wav m0)).micExtBufferCount + len / 2 > 4096 →
      (micCallback input len (runEvents evs (audioInit 1 wav m0))).micExtBufferCount = 4096 ∧
      (∀ j, j < 4096 - (runEvents evs (audioInit 1 wav m0)).micExtBufferCount →
        (micCallback input len (runEvents evs (audioInit 1 wav m0))).micExtBuffer
            (((runEvents evs (audioInit 1 wav m0)).micExtBufferWritePos + j) % 4096)
          = input j) ∧
      (∀ j, j < (runEvents evs (audioInit 1 wav m0)).micExtBufferCount →
        (micCallback input len (runEvents evs (audioInit 1 wav m0))).micExtBuffer
            (((runEvents evs (audioInit 1 wav m0)).micBufferReadPos + j) % 4096)
          = (runEvents evs (audioInit 1 wav m0)).micExtBuffer
            (((runEvents evs (audioInit 1 wav m0)).micBufferReadPos + j) % 4096))) := by
  obtain ⟨a1, a2, _⟩ := audioInit_ext wav m0
  obtain ⟨h, hc⟩ := runEvents_inv evs _ hfit a1 a2
  generalize runEvents evs (audioInit 1 wav m0) = m at h hc ⊢
  obtain ⟨_, _, _, h4, h5, h6⟩ := h
  unfold maxlen at h4 h5 h6
  unfold Consistent maxlen at hc
  refine ⟨⟨h6, h5, h4⟩, fun input len hlen hover => ?_⟩
  obtain ⟨e1, _, _, e4, e5⟩ := micCallback_ext input len m h5 h6 hlen
  have hmin : min (len / 2) (4096 - m.micExtBufferCount) = 4096 - m.micExtBufferCount := by
    omega
  rw [hmin] at e1 e4 e5
  refine ⟨by omega, e4, fun j hj => e5 _ (fun i hi => ?_)⟩
  omega

/-- C23, evaluated: 4000 samples are written, then 200 more, of which only the first 96
fit: the count is 4096 and the write cursor stands at the end of the buffer. -/
theorem ring_buffer_bounded_witness :
    (∀ e ∈ [Event.write ramp 8000, Event.write ramp 400], e.fits) ∧
    (runEvents [Event.write ramp 8000, Event.write ramp 400]
      (audioInit 1 none constructed)).micExtBufferCount ≤ 4096 ∧
    (runEvents [Event.write ramp 8000, Event.write ramp 400]
      (audioInit 1 none constructed)).micExtBufferCount = 4096 ∧
    (runEvents [Event.write ramp 8000, Event.write ramp 400]
      (audioInit 1 none constructed)).micExtBufferWritePos = 4096 :=
  ⟨by decide,
   (ring_buffer_bounded none constructed [Event.write ramp 8000, Event.write ramp 400]
      (by decide)).1.1,
   by decide, by decide⟩

end Mic

namespace Mic

theorem consumed_ext (c : MicCall) (m : Mic) (h : ExtMode m) (hcon : m.hasConsole = true) :
    consumed c m
      = (List.range (min 735 m.micExtBufferCount)).map
          (fun i => m.micExtBuffer ((m.micBufferReadPos + i) % 4096)) := by
  have hrp : m.micBufferReadPos ≤ 4096 := h.2.2.2.1
  have ha : min 735 m.micExtBufferCount ≤ 735 := Nat.min_le_left _ _
  obtain ⟨_, _, r3⟩ := readSlice_ext m.micExtBuffer c.tmp m.micBufferReadPos
    (min 735 m.micExtBufferCount) hrp ha
  unfold consumed kFrameLen
  rw [micProcess_ext_eq c m h]
  simp only [hcon, if_true, List.getLast?_append, List.getLast?_singleton, Option.or]
  rw [range_map_take _ _ _ ha]
  apply List.map_congr_left
  intro i hi
  have hi2 : i < min 735 m.micExtBufferCount := List.mem_range.mp hi
  rw [fillFrame_apply _ _ ha i (by omega), if_neg (by omega), if_neg (by omega)]
  exact r3 i hi2

theorem range_map_split (f : Nat → Int) (a b : Nat) :
    (List.range (a + b)).map f
      = (List.range a).map f ++ (List.range b).map (fun j => f (a + j)) := by
  rw [List.range_add, List.map_append, List.map_map]
  rfl

theorem drain_ext (input : Nat → Int) (cs : List MicCall) :
    ∀ (m : Mic) (off : Nat), ExtMode m → Consistent m → m.hasConsole = true →
      (∀ j, j < m.micExtBufferCount →
        m.micExtBuffer ((m.micBufferReadPos + j) % 4096) = input (off + j)) →
      (drain cs m).1
        = (List.range (min m.micExtBufferCount (cs.length * 735))).map
            (fun j => input (off + j)) ∧
      (drain cs m).2.micExtBufferCount = m.micExtBufferCount - cs.length * 735 ∧
      ExtMode (drain cs m).2 ∧ Consistent (drain cs m).2 := by
  induction cs with
  | nil =>
    intro m off h hc _ _
    simp only [drain, List.length_nil, Nat.zero_mul, Nat.min_zero, List.range_zero,
      List.map_nil, Nat.sub_zero]
    exact ⟨trivial, trivial, h, hc⟩
  | cons c cs ih =>
    intro m off h hc hcon hdata
    obtain ⟨p1, p2, p3, p4, p5, p6⟩ := micProcess_inv c m h hc
    have hnext : ∀ j, j < (micProcess c m).micExtBufferCount →
        (micProcess c m).micExtBuffer (((micProcess c m).micBufferReadPos + j) % 4096)
          = input (off + min 735 m.micExtBufferCount + j) := by
      intro j hj
      rw [p5] at hj
      rw [p3]
      have e : ((micProcess c m).micBufferReadPos + j) % 4096
          = (m.micBufferReadPos + (min 735 m.micExtBufferCount + j)) % 4096 := by omega
      rw [e, hdata _ (by omega)]
      congr 1
      omega
    obtain ⟨i1, i2, i3, i4⟩ := ih (micProcess c m) (off + min 735 m.micExtBufferCount)
      p1 p2 (p4.trans hcon) hnext
    simp only [drain]
    refine ⟨?_, ?_, i3, i4⟩
    · rw [i1, consumed_ext c m h hcon, p5]
      have hsplit : min m.micExtBufferCount ((c :: cs).length * 735)
          = min 735 m.micExtBufferCount
            + min (m.micExtBufferCount - min 735 m.micExtBufferCount) (cs.length * 735) := by
        simp only [List.length_cons]
        omega
      rw [hsplit, range_map_split]
      congr 1
      · apply List.map_congr_left
        intro i hi
        have hi2 : i < min 735 m.micExtBufferCount := List.mem_range.mp hi
        exact hdata i (by omega)
      · apply List.map_congr_left
        intro i _
        congr 1
        omega
    · rw [i2, p5]
      simp only [List.length_cons]
      omega

/-- C22: for the external-capture ring buffer (a machine present) in an empty,
consistent state, with the read cursor equal to the write cursor modulo 4096 at any
position, writing `L < 4096` samples with `micCallback` and then reading with enough
successive `micProcess` calls returns exactly the `L` written samples in their original
order (the consumed prefixes of the forwarded frames, concatenated) and leaves the
buffer empty and consistent. -/
theorem ring_buffer_roundtrip (m : Mic) (input : Nat → Int) (len : Nat) (cs : List MicCall)
    (hext : ExtMode m) (hcon : m.hasConsole = true) (hempty : m.micExtBufferCount = 0)
    (hcons : Consistent m) (hL : len / 2 < 4096) (hcs : len / 2 ≤ cs.length * 735) :
    (drain cs (micCallback input len m)).1 = (List.range (len / 2)).map input ∧
    (drain cs (micCallback input len m)).2.micExtBufferCount = 0 ∧
    Consistent (drain cs (micCallback input len m)).2 ∧
    ExtMode (drain cs (micCallback input len m)).2 := by
  have hlen : len < 2 ^ 31 := by
    have : (2 : Nat) ^ 31 = 2147483648 := by norm_num
    omega
  obtain ⟨w1, w2⟩ := micCallback_inv input len m hlen hext hcons
  obtain ⟨f1, _, _, _, f5, _⟩ := micCallback_fields input len m
  have h5 : m.micExtBufferWritePos ≤ 4096 := hext.2.2.2.2.1
  have h6 : m.micExtBufferCount ≤ 4096 := hext.2.2.2.2.2
  obtain ⟨e1, _, _, e4, _⟩ := micCallback_ext input len m h5 h6 hlen
  have hmin : min (len / 2) (4096 - m.micExtBufferCount) = len / 2 := by omega
  rw [hmin] at e1 e4
  rw [hempty, Nat.zero_add] at e1
  unfold Consistent maxlen at hcons
  have hdata : ∀ j, j < (micCallback input len m).micExtBufferCount →
      (micCallback input len m).micExtBuffer
        (((micCallback input len m).micBufferReadPos + j) % 4096) = input (0 + j) := by
    intro j hj
    rw [e1] at hj
    rw [f1, Nat.zero_add]
    have e : (m.micBufferReadPos + j) % 4096 = (m.micExtBufferWritePos + j) % 4096 := by
      omega
    rw [e]
    exact e4 j hj
  obtain ⟨d1, d2, d3, d4⟩ := drain_ext input cs (micCallback input len m) 0 w1 w2
    (f5.trans hcon) hdata
  rw [e1] at d1 d2
  refine ⟨?_, by omega, d4, d3⟩
  rw [d1, Nat.min_eq_left hcs]
  apply List.map_congr_left
  intro i _
  rw [Nat.zero_add]

/-- C22, evaluated: with both cursors at 4000, writing 200 samples wraps past the end of
the buffer; one `micProcess` call returns the 200 samples in order and leaves the
buffer empty. -/
theorem ring_buffer_roundtrip_witness :
    (ExtMode { audioInit 1 none constructed with
        hasConsole := true, micBufferReadPos := 4000, micExtBufferWritePos := 4000 } ∧
     Consistent { audioInit 1 none constructed with
        hasConsole := true, micBufferReadPos := 4000, micExtBufferWritePos := 4000 } ∧
     400 / 2 < 4096 ∧ 400 / 2 ≤ [plainCall].length * 735) ∧
    (drain [plainCall] (micCallback ramp 400
      { audioInit 1 none constructed with
        hasConsole := true, micBufferReadPos := 4000, micExtBufferWritePos := 4000 })).1
      = (List.range (400 / 2)).map ramp ∧
    (drain [plainCall] (micCallback ramp 400
      { audioInit 1 none constructed with
        hasConsole := true, micBufferReadPos := 4000,
        micExtBufferWritePos := 4000 })).2.micExtBufferCount = 0 :=
  ⟨by decide,
   (ring_buffer_roundtrip
      { audioInit 1 none constructed with
        hasConsole := true, micBufferReadPos := 4000, micExtBufferWritePos := 4000 }
      ramp 400 [plainCall] (by decide) rfl rfl (by decide) (by decide) (by decide)).1,
   (ring_buffer_roundtrip
      { audioInit 1 none constructed with
        hasConsole := true, micBufferReadPos := 4000, micExtBufferWritePos := 4000 }
      ramp 400 [plainCall] (by decide) rfl rfl (by decide) (by decide) (by decide)).2.1⟩

end Mic

namespace Mic

/-- C24, the code at the failing input: 1000 samples were written and 735 of them read,
so that the read cursor is 735, the write cursor 1000 and the count 265.  After
`audioUpdateSettings` (external capture selected again) the read cursor is 0 while the
write cursor is still 1000 and the count still 265: the read cursor plus the count is
no longer the write cursor, and the read cursor points at the sample 1, which was
already consumed, not at the oldest unread sample 736. -/
theorem settings_change_resets_read_cursor_only :
    (afterUse.micBufferReadPos = 735 ∧ afterUse.micExtBufferWritePos = 1000 ∧
      afterUse.micExtBufferCount = 265 ∧ Consistent afterUse) ∧
    ((audioUpdateSettings 1 none afterUse).micBufferReadPos = 0 ∧
      (audioUpdateSettings 1 none afterUse).micExtBufferWritePos = 1000 ∧
      (audioUpdateSettings 1 none afterUse).micExtBufferCount = 265 ∧
      ¬ Consistent (audioUpdateSettings 1 none afterUse)) ∧
    ((audioUpdateSettings 1 none afterUse).micExtBuffer
        (audioUpdateSettings 1 none afterUse).micBufferReadPos = 1 ∧
      (audioUpdateSettings 1 none afterUse).micExtBuffer 735 = 736) := by
  decide

theorem range_map_zero (n : Nat) (f : Nat → Int) (h : ∀ i, i < n → f i = 0) :
    (List.range n).map f = List.replicate n 0 := by
  rw [List.eq_replicate_iff]
  refine ⟨by simp, fun b hb => ?_⟩
  obtain ⟨i, hi, rfl⟩ := List.mem_map.mp hb
  exact h i (List.mem_range.mp hi)

/-- C25, the code side: in looped-sample-file mode with a loaded sample buffer, the
hotkey held, a machine present and the read cursor inside the buffer, as long as the
count of the external ring buffer is 0 (as `audioInit` leaves it, and no capture device
runs in this mode) a call of `micProcess` forwards a frame of 735 zeros and leaves the
read cursor where it was: the sample file is not played. -/
theorem wav_mode_forwards_zeros (c : MicCall) (m : Mic) (data : Nat → Int)
    (htype : m.micInputType = 2) (hcmd : c.cmd = true)
    (hbuf : m.micBuffer = MicBufferPtr.micWavBuffer) (hwav : m.micWavBuffer = some data)
    (hcount : m.micExtBufferCount = 0) (hcon : m.hasConsole = true)
    (hrp : m.micBufferReadPos ≤ m.micBufferLength) (hlen : m.micBufferLength < 2 ^ 32) :
    (micProcess c m).micFrames = m.micFrames ++ [some (List.replicate 735 0)] ∧
    (micProcess c m).micBufferReadPos = m.micBufferReadPos := by
  have hlen2 : m.micBufferLength < 4294967296 := by
    have : (2 : Nat) ^ 32 = 4294967296 := by norm_num
    omega
  have hdata : m.micBufferData = some data := by
    unfold micBufferData
    rw [hbuf, hwav]
  have hsl : readSlice data m.micBufferReadPos m.micBufferLength 0 c.tmp
      = (memcpy c.tmp 0 data m.micBufferReadPos 0, m.micBufferReadPos) := by
    unfold readSlice
    rw [add32_small _ _ (by omega), if_neg (by omega)]
    rfl
  have hfill : ∀ tmp : Nat → Int,
      (List.range 735).map (fillFrame 0 tmp) = List.replicate 735 0 := by
    intro tmp
    apply range_map_zero
    intro i hi
    rw [fillFrame_apply 0 tmp (by omega) i hi, if_pos rfl]
  have h20 : ¬ ((2 : Int) = 0) := by decide
  have hz : (if (0 : Nat) < 735 then 0 else 735) = 0 := rfl
  unfold micProcess
  simp only [htype, hcmd, hdata, hcount, hcon, MicInputFrame, kFrameLen, hz, hsl, hfill,
    Bool.not_true, Bool.and_false, Bool.false_eq_true, if_false, if_true, h20, or_true,
    and_self]

/-- C25, evaluated: with a sample buffer of 1000 samples 1, 2, 3, ... loaded and the
hotkey held, `micProcess` forwards 735 zeros although the first sample of the buffer is
1, and the read cursor stays 0. -/
theorem wav_mode_forwards_zeros_witness :
    (wavLoaded.micInputType = 2 ∧ hotkeyCall.cmd = true ∧
      wavLoaded.micBuffer = MicBufferPtr.micWavBuffer ∧ wavLoaded.micBufferLength = 1000 ∧
      wavLoaded.micExtBufferCount = 0 ∧ wavLoaded.hasConsole = true ∧ ramp 0 = 1) ∧
    (micProcess hotkeyCall wavLoaded).micFrames = [some (List.replicate 735 0)] ∧
    (micProcess hotkeyCall wavLoaded).micBufferReadPos = 0 :=
  ⟨by decide,
   wav_mode_forwards_zeros hotkeyCall wavLoaded ramp rfl rfl rfl rfl rfl rfl
     (by decide) (by decide)⟩

end Mic

end MelonDS
